import Mathlib

/-!
Console host telemetry aggregator (`src/host/telemetry.cpp`).

A shallow embedding of the `Telemetry` class: the table of process file names
(packed name buffer, arrival-order slot arrays, alphabetical index), the binary
search `FindProcessName`, `LogProcessConnected`, `TotalCodesForPreviousProcess`
and the remaining public operations, followed by the properties proved about them.

Conventions.
* A `WCHAR` string handed to a function is the list of its code units; the end
  of the list stands for the terminating `L'\0'` (and a `0` inside the list ends
  the string early, as it would in memory).
* `unsigned int` counters that the code increments without a guard wrap modulo
  `2^32`.  The slot count and the write cursor are only advanced under the
  capacity checks of `LogProcessConnected`, so they are plain sums.
* The capacity constants and the `ApiCall` enumerators live in `telemetry.hpp`,
  which is not among the sources; they are the fields of `Capacity`.
* A `float` is the rational its value denotes; a conversion to `float` and each
  `float` operation round to the nearest binary32 value, a tie to the even one.
* `static_cast<int>` of a `time_t` reduces the value modulo `2^32` into the range
  of `int`.
-/

namespace Terminal

/-! ## Platform constants and library routines -/

/-- Windows `MAX_PATH`. -/
def MAX_PATH : Nat := 260

/-- Largest `size_t` (64-bit host); the "no process attributed" marker. -/
def SIZE_MAX : Nat := 2 ^ 64 - 1

/-- Largest character count `strsafe.h` accepts. -/
def STRSAFE_MAX_CCH : Nat := 2147483647

/-- Modulus of `unsigned int` arithmetic. -/
def UINT_MOD : Nat := 2 ^ 32

/-- `static_cast<int>` of a 64-bit `time_t`: the value reduced modulo `2^32` into the
range of `int`. -/
def toInt32 (x : Int) : Int := (x + 2 ^ 31) % 2 ^ 32 - 2 ^ 31

/-- The integer nearest to `x`, the even one of the two when `x` is half way. -/
def roundHalfEven (x : ℚ) : Int :=
  if x - (⌊x⌋ : ℚ) < 1 / 2 then ⌊x⌋
  else if 1 / 2 < x - (⌊x⌋ : ℚ) then ⌊x⌋ + 1
  else if ⌊x⌋ % 2 = 0 then ⌊x⌋ else ⌊x⌋ + 1

/-- The `float` (IEEE 754 binary32) nearest to `q`, a tie to the even significand:
the result of a conversion to `float` and of a `float` operation whose exact value
is `q`.  The significand has 24 bits, so the spacing at `q` is `2 ^ (e - 23)` for
the binary exponent `e` of `q`, not below `-126` (the subnormal range).  A `float`
is held as the rational it denotes; infinities and NaN are not represented (the
operations below reach them only by dividing by zero, or beyond `2 ^ 128`). -/
def roundToFloat (q : ℚ) : ℚ :=
  (roundHalfEven (q / (2 : ℚ) ^ (max (Int.log 2 |q|) (-126) - 23)) : ℚ) *
    (2 : ℚ) ^ (max (Int.log 2 |q|) (-126) - 23)

/-- Lower-casing applied by `_wcsnicmp` in the C locale: only `A`..`Z` change. -/
def towlower (c : Nat) : Nat := if 65 ≤ c ∧ c ≤ 90 then c + 32 else c

/-- CRT `_wcsnicmp(first, last, count)`: compare at most `count` lower-cased code
units, stopping at the first difference or at a terminator; the result is the
difference of the last pair compared. -/
def wcsnicmp : List Nat → List Nat → Nat → Int
  | _, _, 0 => 0
  | first, last, count + 1 =>
    let f := towlower (first.headD 0)
    let l := towlower (last.headD 0)
    if f ≠ 0 ∧ f = l then wcsnicmp first.tail last.tail count
    else (f : Int) - (l : Int)

/-- The characters of a string up to (not including) its terminator. -/
def wcstr (s : List Nat) : List Nat := s.takeWhile (fun c => c ≠ 0)

/-- CRT `wcslen`. -/
def wcslen (s : List Nat) : Nat := (wcstr s).length

/-- Store `chars` into `buf` starting at element `pos`. -/
def writeAt (buf : List Nat) (pos : Nat) (chars : List Nat) : List Nat :=
  buf.take pos ++ chars ++ buf.drop (pos + chars.length)

/-- `StringCchCopyW(buf + dest, cchDest, src)` of `strsafe.h`: returns whether the
copy succeeded and the buffer afterwards.  A zero or oversized `cchDest` fails
without writing; a source that does not fit is truncated to `cchDest - 1`
characters, terminated, and reported as a failure. -/
def StringCchCopyW (buf : List Nat) (dest cchDest : Nat) (src : List Nat) : Bool × List Nat :=
  if cchDest = 0 ∨ STRSAFE_MAX_CCH < cchDest then (false, buf)
  else if wcslen src < cchDest then (true, writeAt buf dest (wcstr src ++ [0]))
  else (false, writeAt buf dest ((wcstr src).take (cchDest - 1) ++ [0]))

/-- Modelled from the spec: `c_pwszBashExeName` of `telemetry.hpp` (not among the
sources), the "fixed well-known identifier" whose first sighting sets the bash flag;
the comments of `LogProcessConnected` name it: `L"bash.exe"`. -/
def c_pwszBashExeName : List Nat := [98, 97, 115, 104, 46, 101, 120, 101]

/-- Build-time constants of `telemetry.hpp`: the capacities and the values of the
`ApiCall` enumerators that `WriteFinalTraceLog` names. -/
structure Capacity where
  /-- Value of `c_iMaxProcessesConnected`, the length of every per-process array. -/
  c_iMaxProcessesConnected : Nat
  /-- Value of `ARRAYSIZE(_wchProcessFileNames)`. -/
  cchProcessFileNames : Nat
  /-- Number of enumerators of `ApiCall`, the length of both API counter arrays. -/
  cApiCalls : Nat
  /-- Values of the 58 enumerators whose counts the `ApiUsed` event logs, from
  `AddConsoleAlias` to `WriteConsoleOutputCharacter`, in the order logged. -/
  rgApiUsed : List Nat
  /-- Values of the 19 enumerators whose counts the `ApiAnsiUsed` event logs, from
  `AddConsoleAlias` to `WriteConsoleOutputCharacter`, in the order logged. -/
  rgApiAnsiUsed : List Nat

/-- The constants are in the range where the C arithmetic of the checks does not
wrap: the buffer has at least the 10 elements the admission check subtracts, its
size is a legal `strsafe` count, and the slot capacity is an `int`. -/
def Capacity.Valid (K : Capacity) : Prop :=
  10 ≤ K.cchProcessFileNames ∧ K.cchProcessFileNames ≤ STRSAFE_MAX_CCH ∧
    K.c_iMaxProcessesConnected < 2 ^ 31

instance (K : Capacity) : Decidable K.Valid :=
  inferInstanceAs (Decidable (10 ≤ K.cchProcessFileNames ∧
    K.cchProcessFileNames ≤ STRSAFE_MAX_CCH ∧ K.c_iMaxProcessesConnected < 2 ^ 31))

/-! ## State -/

/-- Modelled from the spec: the pending-counters source `TermTelemetry::Instance()`
(its class is not among the sources): three process-agnostic running counts, each
read and zeroed by its `GetAndReset...` call, and the flag set by
`SetShouldWriteFinalLog`. -/
structure TermTelemetry where
  _uiTimesUsedCurrent : Nat
  _uiTimesFailedCurrent : Nat
  _uiTimesFailedOutsideRangeCurrent : Nat
  _fShouldWriteFinalLog : Bool

/-- Data members of `class Telemetry`, in the order of the constructor's initialiser
list.  Arrays are maps from the element index; `_wchProcessFileNames` is the list
of its `WCHAR` elements; a `float` member is the rational its value denotes. -/
structure Telemetry where
  _fpFindStringLengthAverage : ℚ
  _fpDirectionDownAverage : ℚ
  _fpMatchCaseAverage : ℚ
  _uiFindNextClickedTotal : Nat
  _tStartedAt : Int
  _wchProcessFileNames : List Nat
  _iProcessFileNamesNext : Nat
  _iProcessConnectedCurrently : Nat
  _rgiProccessFileNameIndex : Nat → Nat
  _rguiProcessFileNamesCount : Nat → Nat
  _rgiAlphabeticalIndex : Nat → Nat
  _rguiProcessFileNamesCodesCount : Nat → Nat
  _rguiProcessFileNamesFailedCodesCount : Nat → Nat
  _rguiProcessFileNamesFailedOutsideCodesCount : Nat → Nat
  _rguiTimesApiUsed : Nat → Nat
  _rguiTimesApiUsedAnsi : Nat → Nat
  _uiNumberProcessFileNames : Nat
  _fBashUsed : Bool
  _fKeyboardTextEditingUsed : Bool
  _fKeyboardTextSelectionUsed : Bool
  _fUserInteractiveForTelemetry : Bool
  _fCtrlPgUpPgDnUsed : Bool

/-- What the process-identity calls of `LogProcessConnected` return for a handle
on which `QueryFullProcessImageName` succeeds. -/
structure ProcessImage where
  /-- `PathFindFileName(wszFilePathAndName)`: the image name without its directory. -/
  pwszFileName : List Nat
  /-- `none` when `GetSystemDirectory` fails, else whether `PathIsSameRoot` of the
  image path and the system directory is `TRUE`. -/
  fSameRootAsSystemDirectory : Option Bool

/-- The part of `g_ciConsoleInformation` that `WriteFinalTraceLog` reads. -/
structure ConsoleInformation where
  /-- Whether `LinkTitle == nullptr`. -/
  fLinkTitleIsNull : Bool
  /-- Values of the settings getters logged by the `Settings` event, in order. -/
  settings : List Int

/-- Events written to the trace-logging provider. -/
inductive TraceEvent where
  | FindDialogUsed (StringLengthAverage DirectionDownAverage MatchCaseAverage : ℚ)
      (FindNextButtonClickedTotal : Nat)
  | SessionEnding (BashUsed CtrlPgUpPgDnUsed KeyboardTextEditingUsed
      KeyboardTextSelectionUsed LaunchedFromShortcut : Bool)
      (ProcessesConnected ProcessesConnectedCount ProcessesConnectedCodesCount
        ProcessesConnectedFailedCodesCount ProcessesConnectedFailedOutsideCount : List Nat)
      (StartedUsingAtSeconds EndedUsingAtSeconds : Int)
  | Settings (values : List Int)
  /-- The counts of the enumerators the event names, in the order logged. -/
  | ApiUsed (counts : List Nat)
  /-- The ANSI counts of the enumerators the event names, in the order logged. -/
  | ApiAnsiUsed (counts : List Nat)

/-- The aggregator together with the collaborators its operations touch. -/
structure Host where
  telemetry : Telemetry
  term : TermTelemetry
  /-- Events written so far, oldest first. -/
  events : List TraceEvent

/-- Array store `a[i] = v`. -/
def setAt (a : Nat → Nat) (i v : Nat) : Nat → Nat := fun j => if j = i then v else a j

/-- The first `n` elements of an array, as logged by `TraceLoggingUInt32Array`. -/
def arrayPrefix (a : Nat → Nat) (n : Nat) : List Nat := (List.range n).map a

/-- `Telemetry::Telemetry()`: everything zero, the cursor at element 1 (element 0
holds the string count), no process attributed; `tStartedAt` is what `time` returns. -/
def Telemetry.new (K : Capacity) (tStartedAt : Int) : Telemetry where
  _fpFindStringLengthAverage := 0
  _fpDirectionDownAverage := 0
  _fpMatchCaseAverage := 0
  _uiFindNextClickedTotal := 0
  _tStartedAt := tStartedAt
  _wchProcessFileNames := List.replicate K.cchProcessFileNames 0
  _iProcessFileNamesNext := 1
  _iProcessConnectedCurrently := SIZE_MAX
  _rgiProccessFileNameIndex := fun _ => 0
  _rguiProcessFileNamesCount := fun _ => 0
  _rgiAlphabeticalIndex := fun _ => 0
  _rguiProcessFileNamesCodesCount := fun _ => 0
  _rguiProcessFileNamesFailedCodesCount := fun _ => 0
  _rguiProcessFileNamesFailedOutsideCodesCount := fun _ => 0
  _rguiTimesApiUsed := fun _ => 0
  _rguiTimesApiUsedAnsi := fun _ => 0
  _uiNumberProcessFileNames := 0
  _fBashUsed := false
  _fKeyboardTextEditingUsed := false
  _fKeyboardTextSelectionUsed := false
  _fUserInteractiveForTelemetry := false
  _fCtrlPgUpPgDnUsed := false

/-- The host right after the aggregator is constructed. -/
def Host.new (K : Capacity) (tStartedAt : Int) : Host where
  telemetry := Telemetry.new K tStartedAt
  term := ⟨0, 0, 0, false⟩
  events := []

namespace Telemetry

/-! ## Operations -/

/-- `Telemetry::SetUserInteractive`. -/
def SetUserInteractive (t : Telemetry) : Telemetry :=
  { t with _fUserInteractiveForTelemetry := true }

/-- `Telemetry::SetCtrlPgUpPgDnUsed`. -/
def SetCtrlPgUpPgDnUsed (t : Telemetry) : Telemetry :=
  SetUserInteractive { t with _fCtrlPgUpPgDnUsed := true }

/-- `Telemetry::SetWindowSizeChanged`. -/
def SetWindowSizeChanged (t : Telemetry) : Telemetry := SetUserInteractive t

/-- `Telemetry::SetContextMenuUsed`. -/
def SetContextMenuUsed (t : Telemetry) : Telemetry := SetUserInteractive t

/-- `Telemetry::SetKeyboardTextSelectionUsed`. -/
def SetKeyboardTextSelectionUsed (t : Telemetry) : Telemetry :=
  SetUserInteractive { t with _fKeyboardTextSelectionUsed := true }

/-- `Telemetry::SetKeyboardTextEditingUsed`. -/
def SetKeyboardTextEditingUsed (t : Telemetry) : Telemetry :=
  SetUserInteractive { t with _fKeyboardTextEditingUsed := true }

/-- `Telemetry::LogApiCall(api, fUnicode)`. -/
def LogApiCall (api : Nat) (fUnicode : Bool) (t : Telemetry) : Telemetry :=
  if fUnicode then
    { t with _rguiTimesApiUsed :=
        setAt t._rguiTimesApiUsed api ((t._rguiTimesApiUsed api + 1) % UINT_MOD) }
  else
    { t with _rguiTimesApiUsedAnsi :=
        setAt t._rguiTimesApiUsedAnsi api ((t._rguiTimesApiUsedAnsi api + 1) % UINT_MOD) }

/-- `Telemetry::LogApiCall(api)`, the one-argument overload. -/
def LogApiCall1 (api : Nat) (t : Telemetry) : Telemetry :=
  { t with _rguiTimesApiUsed :=
      setAt t._rguiTimesApiUsed api ((t._rguiTimesApiUsed api + 1) % UINT_MOD) }

/-- The expression `(a * n + x) / d` of `LogFindDialogNextClicked` for the `float`
`a`: the integers `n`, `x` and `d` are converted to `float`, and the product, the sum
and the quotient are each rounded to `float`. -/
def runningAverage (a : ℚ) (n x d : Nat) : ℚ :=
  roundToFloat (roundToFloat (roundToFloat (a * roundToFloat (n : ℚ)) +
    roundToFloat (x : ℚ)) / roundToFloat (d : ℚ))

/-- `Telemetry::LogFindDialogNextClicked`: each running average is recomputed in
`float` arithmetic from the `unsigned int` sample count, whose successor wraps.  At
the call that wraps it (the `2^32`-th) the divisor is 0 and the code holds an infinity
or NaN, which is not represented here: the quotient is then 0. -/
def LogFindDialogNextClicked (uiStringLength : Nat) (fDirectionDown fMatchCase : Bool)
    (t : Telemetry) : Telemetry :=
  let n := t._uiFindNextClickedTotal
  let d := (t._uiFindNextClickedTotal + 1) % UINT_MOD
  { t with
    _fpFindStringLengthAverage := runningAverage t._fpFindStringLengthAverage n uiStringLength d
    _fpDirectionDownAverage :=
      runningAverage t._fpDirectionDownAverage n (if fDirectionDown then 1 else 0) d
    _fpMatchCaseAverage := runningAverage t._fpMatchCaseAverage n (if fMatchCase then 1 else 0) d
    _uiFindNextClickedTotal := (t._uiFindNextClickedTotal + 1) % UINT_MOD }

/-- `Telemetry::FindDialogClosed`: log the find-dialog summary, then zero it. -/
def FindDialogClosed (h : Host) : Host :=
  let t := h.telemetry
  { h with
    events := h.events ++ [TraceEvent.FindDialogUsed t._fpFindStringLengthAverage
      t._fpDirectionDownAverage t._fpMatchCaseAverage t._uiFindNextClickedTotal]
    telemetry := { t with
      _fpFindStringLengthAverage := 0
      _fpDirectionDownAverage := 0
      _fpMatchCaseAverage := 0
      _uiFindNextClickedTotal := 0 } }

/-- `Telemetry::TotalCodesForPreviousProcess`: read and zero the three pending
counters (the three `GetAndReset...` calls on `TermTelemetry::Instance()`, made before
the test); if a process is attributed, add them to its three code counters and
clear the attribution. -/
def TotalCodesForPreviousProcess (K : Capacity) (h : Host) : Host :=
  let uiTimesUsedCurrent := h.term._uiTimesUsedCurrent
  let uiTimesFailedCurrent := h.term._uiTimesFailedCurrent
  let uiTimesFailedOutsideRangeCurrent := h.term._uiTimesFailedOutsideRangeCurrent
  let term : TermTelemetry :=
    { h.term with
      _uiTimesUsedCurrent := 0
      _uiTimesFailedCurrent := 0
      _uiTimesFailedOutsideRangeCurrent := 0 }
  let t := h.telemetry
  let i := t._iProcessConnectedCurrently
  if i < K.c_iMaxProcessesConnected then
    { h with
      term := term
      telemetry := { t with
        _rguiProcessFileNamesCodesCount := setAt t._rguiProcessFileNamesCodesCount i
          ((t._rguiProcessFileNamesCodesCount i + uiTimesUsedCurrent) % UINT_MOD)
        _rguiProcessFileNamesFailedCodesCount := setAt t._rguiProcessFileNamesFailedCodesCount i
          ((t._rguiProcessFileNamesFailedCodesCount i + uiTimesFailedCurrent) % UINT_MOD)
        _rguiProcessFileNamesFailedOutsideCodesCount :=
          setAt t._rguiProcessFileNamesFailedOutsideCodesCount i
            ((t._rguiProcessFileNamesFailedOutsideCodesCount i
              + uiTimesFailedOutsideRangeCurrent) % UINT_MOD)
        _iProcessConnectedCurrently := SIZE_MAX } }
  else { h with term := term }

/-- The string `_wchProcessFileNames + _rgiProccessFileNameIndex[i]` of slot `i`. -/
def processFileName (t : Telemetry) (i : Nat) : List Nat :=
  t._wchProcessFileNames.drop (t._rgiProccessFileNameIndex i)

/-- The `while` loop of `FindProcessName` on the `int` locals `iMin`, `iMax`, `iMid`
and `result`; `none` when `fuel` iterations were not enough to leave it. -/
def FindProcessName.loop (t : Telemetry) (pszProcessName : List Nat) :
    Nat → Int → Int → Int → Int → Option (Bool × Nat)
  | 0, _, _, _, _ => none
  | fuel + 1, iMin, iMax, iMid, result =>
    if iMin ≤ iMax then
      let iMid := Int.tdiv (iMax + iMin) 2
      let result := wcsnicmp pszProcessName
        (processFileName t (t._rgiAlphabeticalIndex iMid.toNat)) MAX_PATH
      if result < 0 then FindProcessName.loop t pszProcessName fuel iMin (iMid - 1) iMid result
      else if result > 0 then
        FindProcessName.loop t pszProcessName fuel (iMid + 1) iMax iMid result
      else some (true, iMid.toNat)
    else some (false, if result > 0 then (iMid + 1).toNat else iMid.toNat)

/-- `Telemetry::FindProcessName`: the returned `bool` and `*iPosition`.  Every pass
of the loop shrinks `iMax - iMin`, so one more pass than there are names is
allowed for. -/
def FindProcessName (t : Telemetry) (pszProcessName : List Nat) : Option (Bool × Nat) :=
  FindProcessName.loop t pszProcessName (t._uiNumberProcessFileNames + 1)
    0 ((t._uiNumberProcessFileNames : Int) - 1) 0 0

/-- The shift loop of `LogProcessConnected`:
`for (n = count; n > iFileName; n--) a[n] = a[n - 1]`, started at `n`. -/
def shiftAlphabeticalIndex (a : Nat → Nat) (iFileName : Nat) : Nat → (Nat → Nat)
  | 0 => a
  | n + 1 =>
    if iFileName < n + 1 then shiftAlphabeticalIndex (setAt a (n + 1) (a n)) iFileName n
    else a

/-- The two bytes `(BYTE)n` and `(BYTE)(n >> 8)` stored at the start of the packed
buffer, read back as its first `WCHAR` (little-endian). -/
def countHeader (n : Nat) : Nat := n % 256 + 256 * (n / 256 % 256)

/-- `Telemetry::LogProcessConnected`.  `fEnabled` is `TraceLoggingProviderEnabled`;
`hProcess` is `none` when `QueryFullProcessImageName` fails. -/
def LogProcessConnected (K : Capacity) (fEnabled : Bool) (hProcess : Option ProcessImage)
    (h : Host) : Host :=
  if fEnabled then
    let h1 := TotalCodesForPreviousProcess K h
    match hProcess with
    | none => h1
    | some img =>
      let t := h1.telemetry
      let pwszFileName := img.pwszFileName
      match FindProcessName t pwszFileName with
      | none => h1
      | some (true, iFileName) =>
        let i := t._rgiAlphabeticalIndex iFileName
        { h1 with telemetry := { t with
            _iProcessConnectedCurrently := i
            _rguiProcessFileNamesCount := setAt t._rguiProcessFileNamesCount i
              ((t._rguiProcessFileNamesCount i + 1) % UINT_MOD) } }
      | some (false, iFileName) =>
        if t._uiNumberProcessFileNames < K.c_iMaxProcessesConnected ∧
            t._iProcessFileNamesNext < K.cchProcessFileNames - 10 then
          let fBashUsed :=
            if t._fBashUsed = false ∧ wcsnicmp c_pwszBashExeName pwszFileName MAX_PATH = 0 then
              match img.fSameRootAsSystemDirectory with
              | some fSameRoot => fSameRoot
              | none => t._fBashUsed
            else t._fBashUsed
          let copied := StringCchCopyW t._wchProcessFileNames t._iProcessFileNamesNext
            (K.cchProcessFileNames - t._iProcessFileNamesNext - 1) pwszFileName
          if copied.1 then
            let n := t._uiNumberProcessFileNames
            { h1 with telemetry := { t with
                _fBashUsed := fBashUsed
                _rgiAlphabeticalIndex :=
                  setAt (shiftAlphabeticalIndex t._rgiAlphabeticalIndex iFileName n) iFileName n
                _rgiProccessFileNameIndex :=
                  setAt t._rgiProccessFileNameIndex n t._iProcessFileNamesNext
                _rguiProcessFileNamesCount := setAt t._rguiProcessFileNamesCount n 1
                _iProcessFileNamesNext := t._iProcessFileNamesNext + wcslen pwszFileName + 1
                _iProcessConnectedCurrently := n
                _uiNumberProcessFileNames := n + 1
                _wchProcessFileNames := copied.2.set 0 (countHeader (n + 1)) } }
          else
            { h1 with telemetry := { t with
                _fBashUsed := fBashUsed
                _wchProcessFileNames := copied.2 } }
        else h1
  else h

/-- `Telemetry::WriteFinalTraceLog`.  `fEnabled` is `TraceLoggingProviderEnabled`,
`tEndedAt` what `time` returns.  `ApiAnsiUsed` is written when some element of
`_rguiTimesApiUsedAnsi` is not zero. -/
def WriteFinalTraceLog (K : Capacity) (fEnabled : Bool) (tEndedAt : Int)
    (ci : ConsoleInformation) (h : Host) : Host :=
  if fEnabled then
    let h0 : Host :=
      { h with term := { h.term with
          _fShouldWriteFinalLog := h.telemetry._fUserInteractiveForTelemetry } }
    if h0.telemetry._fUserInteractiveForTelemetry then
      let h1 := TotalCodesForPreviousProcess K h0
      let t := h1.telemetry
      let n := t._uiNumberProcessFileNames
      let sessionEnding := TraceEvent.SessionEnding t._fBashUsed t._fCtrlPgUpPgDnUsed
        t._fKeyboardTextEditingUsed t._fKeyboardTextSelectionUsed ci.fLinkTitleIsNull
        (t._wchProcessFileNames.take t._iProcessFileNamesNext)
        (arrayPrefix t._rguiProcessFileNamesCount n)
        (arrayPrefix t._rguiProcessFileNamesCodesCount n)
        (arrayPrefix t._rguiProcessFileNamesFailedCodesCount n)
        (arrayPrefix t._rguiProcessFileNamesFailedOutsideCodesCount n)
        (toInt32 t._tStartedAt) (toInt32 tEndedAt)
      let apiUsed := TraceEvent.ApiUsed (K.rgApiUsed.map t._rguiTimesApiUsed)
      let apiAnsiUsed :=
        if (arrayPrefix t._rguiTimesApiUsedAnsi K.cApiCalls).any (fun c => c != 0) then
          [TraceEvent.ApiAnsiUsed (K.rgApiAnsiUsed.map t._rguiTimesApiUsedAnsi)]
        else []
      { h1 with
        events := h1.events ++ [sessionEnding, TraceEvent.Settings ci.settings, apiUsed]
          ++ apiAnsiUsed }
    else h0
  else h

end Telemetry

/-! ## Sessions -/

/-- One call into the aggregator, or the terminal parser counting codes. -/
inductive Op where
  | SetUserInteractive
  | SetCtrlPgUpPgDnUsed
  | SetWindowSizeChanged
  | SetContextMenuUsed
  | SetKeyboardTextSelectionUsed
  | SetKeyboardTextEditingUsed
  | LogApiCall (api : Nat) (fUnicode : Bool)
  | LogApiCall1 (api : Nat)
  | LogFindDialogNextClicked (uiStringLength : Nat) (fDirectionDown fMatchCase : Bool)
  | FindDialogClosed
  | LogProcessConnected (fEnabled : Bool) (hProcess : Option ProcessImage)
  | WriteFinalTraceLog (fEnabled : Bool) (tEndedAt : Int) (ci : ConsoleInformation)
  /-- The terminal parser adds to its three pending counters. -/
  | TermCodes (used failed failedOutsideRange : Nat)

/-- Effect of one operation on the host. -/
def step (K : Capacity) (op : Op) (h : Host) : Host :=
  match op with
  | .SetUserInteractive => { h with telemetry := h.telemetry.SetUserInteractive }
  | .SetCtrlPgUpPgDnUsed => { h with telemetry := h.telemetry.SetCtrlPgUpPgDnUsed }
  | .SetWindowSizeChanged => { h with telemetry := h.telemetry.SetWindowSizeChanged }
  | .SetContextMenuUsed => { h with telemetry := h.telemetry.SetContextMenuUsed }
  | .SetKeyboardTextSelectionUsed =>
    { h with telemetry := h.telemetry.SetKeyboardTextSelectionUsed }
  | .SetKeyboardTextEditingUsed => { h with telemetry := h.telemetry.SetKeyboardTextEditingUsed }
  | .LogApiCall api fUnicode => { h with telemetry := h.telemetry.LogApiCall api fUnicode }
  | .LogApiCall1 api => { h with telemetry := h.telemetry.LogApiCall1 api }
  | .LogFindDialogNextClicked n d m =>
    { h with telemetry := h.telemetry.LogFindDialogNextClicked n d m }
  | .FindDialogClosed => Telemetry.FindDialogClosed h
  | .LogProcessConnected fEnabled hProcess => Telemetry.LogProcessConnected K fEnabled hProcess h
  | .WriteFinalTraceLog fEnabled tEndedAt ci => Telemetry.WriteFinalTraceLog K fEnabled tEndedAt ci h
  | .TermCodes u f o =>
    { h with term := { h.term with
        _uiTimesUsedCurrent := (h.term._uiTimesUsedCurrent + u) % UINT_MOD
        _uiTimesFailedCurrent := (h.term._uiTimesFailedCurrent + f) % UINT_MOD
        _uiTimesFailedOutsideRangeCurrent :=
          (h.term._uiTimesFailedOutsideRangeCurrent + o) % UINT_MOD } }

/-- Run a sequence of operations, first to last. -/
def run (K : Capacity) (ops : List Op) (h : Host) : Host :=
  ops.foldl (fun h op => step K op h) h

/-- States the host can be in: those some sequence of operations produces from a
freshly constructed aggregator. -/
def Reachable (K : Capacity) (h : Host) : Prop :=
  ∃ (tStartedAt : Int) (ops : List Op), h = run K ops (Host.new K tStartedAt)

namespace Telemetry

/-! ## Predicates on the table of process names -/

/-- The alphabetical index is sorted: each of its first `count` entries names a
slot below `count`, and the names of those slots strictly increase under the
comparison `FindProcessName` uses (`_wcsnicmp` over `MAX_PATH` characters). -/
def IndexSorted (t : Telemetry) : Prop :=
  (∀ j, j < t._uiNumberProcessFileNames →
      t._rgiAlphabeticalIndex j < t._uiNumberProcessFileNames) ∧
  (∀ j, j < t._uiNumberProcessFileNames → ∀ i, i < j →
      wcsnicmp (processFileName t (t._rgiAlphabeticalIndex i))
        (processFileName t (t._rgiAlphabeticalIndex j)) MAX_PATH < 0)

/-- Position `p` of the alphabetical index splits it around `x`: `x` compares
greater than the name of every entry below `p` and less than the name of every
entry from `p` on. -/
def IsInsertionPoint (t : Telemetry) (x : List Nat) (p : Nat) : Prop :=
  p ≤ t._uiNumberProcessFileNames ∧
  (∀ j, j < p → 0 < wcsnicmp x (processFileName t (t._rgiAlphabeticalIndex j)) MAX_PATH) ∧
  (∀ j, p ≤ j → j < t._uiNumberProcessFileNames →
      wcsnicmp x (processFileName t (t._rgiAlphabeticalIndex j)) MAX_PATH < 0)

/-- Entry `p` of the alphabetical index names a slot whose name compares equal to `x`. -/
def IsMatch (t : Telemetry) (x : List Nat) (p : Nat) : Prop :=
  p < t._uiNumberProcessFileNames ∧
    wcsnicmp x (processFileName t (t._rgiAlphabeticalIndex p)) MAX_PATH = 0

/-- Invariant of the table of process names kept by every operation: the bounds of
count and cursor, the sorted alphabetical index, a terminator before the cursor
for every stored name, a valid attribution marker, untouched code counters above
`count`, and the string count in element 0 of the packed buffer. -/
structure Inv (K : Capacity) (t : Telemetry) : Prop where
  count_le : t._uiNumberProcessFileNames ≤ K.c_iMaxProcessesConnected
  buf_len : t._wchProcessFileNames.length = K.cchProcessFileNames
  next_pos : 1 ≤ t._iProcessFileNamesNext
  next_le : t._iProcessFileNamesNext ≤ K.cchProcessFileNames - 1
  sorted : IndexSorted t
  terminated : ∀ i, i < t._uiNumberProcessFileNames →
    1 ≤ t._rgiProccessFileNameIndex i ∧
    ∃ e, t._rgiProccessFileNameIndex i ≤ e ∧ e < t._iProcessFileNamesNext ∧
      t._wchProcessFileNames[e]? = some 0
  current : t._iProcessConnectedCurrently = SIZE_MAX ∨
    t._iProcessConnectedCurrently < t._uiNumberProcessFileNames
  unused : ∀ i, t._uiNumberProcessFileNames ≤ i →
    t._rguiProcessFileNamesCodesCount i = 0 ∧ t._rguiProcessFileNamesFailedCodesCount i = 0 ∧
      t._rguiProcessFileNamesFailedOutsideCodesCount i = 0
  header : t._wchProcessFileNames[0]? = some (countHeader t._uiNumberProcessFileNames)

/-- Two states with the same packed buffer, offsets, alphabetical index and count. -/
def SameNames (t t' : Telemetry) : Prop :=
  t'._wchProcessFileNames = t._wchProcessFileNames ∧
  t'._rgiProccessFileNameIndex = t._rgiProccessFileNameIndex ∧
  t'._rgiAlphabeticalIndex = t._rgiAlphabeticalIndex ∧
  t'._uiNumberProcessFileNames = t._uiNumberProcessFileNames

/-- Value of `_fBashUsed` after the bash check of `LogProcessConnected`. -/
def LogProcessConnected.fBashUsed (t : Telemetry) (img : ProcessImage) : Bool :=
  if t._fBashUsed = false ∧ wcsnicmp c_pwszBashExeName img.pwszFileName MAX_PATH = 0 then
    match img.fSameRootAsSystemDirectory with
    | some fSameRoot => fSameRoot
    | none => t._fBashUsed
  else t._fBashUsed

/-- The aggregator `LogProcessConnected` leaves when it records the new name of
`img` at position `iFileName` of the alphabetical index. -/
def LogProcessConnected.recorded (t : Telemetry) (img : ProcessImage) (iFileName : Nat) :
    Telemetry :=
  { t with
    _fBashUsed := LogProcessConnected.fBashUsed t img
    _rgiAlphabeticalIndex :=
      setAt (shiftAlphabeticalIndex t._rgiAlphabeticalIndex iFileName
        t._uiNumberProcessFileNames) iFileName t._uiNumberProcessFileNames
    _rgiProccessFileNameIndex :=
      setAt t._rgiProccessFileNameIndex t._uiNumberProcessFileNames t._iProcessFileNamesNext
    _rguiProcessFileNamesCount :=
      setAt t._rguiProcessFileNamesCount t._uiNumberProcessFileNames 1
    _iProcessFileNamesNext := t._iProcessFileNamesNext + wcslen img.pwszFileName + 1
    _iProcessConnectedCurrently := t._uiNumberProcessFileNames
    _uiNumberProcessFileNames := t._uiNumberProcessFileNames + 1
    _wchProcessFileNames :=
      (writeAt t._wchProcessFileNames t._iProcessFileNamesNext
        (wcstr img.pwszFileName ++ [0])).set 0 (countHeader (t._uiNumberProcessFileNames + 1)) }

/-- The admission check of `LogProcessConnected` together with the success of its
`StringCchCopyW`: a free slot, the cursor below the margin, and room for the name
and its terminator. -/
def LogProcessConnected.admits (K : Capacity) (t : Telemetry) (pwszFileName : List Nat) : Prop :=
  t._uiNumberProcessFileNames < K.c_iMaxProcessesConnected ∧
  t._iProcessFileNamesNext < K.cchProcessFileNames - 10 ∧
  wcslen pwszFileName < K.cchProcessFileNames - t._iProcessFileNamesNext - 1

instance (K : Capacity) (t : Telemetry) (x : List Nat) :
    Decidable (LogProcessConnected.admits K t x) :=
  inferInstanceAs (Decidable (_ ∧ _ ∧ _))

end Telemetry

/-! ## Definitions used by the statements -/

/-- Constants of the concrete sessions below: 100 process names, a packed buffer of
2000 characters (the source calls the buffer "only 2K"), and 64 `ApiCall`
enumerators of which the 58 that `ApiUsed` logs are numbered in the order logged. -/
def sampleCapacity : Capacity :=
  ⟨100, 2000, 64, List.range 58,
    [0, 6, 9, 10, 12, 13, 11, 21, 26, 32, 33, 34, 35, 37, 50, 53, 54, 55, 57]⟩

/-- `L"cmd.exe"`. -/
def wszCmdExe : List Nat := [99, 109, 100, 46, 101, 120, 101]

/-- `L"CMD.EXE"`. -/
def wszCmdExeUpper : List Nat := [67, 77, 68, 46, 69, 88, 69]

/-- `L"Bash.exe"`. -/
def wszBashExe : List Nat := [66, 97, 115, 104, 46, 101, 120, 101]

/-- `L"ping.exe"`. -/
def wszPingExe : List Nat := [112, 105, 110, 103, 46, 101, 120, 101]

/-- A sampled connection of a process whose image name is `pwszFileName`. -/
def connect (pwszFileName : List Nat) : Op :=
  Op.LogProcessConnected true (some ⟨pwszFileName, none⟩)

/-- Three processes connect, the third under a name already seen in another case. -/
def sampleSession : List Op := [connect wszCmdExe, connect wszBashExe, connect wszCmdExeUpper]

/-- The host after `sampleSession`. -/
def sampleHost : Host := run sampleCapacity sampleSession (Host.new sampleCapacity 0)

/-- The alphabetical index with `x` spliced in at position `p`: the name at each
position of the longer index. -/
def Telemetry.splicedName (t : Telemetry) (x : List Nat) (p j : Nat) : List Nat :=
  if j < p then t.processFileName (t._rgiAlphabeticalIndex j)
  else if j = p then x
  else t.processFileName (t._rgiAlphabeticalIndex (j - 1))

/-- A file name of `len` characters: the letter numbered `k`, then `x` repeated. -/
def longName (k len : Nat) : List Nat := (97 + k) :: List.replicate (len - 1) 120

/-- Seven processes with distinct image names of 250 characters connect, then one
with a name of 235 characters. -/
def longSession : List Op :=
  (List.range 7).map (fun k => connect (longName k 250)) ++ [connect (longName 7 235)]

/-- The names held by the slots, in arrival order, as read back from the packed buffer. -/
def Telemetry.storedNames (t : Telemetry) : List (List Nat) :=
  (List.range t._uiNumberProcessFileNames).map (fun i => wcstr (t.processFileName i))

/-- Whether each image of the list, appended in turn to a packed buffer whose cursor
starts at `c`, passes the buffer part of the admission check of `LogProcessConnected`
and the length check of its `StringCchCopyW`. -/
def fits (K : Capacity) : Nat → List ProcessImage → Bool
  | _, [] => true
  | c, g :: gs =>
    decide (c < K.cchProcessFileNames - 10) &&
      decide (wcslen g.pwszFileName < K.cchProcessFileNames - c - 1) &&
      fits K (c + wcslen g.pwszFileName + 1) gs

/-- A sampled connection of the process with image `g`. -/
def connectImage (g : ProcessImage) : Op := Op.LogProcessConnected true (some g)

/-- No codes are pending and no slot has code counts: the state of a session in
which the terminal parser has counted nothing. -/
def Quiet (h : Host) : Prop :=
  h.term._uiTimesUsedCurrent = 0 ∧ h.term._uiTimesFailedCurrent = 0 ∧
  h.term._uiTimesFailedOutsideRangeCurrent = 0 ∧
  ∀ i, h.telemetry._rguiProcessFileNamesCodesCount i = 0 ∧
    h.telemetry._rguiProcessFileNamesFailedCodesCount i = 0 ∧
    h.telemetry._rguiProcessFileNamesFailedOutsideCodesCount i = 0

/-- Seven processes with distinct image names of 250 characters connect. -/
def longPrefix : List Op := (List.range 7).map (fun k => connect (longName k 250))

/-- The host after `longPrefix`. -/
def longHost : Host := run sampleCapacity longPrefix (Host.new sampleCapacity 0)

/-- Image names `p00` .. `p99`: a hundred short names, pairwise distinct. -/
def shortImages : List ProcessImage :=
  (List.range 100).map (fun k => ⟨[112, 48 + k / 10, 48 + k % 10], none⟩)

/-! ## Collaborator calls and find-dialog samples -/

/-- Modelled from the spec: `TermTelemetry::GetAndResetTimesUsedCurrent` (not among
the sources), an atomic read-and-zero of the running count of codes used: the value
read and the source afterwards. -/
def TermTelemetry.GetAndResetTimesUsedCurrent (s : TermTelemetry) : Nat × TermTelemetry :=
  (s._uiTimesUsedCurrent, { s with _uiTimesUsedCurrent := 0 })

/-- Modelled from the spec: `TermTelemetry::GetAndResetTimesFailedCurrent` (not among
the sources), an atomic read-and-zero of the running count of failed codes. -/
def TermTelemetry.GetAndResetTimesFailedCurrent (s : TermTelemetry) : Nat × TermTelemetry :=
  (s._uiTimesFailedCurrent, { s with _uiTimesFailedCurrent := 0 })

/-- Modelled from the spec: `TermTelemetry::GetAndResetTimesFailedOutsideRangeCurrent`
(not among the sources), an atomic read-and-zero of the running count of codes that
failed outside the known range. -/
def TermTelemetry.GetAndResetTimesFailedOutsideRangeCurrent (s : TermTelemetry) :
    Nat × TermTelemetry :=
  (s._uiTimesFailedOutsideRangeCurrent, { s with _uiTimesFailedOutsideRangeCurrent := 0 })

/-- Arguments of one `LogFindDialogNextClicked` call. -/
structure FindSample where
  uiStringLength : Nat
  fDirectionDown : Bool
  fMatchCase : Bool

/-- A run of `LogFindDialogNextClicked` calls, first to last. -/
def Telemetry.logFindSamples (samples : List FindSample) (t : Telemetry) : Telemetry :=
  samples.foldl
    (fun t s => t.LogFindDialogNextClicked s.uiStringLength s.fDirectionDown s.fMatchCase) t

/-- The value `fFlag ? 1 : 0` averaged for the two check boxes of the find dialog. -/
def boolSample (fFlag : Bool) : ℚ := if fFlag then 1 else 0

/-- Arithmetic mean of a list of rationals. -/
def mean (xs : List ℚ) : ℚ := xs.sum / (xs.length : ℚ)

/-- The values of type `float`: a significand of at most 24 bits times a power of two
not below the smallest subnormal `2 ^ (-149)`, within the finite range. -/
def IsFloat32 (q : ℚ) : Prop :=
  ∃ m e : Int, |m| < 2 ^ 24 ∧ -149 ≤ e ∧ e ≤ 104 ∧ q = (m : ℚ) * (2 : ℚ) ^ e

/-- No step of the running average of `xs` rounds: every sample of `xs` is a `float`
value, and so are the length, the sum and the mean of every initial part of `xs`. -/
def exactInFloat (xs : List ℚ) : Prop :=
  (∀ x, x ∈ xs → IsFloat32 x) ∧
    ∀ p, p <+: xs → IsFloat32 (p.length : ℚ) ∧ IsFloat32 p.sum ∧ IsFloat32 (mean p)

/-- Three clicks of Find Next on strings of 1, 2 and 2 characters: the mean length
`5 / 3` is not a `float` value. -/
def roundedFindClicks : List FindSample :=
  [⟨1, true, false⟩, ⟨2, true, false⟩, ⟨2, true, false⟩]

/-- The samples of the worked example: 4 characters searching down without match
case, then 8 characters searching up with match case. -/
def sampleFindClicks : List FindSample := [⟨4, true, false⟩, ⟨8, false, true⟩]

/-- The settings snapshot of the concrete sessions: started from a shortcut, no
settings values recorded. -/
def sampleConsole : ConsoleInformation := ⟨true, []⟩

/-- The host after `sampleSession`, some user interaction, and the terminal parser
counting 5 codes used, 2 failed and 1 failed outside the range: slot 0 is attributed
and the counts are pending. -/
def pendingHost : Host :=
  run sampleCapacity (sampleSession ++ [Op.SetUserInteractive, Op.TermCodes 5 2 1])
    (Host.new sampleCapacity 0)

/-- The host after some user interaction and one click of Find Next on a string of 4
characters. -/
def findHost : Host :=
  run sampleCapacity [Op.SetUserInteractive, Op.LogFindDialogNextClicked 4 true false]
    (Host.new sampleCapacity 0)

/-! ## Accepted names, credited connections and further samples -/

/-- Two strings are equal up to letter case: the same characters once each is
lower-cased the way `_wcsnicmp` does it (`towlower`). -/
def sameUpToCase (a b : List Nat) : Prop := a.map towlower = b.map towlower

instance (a b : List Nat) : Decidable (sameUpToCase a b) :=
  inferInstanceAs (Decidable (a.map towlower = b.map towlower))

/-- `L"BASH.EXE"`. -/
def wszBashExeUpper : List Nat := [66, 65, 83, 72, 46, 69, 88, 69]

/-- The name the operation `op`, applied in state `h`, appends to the table of
process names: the image name (up to its terminator) of a sampled connection of a
resolved process whose name `FindProcessName` does not find and that passes the
admission check and the copy of `LogProcessConnected`; no name otherwise. -/
def acceptedBy (K : Capacity) (op : Op) (h : Host) : List (List Nat) :=
  match op with
  | Op.LogProcessConnected true (some img) =>
    match h.telemetry.FindProcessName img.pwszFileName with
    | some (false, _) =>
      if Telemetry.LogProcessConnected.admits K h.telemetry img.pwszFileName then
        [wcstr img.pwszFileName]
      else []
    | _ => []
  | _ => []

/-- The names the operations `ops`, applied in turn from state `h`, append to the
table, in arrival order. -/
def acceptedNames (K : Capacity) : List Op → Host → List (List Nat)
  | [], _ => []
  | op :: ops, h => acceptedBy K op h ++ acceptedNames K ops (step K op h)

/-- Whether the operation `op`, applied in state `h`, is a connection that
`LogProcessConnected` credits to a slot: a sampled connection of a resolved process
whose name `FindProcessName` finds, or whose new name is admitted and copied. -/
def credited (K : Capacity) (op : Op) (h : Host) : Bool :=
  match op with
  | Op.LogProcessConnected true (some img) =>
    match h.telemetry.FindProcessName img.pwszFileName with
    | some (true, _) => true
    | some (false, _) =>
      decide (Telemetry.LogProcessConnected.admits K h.telemetry img.pwszFileName)
    | none => false
  | _ => false

/-- Number of credited connections among the operations `ops` applied in turn from
state `h`. -/
def creditedConnects (K : Capacity) : List Op → Host → Nat
  | [], _ => 0
  | op :: ops, h => (if credited K op h then 1 else 0) + creditedConnects K ops (step K op h)

/-- Cursor after packing `names` behind the count header: one element for the header,
then each name with its terminator. -/
def packedEnd (names : List (List Nat)) : Nat := 1 + (names.map (fun s => s.length + 1)).sum

/-- The loop of `FindProcessName` with its read of `_rgiAlphabeticalIndex[iMid]`
checked against the array: `none` when `iMid` is not an index below the number of
names, or when `fuel` iterations were not enough to leave the loop. -/
def Telemetry.FindProcessName.checkedLoop (t : Telemetry) (pszProcessName : List Nat) :
    Nat → Int → Int → Int → Int → Option (Bool × Nat)
  | 0, _, _, _, _ => none
  | fuel + 1, iMin, iMax, iMid, result =>
    if iMin ≤ iMax then
      let iMid := Int.tdiv (iMax + iMin) 2
      if 0 ≤ iMid ∧ iMid < (t._uiNumberProcessFileNames : Int) then
        let result := wcsnicmp pszProcessName
          (t.processFileName (t._rgiAlphabeticalIndex iMid.toNat)) MAX_PATH
        if result < 0 then
          Telemetry.FindProcessName.checkedLoop t pszProcessName fuel iMin (iMid - 1) iMid result
        else if result > 0 then
          Telemetry.FindProcessName.checkedLoop t pszProcessName fuel (iMid + 1) iMax iMid result
        else some (true, iMid.toNat)
      else none
    else some (false, if result > 0 then (iMid + 1).toNat else iMid.toNat)

/-- `Telemetry::FindProcessName` run with the checked loop. -/
def Telemetry.FindProcessName.checked (t : Telemetry) (pszProcessName : List Nat) :
    Option (Bool × Nat) :=
  Telemetry.FindProcessName.checkedLoop t pszProcessName (t._uiNumberProcessFileNames + 1)
    0 ((t._uiNumberProcessFileNames : Int) - 1) 0 0

/-- A `Bash.exe` whose image is not under the root of the system directory. -/
def bashOutsideSystem : ProcessImage := ⟨wszBashExe, some false⟩

/-- A `bash.exe` whose image is under the root of the system directory. -/
def bashInSystem : ProcessImage := ⟨c_pwszBashExeName, some true⟩

/-- The system `bash.exe` connects, then `ping.exe`. -/
def bashSession : List Op := [connectImage bashInSystem, connect wszPingExe]

/-- The host after the keyboard and paging flags were set and the system `bash.exe`
connected: all five usage flags are true. -/
def flaggedHost : Host :=
  run sampleCapacity [Op.SetKeyboardTextEditingUsed, Op.SetKeyboardTextSelectionUsed,
    Op.SetCtrlPgUpPgDnUsed, connectImage bashInSystem] (Host.new sampleCapacity 0)

/-- The session ends: the final log is written, the find dialog is closed, and one
more process connects. -/
def closingSession : List Op :=
  [Op.WriteFinalTraceLog true 60 sampleConsole, Op.FindDialogClosed, connect wszPingExe]

/-! ## Lemmas -/


theorem towlower_eq_zero {c : Nat} : towlower c = 0 ↔ c = 0 := by
  unfold towlower; split <;> omega

theorem wcsnicmp_succ (a b : List Nat) (n : Nat) :
    wcsnicmp a b (n + 1) =
      if towlower (a.headD 0) ≠ 0 ∧ towlower (a.headD 0) = towlower (b.headD 0) then
        wcsnicmp a.tail b.tail n
      else (towlower (a.headD 0) : Int) - (towlower (b.headD 0) : Int) := by
  simp only [wcsnicmp]

theorem wcsnicmp_swap (a b : List Nat) (n : Nat) : wcsnicmp b a n = - wcsnicmp a b n := by
  induction n generalizing a b with
  | zero => simp [wcsnicmp]
  | succ n ih =>
    rw [wcsnicmp_succ, wcsnicmp_succ]
    by_cases h : towlower (a.headD 0) ≠ 0 ∧ towlower (a.headD 0) = towlower (b.headD 0)
    · have h2 : towlower (b.headD 0) ≠ 0 ∧ towlower (b.headD 0) = towlower (a.headD 0) :=
        ⟨by rw [← h.2]; exact h.1, h.2.symm⟩
      rw [if_pos h, if_pos h2]; exact ih _ _
    · by_cases h2 : towlower (b.headD 0) ≠ 0 ∧ towlower (b.headD 0) = towlower (a.headD 0)
      · exact absurd ⟨by rw [← h2.2]; exact h2.1, h2.2.symm⟩ h
      · rw [if_neg h, if_neg h2]; omega

theorem wcsnicmp_trans_lt {a b c : List Nat} {n : Nat}
    (hab : wcsnicmp a b n < 0) (hbc : wcsnicmp b c n < 0) : wcsnicmp a c n < 0 := by
  induction n generalizing a b c with
  | zero => simp [wcsnicmp] at hab
  | succ n ih =>
    rw [wcsnicmp_succ] at hab hbc ⊢
    split at hab <;> split at hbc <;> split <;> first | omega | skip
    · exact ih hab hbc

theorem wcsnicmp_congr_left {x a : List Nat} {n : Nat} (h : wcsnicmp x a n = 0)
    (b : List Nat) : wcsnicmp x b n = wcsnicmp a b n := by
  induction n generalizing x a b with
  | zero => simp [wcsnicmp]
  | succ n ih =>
    rw [wcsnicmp_succ] at h ⊢
    rw [wcsnicmp_succ a b]
    split at h
    · rename_i hc
      rw [← hc.2]
      split
      · exact ih h _
      · rfl
    · rename_i hc
      have he : towlower (x.headD 0) = towlower (a.headD 0) := by omega
      rw [← he]
      split
      · rename_i hd
        exact absurd ⟨hd.1, he⟩ hc
      · rfl

theorem wcstr_nil : wcstr [] = [] := rfl

theorem wcstr_cons (c : Nat) (s : List Nat) :
    wcstr (c :: s) = if c = 0 then [] else c :: wcstr s := by
  unfold wcstr
  by_cases h : c = 0 <;> simp [List.takeWhile_cons, h]

theorem wcsnicmp_wcstr_right (a b : List Nat) (n : Nat) :
    wcsnicmp a (wcstr b) n = wcsnicmp a b n := by
  induction n generalizing a b with
  | zero => simp [wcsnicmp]
  | succ n ih =>
    rw [wcsnicmp_succ, wcsnicmp_succ]
    cases b with
    | nil => rfl
    | cons c b =>
      rw [wcstr_cons]
      by_cases hc : c = 0
      · subst hc
        simp [towlower]
      · simp only [if_neg hc, List.headD_cons, List.tail_cons]
        rw [ih]

theorem wcsnicmp_wcstr_left (a b : List Nat) (n : Nat) :
    wcsnicmp (wcstr a) b n = wcsnicmp a b n := by
  rw [wcsnicmp_swap b (wcstr a), wcsnicmp_swap b a, wcsnicmp_wcstr_right]

namespace Telemetry

theorem FindProcessName.loop_spec (t : Telemetry) (x : List Nat) (hs : IndexSorted t) :
    ∀ (fuel : Nat) (iMin iMax iMid result : Int),
      0 ≤ iMin → iMax < t._uiNumberProcessFileNames → iMin ≤ iMax + 1 →
      iMax - iMin + 1 < fuel →
      (iMax < iMin → (if result > 0 then iMid + 1 else iMid) = iMin) →
      (∀ j : Nat, (j : Int) < iMin →
        0 < wcsnicmp x (processFileName t (t._rgiAlphabeticalIndex j)) MAX_PATH) →
      (∀ j : Nat, iMax < (j : Int) → j < t._uiNumberProcessFileNames →
        wcsnicmp x (processFileName t (t._rgiAlphabeticalIndex j)) MAX_PATH < 0) →
      ∃ found p, FindProcessName.loop t x fuel iMin iMax iMid result = some (found, p) ∧
        (found = true → IsMatch t x p) ∧ (found = false → IsInsertionPoint t x p) := by
  intro fuel
  induction fuel with
  | zero => intro iMin iMax iMid result h0 h1 h2 h3; omega
  | succ fuel ih =>
    intro iMin iMax iMid result h0 h1 h2 h3 hexit hlo hhi
    rw [FindProcessName.loop]
    by_cases hle : iMin ≤ iMax
    · rw [if_pos hle]
      have hmid : Int.tdiv (iMax + iMin) 2 = (iMax + iMin) / 2 :=
        Int.tdiv_eq_ediv (by omega) (by omega)
      simp only [hmid]
      obtain ⟨m, hm⟩ : ∃ m : Nat, (iMax + iMin) / 2 = (m : Int) :=
        ⟨((iMax + iMin) / 2).toNat, by omega⟩
      rw [hm]
      simp only [Int.toNat_ofNat]
      have hmc : m < t._uiNumberProcessFileNames := by omega
      by_cases hneg : wcsnicmp x (processFileName t (t._rgiAlphabeticalIndex m)) MAX_PATH < 0
      · rw [if_pos hneg]
        apply ih
        · exact h0
        · omega
        · omega
        · omega
        · intro hlt
          rw [if_neg (by omega)]; omega
        · exact hlo
        · intro j hj hjc
          by_cases hjm : j = m
          · subst hjm; exact hneg
          · exact wcsnicmp_trans_lt hneg (hs.2 j hjc m (by omega))
      · rw [if_neg hneg]
        by_cases hpos : wcsnicmp x (processFileName t (t._rgiAlphabeticalIndex m)) MAX_PATH > 0
        · rw [if_pos hpos]
          apply ih
          · omega
          · exact h1
          · omega
          · omega
          · intro _
            rw [if_pos hpos]
          · intro j hj
            by_cases hjm : j = m
            · subst hjm; exact hpos
            · have h1 := hs.2 m hmc j (by omega)
              have h2 : wcsnicmp (processFileName t (t._rgiAlphabeticalIndex m)) x MAX_PATH < 0 := by
                rw [wcsnicmp_swap x]; omega
              have h3 := wcsnicmp_trans_lt h1 h2
              rw [wcsnicmp_swap x] at h3; omega
          · exact hhi
        · rw [if_neg hpos]
          exact ⟨true, m, rfl, fun _ => ⟨hmc, by omega⟩, fun h => by simp at h⟩
    · rw [if_neg hle]
      have hp := hexit (by omega)
      refine ⟨false, iMin.toNat, ?_, fun h => by simp at h, fun _ => ⟨by omega, ?_, ?_⟩⟩
      · split at hp <;> rename_i hr
        · rw [if_pos hr, hp]
        · rw [if_neg hr, hp]
      · intro j hj; exact hlo j (by omega)
      · intro j hj hjc; exact hhi j (by omega) hjc

theorem FindProcessName_spec (t : Telemetry) (x : List Nat) (hs : IndexSorted t) :
    ∃ found p, FindProcessName t x = some (found, p) ∧
      (found = true → IsMatch t x p) ∧ (found = false → IsInsertionPoint t x p) := by
  unfold FindProcessName
  apply FindProcessName.loop_spec t x hs
  · omega
  · omega
  · omega
  · omega
  · intro _; simp
  · intro j hj; omega
  · intro j hj hjc; omega

end Telemetry

theorem drop_eq_cons_of_getElem? {l : List Nat} {k c : Nat} (h : l[k]? = some c) :
    l.drop k = c :: l.drop (k + 1) := by
  obtain ⟨hk, hc⟩ := List.getElem?_eq_some.mp h
  rw [List.drop_eq_getElem_cons hk, hc]

theorem wcstr_drop_congr (l1 l2 : List Nat) :
    ∀ (d off e : Nat), e = off + d → (∀ k, off ≤ k → k ≤ e → l1[k]? = l2[k]?) →
      l1[e]? = some 0 → wcstr (l1.drop off) = wcstr (l2.drop off) := by
  intro d
  induction d with
  | zero =>
    intro off e he hag hz
    have he2 : e = off := by omega
    subst he2
    have hz2 : l2[e]? = some 0 := by rw [← hag e (le_refl _) (le_refl _)]; exact hz
    rw [drop_eq_cons_of_getElem? hz, drop_eq_cons_of_getElem? hz2]
    simp [wcstr_cons]
  | succ d ih =>
    intro off e he hag hz
    have hlen : e < l1.length := (List.getElem?_eq_some.mp hz).1
    have hoff : l1[off]? = some l1[off] := List.getElem?_eq_getElem (by omega)
    have hoff2 : l2[off]? = some l1[off] := by
      rw [← hag off (le_refl _) (by omega)]; exact hoff
    rw [drop_eq_cons_of_getElem? hoff, drop_eq_cons_of_getElem? hoff2, wcstr_cons, wcstr_cons]
    by_cases hc : l1[off] = 0
    · rw [if_pos hc, if_pos hc]
    · rw [if_neg hc, if_neg hc]
      rw [ih (off + 1) e (by omega) (fun k hk hke => hag k (by omega) hke) hz]

theorem getElem?_writeAt_lt {buf chars : List Nat} {pos e : Nat} (he : e < pos)
    (hpos : pos ≤ buf.length) : (writeAt buf pos chars)[e]? = buf[e]? := by
  unfold writeAt
  have h1 : e < (buf.take pos).length := by rw [List.length_take]; omega
  rw [List.getElem?_append_left (by rw [List.length_append]; omega),
    List.getElem?_append_left h1, List.getElem?_take_of_lt he]

theorem length_writeAt {buf chars : List Nat} {pos : Nat}
    (h : pos + chars.length ≤ buf.length) : (writeAt buf pos chars).length = buf.length := by
  unfold writeAt
  simp only [List.length_append, List.length_take, List.length_drop]
  omega

theorem drop_writeAt {buf chars : List Nat} {pos : Nat} (hpos : pos ≤ buf.length) :
    (writeAt buf pos chars).drop pos = chars ++ buf.drop (pos + chars.length) := by
  unfold writeAt
  have h1 : (buf.take pos).length = pos := by rw [List.length_take]; omega
  rw [List.append_assoc, List.drop_append_of_le_length (by omega),
    List.drop_eq_nil_of_le (by omega), List.nil_append]

theorem wcstr_append_zero (x r : List Nat) : wcstr (wcstr x ++ 0 :: r) = wcstr x := by
  induction x with
  | nil => simp [wcstr_nil, wcstr_cons]
  | cons c x ih =>
    rw [wcstr_cons]
    by_cases hc : c = 0
    · simp [hc, wcstr_cons]
    · rw [if_neg hc, List.cons_append, wcstr_cons, if_neg hc, ih]

theorem getElem?_writeAt_term {buf w : List Nat} {pos : Nat} (hpos : pos ≤ buf.length) :
    (writeAt buf pos (w ++ [0]))[pos + w.length]? = some 0 := by
  rw [← List.getElem?_drop, drop_writeAt hpos, List.append_assoc,
    List.getElem?_append_right (le_refl _)]
  simp

namespace Telemetry

theorem setAt_same (a : Nat → Nat) (i v : Nat) : setAt a i v i = v := by simp [setAt]

theorem setAt_ne (a : Nat → Nat) {i j : Nat} (v : Nat) (h : j ≠ i) : setAt a i v j = a j := by
  simp [setAt, h]

theorem Inv_new (K : Capacity) (hK : K.Valid) (tStartedAt : Int) :
    Inv K (Telemetry.new K tStartedAt) where
  count_le := Nat.zero_le _
  buf_len := by simp [Telemetry.new]
  next_pos := le_refl _
  next_le := by have := hK.1; simp only [Telemetry.new]; omega
  sorted := ⟨fun j hj => absurd hj (Nat.not_lt_zero _), fun j hj => absurd hj (Nat.not_lt_zero _)⟩
  terminated := fun i hi => absurd hi (Nat.not_lt_zero _)
  current := Or.inl rfl
  unused := fun i _ => ⟨rfl, rfl, rfl⟩
  header := by
    have := hK.1
    simp only [Telemetry.new, List.getElem?_replicate, countHeader]
    rw [if_pos (by omega)]

theorem SameNames.processFileName {t t' : Telemetry} (h : SameNames t t') (i : Nat) :
    processFileName t' i = processFileName t i := by
  unfold Telemetry.processFileName; rw [h.1, h.2.1]

theorem SameNames.loop {t t' : Telemetry} (h : SameNames t t') (x : List Nat) :
    ∀ (fuel : Nat) (iMin iMax iMid result : Int),
      FindProcessName.loop t' x fuel iMin iMax iMid result =
        FindProcessName.loop t x fuel iMin iMax iMid result := by
  intro fuel
  induction fuel with
  | zero => intros; rfl
  | succ fuel ih =>
    intro iMin iMax iMid result
    simp only [FindProcessName.loop, h.processFileName, h.2.2.1, ih]

theorem SameNames.FindProcessName {t t' : Telemetry} (h : SameNames t t') (x : List Nat) :
    FindProcessName t' x = FindProcessName t x := by
  unfold Telemetry.FindProcessName; rw [h.loop, h.2.2.2]

theorem SameNames.IndexSorted {t t' : Telemetry} (h : SameNames t t') (hs : IndexSorted t) :
    IndexSorted t' := by
  unfold Telemetry.IndexSorted
  simp only [h.processFileName, h.2.2.1, h.2.2.2]
  exact hs

theorem TotalCodes_sameNames (K : Capacity) (h : Host) :
    SameNames h.telemetry (TotalCodesForPreviousProcess K h).telemetry := by
  unfold TotalCodesForPreviousProcess
  dsimp only
  split <;> exact ⟨rfl, rfl, rfl, rfl⟩

theorem TotalCodes_next (K : Capacity) (h : Host) :
    (TotalCodesForPreviousProcess K h).telemetry._iProcessFileNamesNext =
      h.telemetry._iProcessFileNamesNext := by
  unfold TotalCodesForPreviousProcess
  dsimp only
  split <;> rfl

theorem TotalCodes_count (K : Capacity) (h : Host) :
    (TotalCodesForPreviousProcess K h).telemetry._rguiProcessFileNamesCount =
      h.telemetry._rguiProcessFileNamesCount := by
  unfold TotalCodesForPreviousProcess
  dsimp only
  split <;> rfl

theorem TotalCodes_current (K : Capacity) (hK : K.Valid) (h : Host) (hi : Inv K h.telemetry) :
    (TotalCodesForPreviousProcess K h).telemetry._iProcessConnectedCurrently = SIZE_MAX := by
  have hv := hK.2.2
  unfold TotalCodesForPreviousProcess
  dsimp only
  split
  · rfl
  · rename_i hlt
    rcases hi.current with hc | hc
    · exact hc
    · have := hi.count_le
      omega

theorem TotalCodes_inv (K : Capacity) (hK : K.Valid) (h : Host) (hi : Inv K h.telemetry) :
    Inv K (TotalCodesForPreviousProcess K h).telemetry := by
  have hsn := TotalCodes_sameNames K h
  have hcur := TotalCodes_current K hK h hi
  refine ⟨?_, ?_, ?_, ?_, hsn.IndexSorted hi.sorted, ?_, Or.inl hcur, ?_, ?_⟩
  · rw [hsn.2.2.2]; exact hi.count_le
  · rw [hsn.1]; exact hi.buf_len
  · rw [TotalCodes_next]; exact hi.next_pos
  · rw [TotalCodes_next]; exact hi.next_le
  · rw [hsn.2.2.2, hsn.1, hsn.2.1, TotalCodes_next]; exact hi.terminated
  · rw [hsn.2.2.2]
    intro i hci
    have hu := hi.unused i hci
    unfold TotalCodesForPreviousProcess
    dsimp only
    split
    · rename_i hlt
      have hv := hK.2.2
      have hne : i ≠ h.telemetry._iProcessConnectedCurrently := by
        rcases hi.current with hc | hc
        · rw [hc] at hlt; simp only [SIZE_MAX] at hlt; omega
        · omega
      simp only [setAt_ne _ _ hne]
      exact hu
    · exact hu
  · rw [hsn.2.2.2, hsn.1]; exact hi.header

theorem shiftAlphabeticalIndex_apply (p : Nat) :
    ∀ (n : Nat) (a : Nat → Nat) (j : Nat),
      shiftAlphabeticalIndex a p n j = if p < j ∧ j ≤ n then a (j - 1) else a j := by
  intro n
  induction n with
  | zero =>
    intro a j
    rw [shiftAlphabeticalIndex, if_neg (by omega)]
  | succ n ih =>
    intro a j
    rw [shiftAlphabeticalIndex]
    by_cases hp : p < n + 1
    · rw [if_pos hp, ih]
      by_cases h1 : p < j ∧ j ≤ n
      · rw [if_pos h1, if_pos ⟨h1.1, by omega⟩, setAt_ne _ _ (by omega)]
      · rw [if_neg h1]
        by_cases h2 : j = n + 1
        · subst h2
          rw [setAt_same, if_pos ⟨hp, le_refl _⟩]; rfl
        · rw [setAt_ne _ _ h2, if_neg (by omega)]
    · rw [if_neg hp, if_neg (by omega)]

theorem insertedIndex_apply (a : Nat → Nat) (p n j : Nat) (hp : p ≤ n) :
    setAt (shiftAlphabeticalIndex a p n) p n j =
      if j < p then a j else if j = p then n else if j ≤ n then a (j - 1) else a j := by
  by_cases h1 : j = p
  · subst h1; rw [setAt_same, if_neg (by omega), if_pos rfl]
  · rw [setAt_ne _ _ h1, shiftAlphabeticalIndex_apply]
    by_cases h2 : j < p
    · rw [if_neg (by omega), if_pos h2]
    · rw [if_neg h2, if_neg h1]
      by_cases h3 : j ≤ n
      · rw [if_pos ⟨by omega, h3⟩, if_pos h3]
      · rw [if_neg (by omega), if_neg h3]

theorem wcsnicmp_self (a : List Nat) (n : Nat) : wcsnicmp a a n = 0 := by
  have := wcsnicmp_swap a a n
  omega

theorem wcsnicmp_wcstr_congr {a a' b b' : List Nat} (ha : wcstr a' = wcstr a)
    (hb : wcstr b' = wcstr b) (n : Nat) : wcsnicmp a' b' n = wcsnicmp a b n := by
  rw [← wcsnicmp_wcstr_left a', ← wcsnicmp_wcstr_right _ b', ha, hb, wcsnicmp_wcstr_left,
    wcsnicmp_wcstr_right]

theorem IndexSorted_insert {t t' : Telemetry} {x : List Nat} {p : Nat}
    (hs : IndexSorted t) (hp : IsInsertionPoint t x p)
    (hcount : t'._uiNumberProcessFileNames = t._uiNumberProcessFileNames + 1)
    (hidx : t'._rgiAlphabeticalIndex =
      setAt (shiftAlphabeticalIndex t._rgiAlphabeticalIndex p t._uiNumberProcessFileNames) p
        t._uiNumberProcessFileNames)
    (hold : ∀ i, i < t._uiNumberProcessFileNames →
      wcstr (processFileName t' i) = wcstr (processFileName t i))
    (hnew : wcstr (processFileName t' t._uiNumberProcessFileNames) = wcstr x) :
    IndexSorted t' := by
  obtain ⟨hple, hlo, hhi⟩ := hp
  have hidx' : ∀ j, t'._rgiAlphabeticalIndex j =
      if j < p then t._rgiAlphabeticalIndex j else if j = p then t._uiNumberProcessFileNames
      else if j ≤ t._uiNumberProcessFileNames then t._rgiAlphabeticalIndex (j - 1)
      else t._rgiAlphabeticalIndex j := by
    intro j; rw [hidx, insertedIndex_apply _ _ _ _ hple]
  -- the name of the slot at each position of the new index
  have hname : ∀ j, j < t._uiNumberProcessFileNames + 1 →
      wcstr (processFileName t' (t'._rgiAlphabeticalIndex j)) =
        if j < p then wcstr (processFileName t (t._rgiAlphabeticalIndex j))
        else if j = p then wcstr x
        else wcstr (processFileName t (t._rgiAlphabeticalIndex (j - 1))) := by
    intro j hj
    rw [hidx' j]
    by_cases h1 : j < p
    · rw [if_pos h1, if_pos h1]; exact hold _ (hs.1 j (by omega))
    · rw [if_neg h1, if_neg h1]
      by_cases h2 : j = p
      · rw [if_pos h2, if_pos h2]; exact hnew
      · rw [if_neg h2, if_neg h2, if_pos (by omega)]; exact hold _ (hs.1 (j - 1) (by omega))
  constructor
  · intro j hj
    rw [hcount] at hj ⊢
    rw [hidx' j]
    by_cases h1 : j < p
    · rw [if_pos h1]; have := hs.1 j (by omega); omega
    · rw [if_neg h1]
      by_cases h2 : j = p
      · rw [if_pos h2]; omega
      · rw [if_neg h2, if_pos (by omega)]; have := hs.1 (j - 1) (by omega); omega
  · intro j hj i hij
    rw [hcount] at hj
    rw [← wcsnicmp_wcstr_left, ← wcsnicmp_wcstr_right, hname j hj, hname i (by omega)]
    by_cases hj1 : j < p
    · rw [if_pos hj1, if_pos (by omega : i < p), wcsnicmp_wcstr_left, wcsnicmp_wcstr_right]
      exact hs.2 j (by omega) i hij
    · rw [if_neg hj1]
      by_cases hj2 : j = p
      · rw [if_pos hj2, if_pos (by omega : i < p), wcsnicmp_wcstr_left, wcsnicmp_wcstr_right]
        have := hlo i (by omega)
        rw [wcsnicmp_swap x]; omega
      · rw [if_neg hj2]
        by_cases hi1 : i < p
        · rw [if_pos hi1, wcsnicmp_wcstr_left, wcsnicmp_wcstr_right]
          exact hs.2 (j - 1) (by omega) i (by omega)
        · rw [if_neg hi1]
          by_cases hi2 : i = p
          · rw [if_pos hi2, wcsnicmp_wcstr_left, wcsnicmp_wcstr_right]
            exact hhi (j - 1) (by omega) (by omega)
          · rw [if_neg hi2, wcsnicmp_wcstr_left, wcsnicmp_wcstr_right]
            exact hs.2 (j - 1) (by omega) (i - 1) (by omega)

theorem LogProcessConnected_disabled (K : Capacity) (hProcess : Option ProcessImage) (h : Host) :
    LogProcessConnected K false hProcess h = h := by
  simp [LogProcessConnected]

theorem LogProcessConnected_unresolved (K : Capacity) (h : Host) :
    LogProcessConnected K true none h = TotalCodesForPreviousProcess K h := by
  simp [LogProcessConnected]

theorem LogProcessConnected_hit {K : Capacity} {h : Host} {img : ProcessImage} {p : Nat}
    (hf : FindProcessName (TotalCodesForPreviousProcess K h).telemetry img.pwszFileName
      = some (true, p)) :
    LogProcessConnected K true (some img) h =
      { TotalCodesForPreviousProcess K h with
        telemetry := { (TotalCodesForPreviousProcess K h).telemetry with
          _iProcessConnectedCurrently :=
            (TotalCodesForPreviousProcess K h).telemetry._rgiAlphabeticalIndex p
          _rguiProcessFileNamesCount :=
            setAt (TotalCodesForPreviousProcess K h).telemetry._rguiProcessFileNamesCount
              ((TotalCodesForPreviousProcess K h).telemetry._rgiAlphabeticalIndex p)
              (((TotalCodesForPreviousProcess K h).telemetry._rguiProcessFileNamesCount
                ((TotalCodesForPreviousProcess K h).telemetry._rgiAlphabeticalIndex p) + 1)
                  % UINT_MOD) } } := by
  simp only [LogProcessConnected, hf, if_true]

theorem StringCchCopyW_fits {K : Capacity} (hK : K.Valid) {buf : List Nat} {dest : Nat}
    {src : List Nat} (h : wcslen src < K.cchProcessFileNames - dest - 1) :
    StringCchCopyW buf dest (K.cchProcessFileNames - dest - 1) src =
      (true, writeAt buf dest (wcstr src ++ [0])) := by
  have := hK.2.1
  unfold StringCchCopyW
  rw [if_neg (by omega), if_pos h]

theorem StringCchCopyW_no_room {buf : List Nat} {dest cchDest : Nat}
    {src : List Nat} (h : ¬ wcslen src < cchDest) :
    (StringCchCopyW buf dest cchDest src).1 = false := by
  unfold StringCchCopyW
  by_cases h1 : cchDest = 0 ∨ STRSAFE_MAX_CCH < cchDest
  · rw [if_pos h1]
  · rw [if_neg h1, if_neg h]

theorem StringCchCopyW_frame (buf : List Nat) (dest cchDest : Nat) (src : List Nat)
    (hb : dest + cchDest ≤ buf.length) :
    (StringCchCopyW buf dest cchDest src).2.length = buf.length ∧
      ∀ e, e < dest → (StringCchCopyW buf dest cchDest src).2[e]? = buf[e]? := by
  unfold StringCchCopyW
  by_cases h1 : cchDest = 0 ∨ STRSAFE_MAX_CCH < cchDest
  · rw [if_pos h1]; exact ⟨rfl, fun _ _ => rfl⟩
  · rw [if_neg h1]
    by_cases h2 : wcslen src < cchDest
    · rw [if_pos h2]
      unfold wcslen at h2
      exact ⟨length_writeAt (by rw [List.length_append, List.length_singleton]; omega),
        fun e he => getElem?_writeAt_lt he (by omega)⟩
    · rw [if_neg h2]
      exact ⟨length_writeAt (by
          rw [List.length_append, List.length_singleton, List.length_take]; omega),
        fun e he => getElem?_writeAt_lt he (by omega)⟩

theorem LogProcessConnected_recorded {K : Capacity} (hK : K.Valid) {h : Host}
    {img : ProcessImage} {p : Nat}
    (hf : FindProcessName (TotalCodesForPreviousProcess K h).telemetry img.pwszFileName
      = some (false, p))
    (ha : LogProcessConnected.admits K (TotalCodesForPreviousProcess K h).telemetry
      img.pwszFileName) :
    LogProcessConnected K true (some img) h =
      { TotalCodesForPreviousProcess K h with
        telemetry := LogProcessConnected.recorded
          (TotalCodesForPreviousProcess K h).telemetry img p } := by
  simp only [LogProcessConnected, hf, if_true, if_pos (And.intro ha.1 ha.2.1),
    StringCchCopyW_fits hK ha.2.2]
  rfl

theorem LogProcessConnected_full {K : Capacity} {h : Host}
    {img : ProcessImage} {p : Nat}
    (hf : FindProcessName (TotalCodesForPreviousProcess K h).telemetry img.pwszFileName
      = some (false, p))
    (ha : ¬ ((TotalCodesForPreviousProcess K h).telemetry._uiNumberProcessFileNames
        < K.c_iMaxProcessesConnected ∧
      (TotalCodesForPreviousProcess K h).telemetry._iProcessFileNamesNext
        < K.cchProcessFileNames - 10)) :
    LogProcessConnected K true (some img) h = TotalCodesForPreviousProcess K h := by
  simp only [LogProcessConnected, hf, if_true, if_neg ha]

theorem LogProcessConnected_no_room {K : Capacity} {h : Host}
    {img : ProcessImage} {p : Nat}
    (hf : FindProcessName (TotalCodesForPreviousProcess K h).telemetry img.pwszFileName
      = some (false, p))
    (ha : (TotalCodesForPreviousProcess K h).telemetry._uiNumberProcessFileNames
        < K.c_iMaxProcessesConnected ∧
      (TotalCodesForPreviousProcess K h).telemetry._iProcessFileNamesNext
        < K.cchProcessFileNames - 10)
    (hr : ¬ wcslen img.pwszFileName < K.cchProcessFileNames -
      (TotalCodesForPreviousProcess K h).telemetry._iProcessFileNamesNext - 1) :
    LogProcessConnected K true (some img) h =
      { TotalCodesForPreviousProcess K h with
        telemetry := { (TotalCodesForPreviousProcess K h).telemetry with
          _fBashUsed := LogProcessConnected.fBashUsed
            (TotalCodesForPreviousProcess K h).telemetry img
          _wchProcessFileNames :=
            (StringCchCopyW (TotalCodesForPreviousProcess K h).telemetry._wchProcessFileNames
              (TotalCodesForPreviousProcess K h).telemetry._iProcessFileNamesNext
              (K.cchProcessFileNames -
                (TotalCodesForPreviousProcess K h).telemetry._iProcessFileNamesNext - 1)
              img.pwszFileName).2 } } := by
  simp only [LogProcessConnected, hf, if_true, if_pos ha, StringCchCopyW_no_room hr]
  rfl

theorem Inv.names_preserved {K : Capacity} {t : Telemetry} (hi : Inv K t) {buf : List Nat}
    (hb : ∀ e, 1 ≤ e → e < t._iProcessFileNamesNext → buf[e]? = t._wchProcessFileNames[e]?)
    {i : Nat} (hin : i < t._uiNumberProcessFileNames) :
    wcstr (buf.drop (t._rgiProccessFileNameIndex i)) = wcstr (processFileName t i) := by
  obtain ⟨h1, e, he1, he2, he3⟩ := hi.terminated i hin
  exact (wcstr_drop_congr t._wchProcessFileNames buf (e - t._rgiProccessFileNameIndex i)
    (t._rgiProccessFileNameIndex i) e (by omega)
    (fun k hk hke => (hb k (by omega) (by omega)).symm) he3).symm

theorem IndexSorted_of_names {t t' : Telemetry} (hs : IndexSorted t)
    (hcount : t'._uiNumberProcessFileNames = t._uiNumberProcessFileNames)
    (hidx : t'._rgiAlphabeticalIndex = t._rgiAlphabeticalIndex)
    (hold : ∀ i, i < t._uiNumberProcessFileNames →
      wcstr (processFileName t' i) = wcstr (processFileName t i)) :
    IndexSorted t' := by
  constructor
  · intro j hj
    rw [hcount] at hj ⊢
    rw [hidx]; exact hs.1 j hj
  · intro j hj i hij
    rw [hcount] at hj
    rw [hidx, wcsnicmp_wcstr_congr (hold _ (hs.1 i (by omega))) (hold _ (hs.1 j hj))]
    exact hs.2 j hj i hij

theorem recorded_inv {K : Capacity} {t : Telemetry} (hi : Inv K t) (img : ProcessImage)
    {p : Nat} (hp : IsInsertionPoint t img.pwszFileName p)
    (ha : LogProcessConnected.admits K t img.pwszFileName) :
    Inv K (LogProcessConnected.recorded t img p) := by
  obtain ⟨ha1, ha2, ha3⟩ := ha
  have hlen := hi.buf_len
  have hnp := hi.next_pos
  have hwl : (wcstr img.pwszFileName ++ [0]).length = wcslen img.pwszFileName + 1 := by
    rw [List.length_append, List.length_singleton]; rfl
  have hb : ∀ e, 1 ≤ e → e < t._iProcessFileNamesNext →
      ((writeAt t._wchProcessFileNames t._iProcessFileNamesNext
        (wcstr img.pwszFileName ++ [0])).set 0
          (countHeader (t._uiNumberProcessFileNames + 1)))[e]? = t._wchProcessFileNames[e]? := by
    intro e he1 he2
    rw [List.getElem?_set_ne (by omega), getElem?_writeAt_lt he2 (by omega)]
  have hwlen : (writeAt t._wchProcessFileNames t._iProcessFileNamesNext
      (wcstr img.pwszFileName ++ [0])).length = K.cchProcessFileNames := by
    rw [length_writeAt (by rw [hwl]; omega), hlen]
  refine ⟨?_, ?_, ?_, ?_, ?_, ?_, ?_, ?_, ?_⟩
  · exact ha1
  · show (List.set _ _ _).length = _
    rw [List.length_set, hwlen]
  · show 1 ≤ t._iProcessFileNamesNext + wcslen img.pwszFileName + 1
    omega
  · show t._iProcessFileNamesNext + wcslen img.pwszFileName + 1 ≤ _
    omega
  · refine IndexSorted_insert hi.sorted hp rfl rfl ?_ ?_
    · intro i hin
      show wcstr (List.drop (setAt _ _ _ i) (List.set _ _ _)) = _
      rw [setAt_ne _ _ (by omega)]
      exact hi.names_preserved hb hin
    · show wcstr (List.drop (setAt _ _ _ _) (List.set _ _ _)) = _
      rw [setAt_same, List.drop_set_of_lt _ _ (by omega), drop_writeAt (by omega),
        List.append_assoc, List.singleton_append, wcstr_append_zero]
  · intro i hin
    show 1 ≤ setAt _ _ _ i ∧ ∃ e, setAt _ _ _ i ≤ e ∧
      e < t._iProcessFileNamesNext + wcslen img.pwszFileName + 1 ∧ (List.set _ _ _)[e]? = some 0
    by_cases hin2 : i = t._uiNumberProcessFileNames
    · subst hin2
      rw [setAt_same]
      refine ⟨hnp, t._iProcessFileNamesNext + wcslen img.pwszFileName, by omega, by omega, ?_⟩
      rw [List.getElem?_set_ne (by omega)]
      exact getElem?_writeAt_term (by omega)
    · rw [setAt_ne _ _ hin2]
      have hin3 : i < t._uiNumberProcessFileNames := by
        have : i < t._uiNumberProcessFileNames + 1 := hin
        omega
      obtain ⟨h1, e, he1, he2, he3⟩ := hi.terminated i hin3
      exact ⟨h1, e, he1, by omega, by rw [hb e (by omega) he2]; exact he3⟩
  · exact Or.inr (Nat.lt_succ_self _)
  · intro i hin
    exact hi.unused i (by have : t._uiNumberProcessFileNames + 1 ≤ i := hin; omega)
  · show (List.set _ _ _)[0]? = _
    rw [List.getElem?_set_self (by rw [hwlen]; have := hi.next_le; omega)]
    rfl

theorem Inv_of_table {K : Capacity} {t t' : Telemetry} (hi : Inv K t) (hsn : SameNames t t')
    (hnext : t'._iProcessFileNamesNext = t._iProcessFileNamesNext)
    (hcur : t'._iProcessConnectedCurrently = t._iProcessConnectedCurrently)
    (h1 : t'._rguiProcessFileNamesCodesCount = t._rguiProcessFileNamesCodesCount)
    (h2 : t'._rguiProcessFileNamesFailedCodesCount = t._rguiProcessFileNamesFailedCodesCount)
    (h3 : t'._rguiProcessFileNamesFailedOutsideCodesCount =
      t._rguiProcessFileNamesFailedOutsideCodesCount) : Inv K t' := by
  obtain ⟨hb, ho, hx, hc⟩ := hsn
  refine ⟨?_, ?_, ?_, ?_, SameNames.IndexSorted ⟨hb, ho, hx, hc⟩ hi.sorted, ?_, ?_, ?_, ?_⟩
  · rw [hc]; exact hi.count_le
  · rw [hb]; exact hi.buf_len
  · rw [hnext]; exact hi.next_pos
  · rw [hnext]; exact hi.next_le
  · rw [hc, hb, ho, hnext]; exact hi.terminated
  · rw [hc, hcur]; exact hi.current
  · rw [hc, h1, h2, h3]; exact hi.unused
  · rw [hc, hb]; exact hi.header

theorem LogProcessConnected_inv {K : Capacity} (hK : K.Valid) (fEnabled : Bool)
    (hProcess : Option ProcessImage) {h : Host} (hi : Inv K h.telemetry) :
    Inv K (LogProcessConnected K fEnabled hProcess h).telemetry := by
  cases fEnabled with
  | false => rw [LogProcessConnected_disabled]; exact hi
  | true =>
    have hi1 := TotalCodes_inv K hK h hi
    cases hProcess with
    | none => rw [LogProcessConnected_unresolved]; exact hi1
    | some img =>
      obtain ⟨found, p, hf, hm, hip⟩ :=
        FindProcessName_spec (TotalCodesForPreviousProcess K h).telemetry img.pwszFileName
          hi1.sorted
      cases found with
      | true =>
        rw [LogProcessConnected_hit hf]
        have hp := (hm rfl).1
        exact ⟨hi1.count_le, hi1.buf_len, hi1.next_pos, hi1.next_le, hi1.sorted,
          hi1.terminated, Or.inr (hi1.sorted.1 p hp), hi1.unused, hi1.header⟩
      | false =>
        by_cases ha : (TotalCodesForPreviousProcess K h).telemetry._uiNumberProcessFileNames
            < K.c_iMaxProcessesConnected ∧
          (TotalCodesForPreviousProcess K h).telemetry._iProcessFileNamesNext
            < K.cchProcessFileNames - 10
        · by_cases hr : wcslen img.pwszFileName < K.cchProcessFileNames -
            (TotalCodesForPreviousProcess K h).telemetry._iProcessFileNamesNext - 1
          · rw [LogProcessConnected_recorded hK hf ⟨ha.1, ha.2, hr⟩]
            exact recorded_inv hi1 img (hip rfl) ⟨ha.1, ha.2, hr⟩
          · rw [LogProcessConnected_no_room hf ha hr]
            have hfr := StringCchCopyW_frame
              (TotalCodesForPreviousProcess K h).telemetry._wchProcessFileNames
              (TotalCodesForPreviousProcess K h).telemetry._iProcessFileNamesNext
              (K.cchProcessFileNames -
                (TotalCodesForPreviousProcess K h).telemetry._iProcessFileNamesNext - 1)
              img.pwszFileName (by have := hi1.buf_len; have := ha.2; omega)
            refine ⟨hi1.count_le, ?_, hi1.next_pos, hi1.next_le, ?_, ?_, hi1.current,
              hi1.unused, ?_⟩
            · exact hfr.1.trans hi1.buf_len
            · refine IndexSorted_of_names hi1.sorted rfl rfl ?_
              intro i hin
              exact hi1.names_preserved (fun e _ he => hfr.2 e he) hin
            · intro i hin
              obtain ⟨h1, e, he1, he2, he3⟩ := hi1.terminated i hin
              exact ⟨h1, e, he1, he2, (hfr.2 e he2).trans he3⟩
            · exact (hfr.2 0 hi1.next_pos).trans hi1.header
        · rw [LogProcessConnected_full hf ha]; exact hi1

theorem WriteFinalTraceLog_inv {K : Capacity} (hK : K.Valid) (fEnabled : Bool) (tEndedAt : Int)
    (ci : ConsoleInformation) {h : Host} (hi : Inv K h.telemetry) :
    Inv K (WriteFinalTraceLog K fEnabled tEndedAt ci h).telemetry := by
  unfold WriteFinalTraceLog
  dsimp only
  split
  · split
    · exact TotalCodes_inv K hK _ hi
    · exact hi
  · exact hi

end Telemetry

theorem step_inv {K : Capacity} (hK : K.Valid) (op : Op) {h : Host}
    (hi : Telemetry.Inv K h.telemetry) : Telemetry.Inv K (step K op h).telemetry := by
  cases op with
  | LogProcessConnected fEnabled hProcess =>
    exact Telemetry.LogProcessConnected_inv hK fEnabled hProcess hi
  | WriteFinalTraceLog fEnabled tEndedAt ci =>
    exact Telemetry.WriteFinalTraceLog_inv hK fEnabled tEndedAt ci hi
  | LogApiCall api fUnicode =>
    cases fUnicode <;>
      exact Telemetry.Inv_of_table hi ⟨rfl, rfl, rfl, rfl⟩ rfl rfl rfl rfl rfl
  | _ => exact Telemetry.Inv_of_table hi ⟨rfl, rfl, rfl, rfl⟩ rfl rfl rfl rfl rfl

theorem run_append (K : Capacity) (ops : List Op) (op : Op) (h : Host) :
    run K (ops ++ [op]) h = step K op (run K ops h) := by
  simp [run, List.foldl_append]

theorem run_inv {K : Capacity} (hK : K.Valid) (ops : List Op) {h : Host}
    (hi : Telemetry.Inv K h.telemetry) : Telemetry.Inv K (run K ops h).telemetry := by
  induction ops generalizing h with
  | nil => exact hi
  | cons op ops ih => exact ih (step_inv hK op hi)

theorem new_run_inv {K : Capacity} (hK : K.Valid) (tStartedAt : Int) (ops : List Op) :
    Telemetry.Inv K (run K ops (Host.new K tStartedAt)).telemetry :=
  run_inv hK ops (Telemetry.Inv_new K hK tStartedAt)

theorem Reachable.inv {K : Capacity} (hK : K.Valid) {h : Host} (hr : Reachable K h) :
    Telemetry.Inv K h.telemetry := by
  obtain ⟨t0, ops, rfl⟩ := hr
  exact run_inv hK ops (Telemetry.Inv_new K hK t0)

theorem Reachable.step {K : Capacity} {h : Host} (hr : Reachable K h) (op : Op) :
    Reachable K (step K op h) := by
  obtain ⟨t0, ops, rfl⟩ := hr
  exact ⟨t0, ops ++ [op], (run_append K ops op _).symm⟩

namespace Telemetry

theorem IndexSorted.injective {t : Telemetry} (hs : IndexSorted t) {i j : Nat}
    (hi : i < t._uiNumberProcessFileNames) (hj : j < t._uiNumberProcessFileNames)
    (h : t._rgiAlphabeticalIndex i = t._rgiAlphabeticalIndex j) : i = j := by
  rcases Nat.lt_trichotomy i j with hlt | heq | hgt
  · have := hs.2 j hj i hlt
    rw [h, wcsnicmp_self] at this
    omega
  · exact heq
  · have := hs.2 i hi j hgt
    rw [h, wcsnicmp_self] at this
    omega

theorem IndexSorted.surjective {t : Telemetry} (hs : IndexSorted t) {s : Nat}
    (h : s < t._uiNumberProcessFileNames) :
    ∃ j, j < t._uiNumberProcessFileNames ∧ t._rgiAlphabeticalIndex j = s := by
  let f : Fin t._uiNumberProcessFileNames → Fin t._uiNumberProcessFileNames :=
    fun j => ⟨t._rgiAlphabeticalIndex j, hs.1 j j.2⟩
  have hinj : Function.Injective f := by
    intro a b hab
    exact Fin.ext (hs.injective a.2 b.2 (congrArg Fin.val hab))
  obtain ⟨j, hj⟩ := (Finite.injective_iff_surjective.mp hinj) ⟨s, h⟩
  exact ⟨j, j.2, congrArg Fin.val hj⟩

theorem FindProcessName_present {t : Telemetry} (hs : IndexSorted t) {x : List Nat} {i : Nat}
    (hi : i < t._uiNumberProcessFileNames)
    (hx : wcsnicmp x (processFileName t i) MAX_PATH = 0) :
    ∃ p, FindProcessName t x = some (true, p) ∧ p < t._uiNumberProcessFileNames ∧
      t._rgiAlphabeticalIndex p = i := by
  obtain ⟨found, p, hf, hm, hip⟩ := FindProcessName_spec t x hs
  obtain ⟨j, hj, hji⟩ := hs.surjective hi
  cases found with
  | false =>
    obtain ⟨_, hlo, hhi⟩ := hip rfl
    rw [← hji] at hx
    by_cases hjp : j < p
    · have := hlo j hjp; omega
    · have := hhi j (by omega) hj; omega
  | true =>
    obtain ⟨hp, hpx⟩ := hm rfl
    refine ⟨p, hf, hp, ?_⟩
    have h0 : wcsnicmp (processFileName t (t._rgiAlphabeticalIndex p))
        (processFileName t (t._rgiAlphabeticalIndex j)) MAX_PATH = 0 := by
      rw [← wcsnicmp_congr_left hpx, hji]; exact hx
    rcases Nat.lt_trichotomy p j with hlt | heq | hgt
    · have := hs.2 j hj p hlt; omega
    · rw [heq]; exact hji
    · have := hs.2 p hp j hgt
      rw [wcsnicmp_swap] at this; omega

theorem FindProcessName_absent {t : Telemetry} (hs : IndexSorted t) {x : List Nat}
    (hx : ∀ i, i < t._uiNumberProcessFileNames →
      wcsnicmp x (processFileName t i) MAX_PATH ≠ 0) :
    ∃ p, FindProcessName t x = some (false, p) ∧ IsInsertionPoint t x p := by
  obtain ⟨found, p, hf, hm, hip⟩ := FindProcessName_spec t x hs
  cases found with
  | false => exact ⟨p, hf, hip rfl⟩
  | true =>
    obtain ⟨hp, hpx⟩ := hm rfl
    exact absurd hpx (hx _ (hs.1 p hp))

end Telemetry

/-- Claim C1. After every sequence of operations on a freshly constructed aggregator,
in particular after every `LogProcessConnected` call of a sequence of such calls, the
first `count` entries of the alphabetical index lie below `count`, are pairwise
different, cover every slot below `count`, and name slots whose names strictly
increase in the case-insensitive order. -/
theorem alphabetical_index_sorted_permutation (K : Capacity) (hK : K.Valid)
    (tStartedAt : Int) (ops : List Op) :
    (∀ j, j < (run K ops (Host.new K tStartedAt)).telemetry._uiNumberProcessFileNames →
      (run K ops (Host.new K tStartedAt)).telemetry._rgiAlphabeticalIndex j <
        (run K ops (Host.new K tStartedAt)).telemetry._uiNumberProcessFileNames) ∧
    (∀ i j, i < (run K ops (Host.new K tStartedAt)).telemetry._uiNumberProcessFileNames →
      j < (run K ops (Host.new K tStartedAt)).telemetry._uiNumberProcessFileNames →
      (run K ops (Host.new K tStartedAt)).telemetry._rgiAlphabeticalIndex i =
        (run K ops (Host.new K tStartedAt)).telemetry._rgiAlphabeticalIndex j → i = j) ∧
    (∀ s, s < (run K ops (Host.new K tStartedAt)).telemetry._uiNumberProcessFileNames →
      ∃ j, j < (run K ops (Host.new K tStartedAt)).telemetry._uiNumberProcessFileNames ∧
        (run K ops (Host.new K tStartedAt)).telemetry._rgiAlphabeticalIndex j = s) ∧
    (∀ j, j < (run K ops (Host.new K tStartedAt)).telemetry._uiNumberProcessFileNames →
      ∀ i, i < j →
        wcsnicmp
          ((run K ops (Host.new K tStartedAt)).telemetry.processFileName
            ((run K ops (Host.new K tStartedAt)).telemetry._rgiAlphabeticalIndex i))
          ((run K ops (Host.new K tStartedAt)).telemetry.processFileName
            ((run K ops (Host.new K tStartedAt)).telemetry._rgiAlphabeticalIndex j))
          MAX_PATH < 0) := by
  have hs := (new_run_inv hK tStartedAt ops).sorted
  exact ⟨hs.1, fun i j hi hj h => hs.injective hi hj h, fun s h => hs.surjective h, hs.2⟩

theorem alphabetical_index_sorted_permutation_witness :
    sampleCapacity.Valid ∧
    (∀ j, j < (run sampleCapacity sampleSession (Host.new sampleCapacity 0)).telemetry._uiNumberProcessFileNames →
      (run sampleCapacity sampleSession (Host.new sampleCapacity 0)).telemetry._rgiAlphabeticalIndex j <
        (run sampleCapacity sampleSession (Host.new sampleCapacity 0)).telemetry._uiNumberProcessFileNames) ∧
    (∀ i j, i < (run sampleCapacity sampleSession (Host.new sampleCapacity 0)).telemetry._uiNumberProcessFileNames →
      j < (run sampleCapacity sampleSession (Host.new sampleCapacity 0)).telemetry._uiNumberProcessFileNames →
      (run sampleCapacity sampleSession (Host.new sampleCapacity 0)).telemetry._rgiAlphabeticalIndex i =
        (run sampleCapacity sampleSession (Host.new sampleCapacity 0)).telemetry._rgiAlphabeticalIndex j → i = j) ∧
    (∀ s, s < (run sampleCapacity sampleSession (Host.new sampleCapacity 0)).telemetry._uiNumberProcessFileNames →
      ∃ j, j < (run sampleCapacity sampleSession (Host.new sampleCapacity 0)).telemetry._uiNumberProcessFileNames ∧
        (run sampleCapacity sampleSession (Host.new sampleCapacity 0)).telemetry._rgiAlphabeticalIndex j = s) ∧
    (∀ j, j < (run sampleCapacity sampleSession (Host.new sampleCapacity 0)).telemetry._uiNumberProcessFileNames →
      ∀ i, i < j →
        wcsnicmp
          ((run sampleCapacity sampleSession (Host.new sampleCapacity 0)).telemetry.processFileName
            ((run sampleCapacity sampleSession (Host.new sampleCapacity 0)).telemetry._rgiAlphabeticalIndex i))
          ((run sampleCapacity sampleSession (Host.new sampleCapacity 0)).telemetry.processFileName
            ((run sampleCapacity sampleSession (Host.new sampleCapacity 0)).telemetry._rgiAlphabeticalIndex j))
          MAX_PATH < 0) :=
  ⟨by decide, alphabetical_index_sorted_permutation sampleCapacity (by decide) 0 sampleSession⟩

/-- Claim C2. On a table whose alphabetical index is sorted, `FindProcessName` returns,
and it reports found exactly when some slot below `count` holds a name that compares
equal to the queried name without regard to case; when it reports found, the position
is below `count` and the slot the alphabetical index names there holds such a name. -/
theorem FindProcessName_found_iff_present (t : Telemetry) (pszProcessName : List Nat)
    (hs : t.IndexSorted) :
    ∃ found iPosition, t.FindProcessName pszProcessName = some (found, iPosition) ∧
      (found = true ↔ ∃ i, i < t._uiNumberProcessFileNames ∧
        wcsnicmp pszProcessName (t.processFileName i) MAX_PATH = 0) ∧
      (found = true → iPosition < t._uiNumberProcessFileNames ∧
        wcsnicmp pszProcessName (t.processFileName (t._rgiAlphabeticalIndex iPosition))
          MAX_PATH = 0) := by
  obtain ⟨found, p, hf, hm, hip⟩ := Telemetry.FindProcessName_spec t pszProcessName hs
  refine ⟨found, p, hf, ⟨fun h => ?_, fun ⟨i, hi, hx⟩ => ?_⟩, fun h => hm h⟩
  · exact ⟨_, hs.1 p (hm h).1, (hm h).2⟩
  · obtain ⟨q, hq, _⟩ := Telemetry.FindProcessName_present hs hi hx
    rw [hf] at hq
    exact congrArg Prod.fst (Option.some.inj hq)

theorem FindProcessName_found_iff_present_witness :
    sampleHost.telemetry.IndexSorted ∧
    ∃ found iPosition,
      sampleHost.telemetry.FindProcessName wszCmdExeUpper = some (found, iPosition) ∧
      (found = true ↔ ∃ i, i < sampleHost.telemetry._uiNumberProcessFileNames ∧
        wcsnicmp wszCmdExeUpper (sampleHost.telemetry.processFileName i) MAX_PATH = 0) ∧
      (found = true → iPosition < sampleHost.telemetry._uiNumberProcessFileNames ∧
        wcsnicmp wszCmdExeUpper (sampleHost.telemetry.processFileName
          (sampleHost.telemetry._rgiAlphabeticalIndex iPosition)) MAX_PATH = 0) :=
  ⟨(new_run_inv (by decide) 0 sampleSession).sorted,
    FindProcessName_found_iff_present sampleHost.telemetry wszCmdExeUpper
      (new_run_inv (by decide) 0 sampleSession).sorted⟩

/-- Claim C3. On a table whose alphabetical index is sorted, for a name that no slot
below `count` holds, `FindProcessName` returns not-found with a position `p` at most
`count` such that every index entry below `p` names a slot that compares less than
the name and every entry from `p` on names a slot that compares greater; the index
with the name spliced in at `p` is therefore sorted, and on an empty table `p` is 0. -/
theorem FindProcessName_not_found_insertion_point (t : Telemetry)
    (pszProcessName : List Nat) (hs : t.IndexSorted)
    (habsent : ∀ i, i < t._uiNumberProcessFileNames →
      wcsnicmp pszProcessName (t.processFileName i) MAX_PATH ≠ 0) :
    ∃ iPosition, t.FindProcessName pszProcessName = some (false, iPosition) ∧
      iPosition ≤ t._uiNumberProcessFileNames ∧
      (∀ j, j < iPosition →
        wcsnicmp (t.processFileName (t._rgiAlphabeticalIndex j)) pszProcessName MAX_PATH < 0) ∧
      (∀ j, iPosition ≤ j → j < t._uiNumberProcessFileNames →
        wcsnicmp pszProcessName (t.processFileName (t._rgiAlphabeticalIndex j)) MAX_PATH < 0) ∧
      (∀ j, j < t._uiNumberProcessFileNames + 1 → ∀ i, i < j →
        wcsnicmp (t.splicedName pszProcessName iPosition i)
          (t.splicedName pszProcessName iPosition j) MAX_PATH < 0) ∧
      (t._uiNumberProcessFileNames = 0 → iPosition = 0) := by
  obtain ⟨p, hf, hple, hlo, hhi⟩ := Telemetry.FindProcessName_absent hs habsent
  have hlo' : ∀ j, j < p →
      wcsnicmp (t.processFileName (t._rgiAlphabeticalIndex j)) pszProcessName MAX_PATH < 0 := by
    intro j hj
    have := hlo j hj
    rw [wcsnicmp_swap pszProcessName]; omega
  refine ⟨p, hf, hple, hlo', hhi, ?_, fun h0 => by omega⟩
  intro j hj i hij
  unfold Telemetry.splicedName
  by_cases hj1 : j < p
  · rw [if_pos hj1, if_pos (by omega : i < p)]
    exact hs.2 j (by omega) i hij
  · rw [if_neg hj1]
    by_cases hj2 : j = p
    · rw [if_pos hj2, if_pos (by omega : i < p)]
      exact hlo' i (by omega)
    · rw [if_neg hj2]
      by_cases hi1 : i < p
      · rw [if_pos hi1]
        exact hs.2 (j - 1) (by omega) i (by omega)
      · rw [if_neg hi1]
        by_cases hi2 : i = p
        · rw [if_pos hi2]
          exact hhi (j - 1) (by omega) (by omega)
        · rw [if_neg hi2]
          exact hs.2 (j - 1) (by omega) (i - 1) (by omega)

set_option maxRecDepth 100000 in
theorem FindProcessName_not_found_insertion_point_witness :
    sampleHost.telemetry.IndexSorted ∧
    (∀ i, i < sampleHost.telemetry._uiNumberProcessFileNames →
      wcsnicmp wszPingExe (sampleHost.telemetry.processFileName i) MAX_PATH ≠ 0) ∧
    ∃ iPosition, sampleHost.telemetry.FindProcessName wszPingExe = some (false, iPosition) ∧
      iPosition ≤ sampleHost.telemetry._uiNumberProcessFileNames ∧
      (∀ j, j < iPosition →
        wcsnicmp (sampleHost.telemetry.processFileName
          (sampleHost.telemetry._rgiAlphabeticalIndex j)) wszPingExe MAX_PATH < 0) ∧
      (∀ j, iPosition ≤ j → j < sampleHost.telemetry._uiNumberProcessFileNames →
        wcsnicmp wszPingExe (sampleHost.telemetry.processFileName
          (sampleHost.telemetry._rgiAlphabeticalIndex j)) MAX_PATH < 0) ∧
      (∀ j, j < sampleHost.telemetry._uiNumberProcessFileNames + 1 → ∀ i, i < j →
        wcsnicmp (sampleHost.telemetry.splicedName wszPingExe iPosition i)
          (sampleHost.telemetry.splicedName wszPingExe iPosition j) MAX_PATH < 0) ∧
      (sampleHost.telemetry._uiNumberProcessFileNames = 0 → iPosition = 0) :=
  ⟨(new_run_inv (by decide) 0 sampleSession).sorted, by decide,
    FindProcessName_not_found_insertion_point sampleHost.telemetry wszPingExe
      (new_run_inv (by decide) 0 sampleSession).sorted (by decide)⟩

/-- Claim C4. In a reachable state, a sampled connection whose resolved name is already
held by slot `i` (compared without regard to case) creates no slot: count, alphabetical
index, packed buffer, write cursor and offsets are unchanged; the connection count of
slot `i` is incremented exactly once (the `++` of an `unsigned int`: one more than
before, short of the 32-bit limit) and no other connection count changes. -/
theorem LogProcessConnected_existing_name (K : Capacity) (hK : K.Valid) (h : Host)
    (hr : Reachable K h) (img : ProcessImage) (i : Nat)
    (hi : i < h.telemetry._uiNumberProcessFileNames)
    (hpresent : wcsnicmp img.pwszFileName (h.telemetry.processFileName i) MAX_PATH = 0) :
    (Telemetry.LogProcessConnected K true (some img) h).telemetry._uiNumberProcessFileNames =
        h.telemetry._uiNumberProcessFileNames ∧
    (Telemetry.LogProcessConnected K true (some img) h).telemetry._rgiAlphabeticalIndex =
        h.telemetry._rgiAlphabeticalIndex ∧
    (Telemetry.LogProcessConnected K true (some img) h).telemetry._wchProcessFileNames =
        h.telemetry._wchProcessFileNames ∧
    (Telemetry.LogProcessConnected K true (some img) h).telemetry._iProcessFileNamesNext =
        h.telemetry._iProcessFileNamesNext ∧
    (Telemetry.LogProcessConnected K true (some img) h).telemetry._rgiProccessFileNameIndex =
        h.telemetry._rgiProccessFileNameIndex ∧
    (Telemetry.LogProcessConnected K true (some img) h).telemetry._rguiProcessFileNamesCount i =
        (h.telemetry._rguiProcessFileNamesCount i + 1) % UINT_MOD ∧
    (h.telemetry._rguiProcessFileNamesCount i + 1 < UINT_MOD →
      (Telemetry.LogProcessConnected K true (some img) h).telemetry._rguiProcessFileNamesCount i =
        h.telemetry._rguiProcessFileNamesCount i + 1) ∧
    ∀ j, j ≠ i →
      (Telemetry.LogProcessConnected K true (some img) h).telemetry._rguiProcessFileNamesCount j =
        h.telemetry._rguiProcessFileNamesCount j := by
  have hi1 := Telemetry.TotalCodes_inv K hK h (hr.inv hK)
  have hsn := Telemetry.TotalCodes_sameNames K h
  have hi' : i < (Telemetry.TotalCodesForPreviousProcess K h).telemetry._uiNumberProcessFileNames := by
    rw [hsn.2.2.2]; exact hi
  have hp' : wcsnicmp img.pwszFileName
      ((Telemetry.TotalCodesForPreviousProcess K h).telemetry.processFileName i) MAX_PATH = 0 := by
    rw [hsn.processFileName]; exact hpresent
  obtain ⟨p, hf, _, hpi⟩ := Telemetry.FindProcessName_present hi1.sorted hi' hp'
  rw [Telemetry.LogProcessConnected_hit hf]
  refine ⟨hsn.2.2.2, hsn.2.2.1, hsn.1, Telemetry.TotalCodes_next K h, hsn.2.1, ?_, ?_, ?_⟩
  · show setAt _ _ _ i = _
    rw [hpi, Telemetry.setAt_same, Telemetry.TotalCodes_count]
  · intro hlt
    show setAt _ _ _ i = _
    rw [hpi, Telemetry.setAt_same, Telemetry.TotalCodes_count, Nat.mod_eq_of_lt hlt]
  · intro j hj
    show setAt _ _ _ j = _
    rw [hpi, Telemetry.setAt_ne _ _ hj, Telemetry.TotalCodes_count]

set_option maxRecDepth 100000 in
theorem LogProcessConnected_existing_name_witness :
    sampleCapacity.Valid ∧ Reachable sampleCapacity sampleHost ∧
    0 < sampleHost.telemetry._uiNumberProcessFileNames ∧
    wcsnicmp wszCmdExeUpper (sampleHost.telemetry.processFileName 0) MAX_PATH = 0 ∧
    (Telemetry.LogProcessConnected sampleCapacity true (some ⟨wszCmdExeUpper, none⟩)
        sampleHost).telemetry._uiNumberProcessFileNames =
        sampleHost.telemetry._uiNumberProcessFileNames ∧
    (Telemetry.LogProcessConnected sampleCapacity true (some ⟨wszCmdExeUpper, none⟩)
        sampleHost).telemetry._rgiAlphabeticalIndex =
        sampleHost.telemetry._rgiAlphabeticalIndex ∧
    (Telemetry.LogProcessConnected sampleCapacity true (some ⟨wszCmdExeUpper, none⟩)
        sampleHost).telemetry._wchProcessFileNames =
        sampleHost.telemetry._wchProcessFileNames ∧
    (Telemetry.LogProcessConnected sampleCapacity true (some ⟨wszCmdExeUpper, none⟩)
        sampleHost).telemetry._iProcessFileNamesNext =
        sampleHost.telemetry._iProcessFileNamesNext ∧
    (Telemetry.LogProcessConnected sampleCapacity true (some ⟨wszCmdExeUpper, none⟩)
        sampleHost).telemetry._rgiProccessFileNameIndex =
        sampleHost.telemetry._rgiProccessFileNameIndex ∧
    (Telemetry.LogProcessConnected sampleCapacity true (some ⟨wszCmdExeUpper, none⟩)
        sampleHost).telemetry._rguiProcessFileNamesCount 0 =
        (sampleHost.telemetry._rguiProcessFileNamesCount 0 + 1) % UINT_MOD ∧
    (sampleHost.telemetry._rguiProcessFileNamesCount 0 + 1 < UINT_MOD →
      (Telemetry.LogProcessConnected sampleCapacity true (some ⟨wszCmdExeUpper, none⟩)
        sampleHost).telemetry._rguiProcessFileNamesCount 0 =
        sampleHost.telemetry._rguiProcessFileNamesCount 0 + 1) ∧
    ∀ j, j ≠ 0 →
      (Telemetry.LogProcessConnected sampleCapacity true (some ⟨wszCmdExeUpper, none⟩)
        sampleHost).telemetry._rguiProcessFileNamesCount j =
        sampleHost.telemetry._rguiProcessFileNamesCount j :=
  ⟨by decide, ⟨0, sampleSession, rfl⟩, by decide, by decide,
    LogProcessConnected_existing_name sampleCapacity (by decide) sampleHost
      ⟨0, sampleSession, rfl⟩ ⟨wszCmdExeUpper, none⟩ 0 (by decide) (by decide)⟩

namespace Telemetry

theorem recorded_eq_of_absent {K : Capacity} (hK : K.Valid) {h : Host} (hi : Inv K h.telemetry)
    {img : ProcessImage}
    (habsent : ∀ i, i < h.telemetry._uiNumberProcessFileNames →
      wcsnicmp img.pwszFileName (h.telemetry.processFileName i) MAX_PATH ≠ 0)
    (ha : LogProcessConnected.admits K h.telemetry img.pwszFileName) :
    ∃ p, FindProcessName h.telemetry img.pwszFileName = some (false, p) ∧
      IsInsertionPoint (TotalCodesForPreviousProcess K h).telemetry img.pwszFileName p ∧
      LogProcessConnected K true (some img) h =
        { TotalCodesForPreviousProcess K h with
          telemetry := LogProcessConnected.recorded
            (TotalCodesForPreviousProcess K h).telemetry img p } := by
  have hi1 := TotalCodes_inv K hK h hi
  have hsn := TotalCodes_sameNames K h
  obtain ⟨p, hf, hip⟩ := FindProcessName_absent (x := img.pwszFileName) hi1.sorted (by
    intro i hin
    rw [hsn.processFileName]
    exact habsent i (by rw [← hsn.2.2.2]; exact hin))
  refine ⟨p, by rw [← hsn.FindProcessName]; exact hf, hip, ?_⟩
  refine LogProcessConnected_recorded hK hf ⟨?_, ?_, ?_⟩
  · rw [hsn.2.2.2]; exact ha.1
  · rw [TotalCodes_next]; exact ha.2.1
  · rw [TotalCodes_next]; exact ha.2.2

/-- What a rejected connection leaves of the state after the fold: everything but
the packed buffer beyond the cursor and the bash flag. -/
theorem rejected_of_absent {K : Capacity} (hK : K.Valid) {h : Host} (hi : Inv K h.telemetry)
    {img : ProcessImage}
    (habsent : ∀ i, i < h.telemetry._uiNumberProcessFileNames →
      wcsnicmp img.pwszFileName (h.telemetry.processFileName i) MAX_PATH ≠ 0)
    (ha : ¬ LogProcessConnected.admits K h.telemetry img.pwszFileName) :
    ∃ (b : Bool) (buf : List Nat),
      LogProcessConnected K true (some img) h =
        { TotalCodesForPreviousProcess K h with
          telemetry := { (TotalCodesForPreviousProcess K h).telemetry with
            _fBashUsed := b
            _wchProcessFileNames := buf } } := by
  have hi1 := TotalCodes_inv K hK h hi
  have hsn := TotalCodes_sameNames K h
  obtain ⟨p, hf, hip⟩ := FindProcessName_absent (x := img.pwszFileName) hi1.sorted (by
    intro i hin
    rw [hsn.processFileName]
    exact habsent i (by rw [← hsn.2.2.2]; exact hin))
  by_cases hg : (TotalCodesForPreviousProcess K h).telemetry._uiNumberProcessFileNames
      < K.c_iMaxProcessesConnected ∧
    (TotalCodesForPreviousProcess K h).telemetry._iProcessFileNamesNext
      < K.cchProcessFileNames - 10
  · have hr : ¬ wcslen img.pwszFileName < K.cchProcessFileNames -
        (TotalCodesForPreviousProcess K h).telemetry._iProcessFileNamesNext - 1 := by
      intro hlt
      apply ha
      refine ⟨?_, ?_, ?_⟩
      · rw [← hsn.2.2.2]; exact hg.1
      · rw [← TotalCodes_next K h]; exact hg.2
      · rw [← TotalCodes_next K h]; exact hlt
    exact ⟨_, _, LogProcessConnected_no_room hf hg hr⟩
  · exact ⟨_, _, (LogProcessConnected_full hf hg).trans rfl⟩

end Telemetry

/-- Claim C8. In every state reachable from a freshly constructed aggregator, the
first element of the packed buffer, which holds the two header bytes `(BYTE)n` and
`(BYTE)(n >> 8)` in little-endian order, equals the number of process names, provided
the capacity fits the 16-bit header. -/
theorem count_header_eq_count (K : Capacity) (hK : K.Valid)
    (hcap : K.c_iMaxProcessesConnected < 65536) (tStartedAt : Int) (ops : List Op) :
    (run K ops (Host.new K tStartedAt)).telemetry._wchProcessFileNames[0]? =
      some (run K ops (Host.new K tStartedAt)).telemetry._uiNumberProcessFileNames := by
  have hi := new_run_inv hK tStartedAt ops
  have hc := hi.count_le
  rw [hi.header]
  unfold Telemetry.countHeader
  congr 1
  omega

theorem count_header_eq_count_witness :
    sampleCapacity.Valid ∧ sampleCapacity.c_iMaxProcessesConnected < 65536 ∧
    (run sampleCapacity sampleSession (Host.new sampleCapacity 0)).telemetry._wchProcessFileNames[0]? =
      some (run sampleCapacity sampleSession
        (Host.new sampleCapacity 0)).telemetry._uiNumberProcessFileNames :=
  ⟨by decide, by decide,
    count_header_eq_count sampleCapacity (by decide) (by decide) 0 sampleSession⟩

/-- Claim C9. In a reachable state with `n` names and write cursor `c`, a sampled
connection whose name `FindProcessName` does not find (position `p`) and which the
admission check and the copy accept yields count `n + 1`; the new slot is slot `n`
(the attributed one), with offset `c`, connection count 1 and the three code counters
0; the cursor becomes `c + wcslen name + 1`; and the alphabetical index is the old
one with `n` spliced in at `p`, the entries from `p` on moved up by one. -/
theorem LogProcessConnected_records_new_name (K : Capacity) (hK : K.Valid) (h : Host)
    (hr : Reachable K h) (img : ProcessImage) (p : Nat)
    (hf : h.telemetry.FindProcessName img.pwszFileName = some (false, p))
    (ha : Telemetry.LogProcessConnected.admits K h.telemetry img.pwszFileName) :
    (Telemetry.LogProcessConnected K true (some img) h).telemetry._uiNumberProcessFileNames =
        h.telemetry._uiNumberProcessFileNames + 1 ∧
    (Telemetry.LogProcessConnected K true (some img) h).telemetry._iProcessConnectedCurrently =
        h.telemetry._uiNumberProcessFileNames ∧
    (Telemetry.LogProcessConnected K true (some img) h).telemetry._rgiProccessFileNameIndex
        h.telemetry._uiNumberProcessFileNames = h.telemetry._iProcessFileNamesNext ∧
    (Telemetry.LogProcessConnected K true (some img) h).telemetry._rguiProcessFileNamesCount
        h.telemetry._uiNumberProcessFileNames = 1 ∧
    (Telemetry.LogProcessConnected K true (some img) h).telemetry._rguiProcessFileNamesCodesCount
        h.telemetry._uiNumberProcessFileNames = 0 ∧
    (Telemetry.LogProcessConnected K true (some img)
        h).telemetry._rguiProcessFileNamesFailedCodesCount
        h.telemetry._uiNumberProcessFileNames = 0 ∧
    (Telemetry.LogProcessConnected K true (some img)
        h).telemetry._rguiProcessFileNamesFailedOutsideCodesCount
        h.telemetry._uiNumberProcessFileNames = 0 ∧
    (Telemetry.LogProcessConnected K true (some img) h).telemetry._iProcessFileNamesNext =
        h.telemetry._iProcessFileNamesNext + wcslen img.pwszFileName + 1 ∧
    ∀ j, j ≤ h.telemetry._uiNumberProcessFileNames →
      (Telemetry.LogProcessConnected K true (some img) h).telemetry._rgiAlphabeticalIndex j =
        if j < p then h.telemetry._rgiAlphabeticalIndex j
        else if j = p then h.telemetry._uiNumberProcessFileNames
        else h.telemetry._rgiAlphabeticalIndex (j - 1) := by
  have hi1 := Telemetry.TotalCodes_inv K hK h (hr.inv hK)
  have hsn := Telemetry.TotalCodes_sameNames K h
  have hf1 : (Telemetry.TotalCodesForPreviousProcess K h).telemetry.FindProcessName
      img.pwszFileName = some (false, p) := by rw [hsn.FindProcessName]; exact hf
  have ha1 : Telemetry.LogProcessConnected.admits K
      (Telemetry.TotalCodesForPreviousProcess K h).telemetry img.pwszFileName := by
    refine ⟨?_, ?_, ?_⟩
    · rw [hsn.2.2.2]; exact ha.1
    · rw [Telemetry.TotalCodes_next]; exact ha.2.1
    · rw [Telemetry.TotalCodes_next]; exact ha.2.2
  have hple : p ≤ h.telemetry._uiNumberProcessFileNames := by
    obtain ⟨found, q, hq, _, hip⟩ :=
      Telemetry.FindProcessName_spec _ img.pwszFileName hi1.sorted
    rw [hf1] at hq
    obtain ⟨rfl, rfl⟩ := Prod.mk.inj (Option.some.inj hq)
    rw [← hsn.2.2.2]; exact (hip rfl).1
  have hu := hi1.unused _ (le_refl _)
  rw [hsn.2.2.2] at hu
  rw [Telemetry.LogProcessConnected_recorded hK hf1 ha1]
  refine ⟨?_, ?_, ?_, ?_, hu.1, hu.2.1, hu.2.2, ?_, ?_⟩
  · show _ + 1 = _ + 1
    rw [hsn.2.2.2]
  · exact hsn.2.2.2
  · show setAt _ _ _ _ = _
    rw [hsn.2.2.2, Telemetry.setAt_same, Telemetry.TotalCodes_next]
  · show setAt _ _ _ _ = _
    rw [hsn.2.2.2, Telemetry.setAt_same]
  · show _ + _ + 1 = _
    rw [Telemetry.TotalCodes_next]
  · intro j hj
    show setAt (Telemetry.shiftAlphabeticalIndex _ _ _) _ _ _ = _
    rw [hsn.2.2.2, hsn.2.2.1, Telemetry.insertedIndex_apply _ _ _ _ hple]
    by_cases h1 : j < p
    · rw [if_pos h1, if_pos h1]
    · rw [if_neg h1, if_neg h1]
      by_cases h2 : j = p
      · rw [if_pos h2, if_pos h2]
      · rw [if_neg h2, if_neg h2, if_pos hj]

namespace Telemetry

theorem hit_of_present {K : Capacity} (hK : K.Valid) {h : Host} (hi : Inv K h.telemetry)
    {img : ProcessImage} {i : Nat} (hin : i < h.telemetry._uiNumberProcessFileNames)
    (hx : wcsnicmp img.pwszFileName (h.telemetry.processFileName i) MAX_PATH = 0) :
    LogProcessConnected K true (some img) h =
      { TotalCodesForPreviousProcess K h with
        telemetry := { (TotalCodesForPreviousProcess K h).telemetry with
          _iProcessConnectedCurrently := i
          _rguiProcessFileNamesCount :=
            setAt (TotalCodesForPreviousProcess K h).telemetry._rguiProcessFileNamesCount i
              (((TotalCodesForPreviousProcess K h).telemetry._rguiProcessFileNamesCount i + 1)
                % UINT_MOD) } } := by
  have hi1 := TotalCodes_inv K hK h hi
  have hsn := TotalCodes_sameNames K h
  obtain ⟨p, hf, _, hpi⟩ := FindProcessName_present (x := img.pwszFileName) hi1.sorted
    (by rw [hsn.2.2.2]; exact hin) (by rw [hsn.processFileName]; exact hx)
  rw [LogProcessConnected_hit hf, hpi]

theorem LogProcessConnected_next {K : Capacity} (hK : K.Valid) (fEnabled : Bool)
    (hProcess : Option ProcessImage) {h : Host} (hi : Inv K h.telemetry) :
    (LogProcessConnected K fEnabled hProcess h).telemetry._iProcessFileNamesNext =
        h.telemetry._iProcessFileNamesNext ∨
      (h.telemetry._iProcessFileNamesNext < K.cchProcessFileNames - 10 ∧
        h.telemetry._iProcessFileNamesNext <
          (LogProcessConnected K fEnabled hProcess h).telemetry._iProcessFileNamesNext) := by
  cases fEnabled with
  | false => rw [LogProcessConnected_disabled]; exact Or.inl rfl
  | true =>
    cases hProcess with
    | none => rw [LogProcessConnected_unresolved]; exact Or.inl (TotalCodes_next K h)
    | some img =>
      by_cases hex : ∃ i, i < h.telemetry._uiNumberProcessFileNames ∧
          wcsnicmp img.pwszFileName (h.telemetry.processFileName i) MAX_PATH = 0
      · obtain ⟨i, hin, hx⟩ := hex
        rw [hit_of_present hK hi hin hx]
        exact Or.inl (TotalCodes_next K h)
      · have habsent : ∀ i, i < h.telemetry._uiNumberProcessFileNames →
            wcsnicmp img.pwszFileName (h.telemetry.processFileName i) MAX_PATH ≠ 0 :=
          fun i hin hx => hex ⟨i, hin, hx⟩
        by_cases ha : LogProcessConnected.admits K h.telemetry img.pwszFileName
        · obtain ⟨p, _, _, heq⟩ := recorded_eq_of_absent hK hi habsent ha
          rw [heq]
          refine Or.inr ⟨ha.2.1, ?_⟩
          show _ < _ + _ + 1
          rw [TotalCodes_next]; omega
        · obtain ⟨b, buf, heq⟩ := rejected_of_absent hK hi habsent ha
          rw [heq]
          exact Or.inl (TotalCodes_next K h)

end Telemetry

theorem step_next {K : Capacity} (hK : K.Valid) (op : Op) {h : Host}
    (hi : Telemetry.Inv K h.telemetry) :
    (step K op h).telemetry._iProcessFileNamesNext = h.telemetry._iProcessFileNamesNext ∨
      (h.telemetry._iProcessFileNamesNext < K.cchProcessFileNames - 10 ∧
        h.telemetry._iProcessFileNamesNext <
          (step K op h).telemetry._iProcessFileNamesNext) := by
  cases op with
  | LogProcessConnected fEnabled hProcess =>
    exact Telemetry.LogProcessConnected_next hK fEnabled hProcess hi
  | WriteFinalTraceLog fEnabled tEndedAt ci =>
    left
    show (Telemetry.WriteFinalTraceLog K fEnabled tEndedAt ci h).telemetry._iProcessFileNamesNext
      = _
    unfold Telemetry.WriteFinalTraceLog
    dsimp only
    split
    · split
      · exact Telemetry.TotalCodes_next K _
      · rfl
    · rfl
  | LogApiCall api fUnicode => cases fUnicode <;> exact Or.inl rfl
  | _ => exact Or.inl rfl

/-- Claim C7, as amended. In every state reachable from a freshly constructed
aggregator the write cursor is at most the buffer size minus one; the 10-character
margin is tested against the cursor before a name is appended, so an operation moves
the cursor only from a position below the buffer size minus 10. -/
theorem write_cursor_le_buffer_end (K : Capacity) (hK : K.Valid) (tStartedAt : Int)
    (ops : List Op) :
    (run K ops (Host.new K tStartedAt)).telemetry._iProcessFileNamesNext ≤
        K.cchProcessFileNames - 1 ∧
    ∀ op : Op,
      (step K op (run K ops (Host.new K tStartedAt))).telemetry._iProcessFileNamesNext =
          (run K ops (Host.new K tStartedAt)).telemetry._iProcessFileNamesNext ∨
        ((run K ops (Host.new K tStartedAt)).telemetry._iProcessFileNamesNext <
            K.cchProcessFileNames - 10 ∧
          (run K ops (Host.new K tStartedAt)).telemetry._iProcessFileNamesNext <
            (step K op (run K ops (Host.new K tStartedAt))).telemetry._iProcessFileNamesNext) :=
  ⟨(new_run_inv hK tStartedAt ops).next_le,
    fun op => step_next hK op (new_run_inv hK tStartedAt ops)⟩

theorem write_cursor_le_buffer_end_witness :
    sampleCapacity.Valid ∧
    (run sampleCapacity sampleSession (Host.new sampleCapacity 0)).telemetry._iProcessFileNamesNext ≤
        sampleCapacity.cchProcessFileNames - 1 ∧
    ∀ op : Op,
      (step sampleCapacity op (run sampleCapacity sampleSession
          (Host.new sampleCapacity 0))).telemetry._iProcessFileNamesNext =
          (run sampleCapacity sampleSession
            (Host.new sampleCapacity 0)).telemetry._iProcessFileNamesNext ∨
        ((run sampleCapacity sampleSession
            (Host.new sampleCapacity 0)).telemetry._iProcessFileNamesNext <
            sampleCapacity.cchProcessFileNames - 10 ∧
          (run sampleCapacity sampleSession
            (Host.new sampleCapacity 0)).telemetry._iProcessFileNamesNext <
            (step sampleCapacity op (run sampleCapacity sampleSession
              (Host.new sampleCapacity 0))).telemetry._iProcessFileNamesNext) :=
  ⟨by decide, write_cursor_le_buffer_end sampleCapacity (by decide) 0 sampleSession⟩

set_option maxRecDepth 100000 in
/-- Counterexample to claim C7 as stated: with a buffer of 2000 characters, after eight
connections with long image names the write cursor is 1994, past 2000 - 10. -/
theorem write_cursor_exceeds_margin :
    (run sampleCapacity longSession (Host.new sampleCapacity 0)).telemetry._iProcessFileNamesNext
        = 1994 ∧
      ¬ ((run sampleCapacity longSession
          (Host.new sampleCapacity 0)).telemetry._iProcessFileNamesNext ≤
        sampleCapacity.cchProcessFileNames - 10) := by
  decide

/-- Claim C10. In a reachable state, after a sampled connection whose name resolves:
if slot `i` already holds the name, the attributed process is `i`; if no slot holds it
and the name is admitted, the attributed process is the new slot, `count`; if no slot
holds it and the name is rejected, no process is attributed (`SIZE_MAX`). -/
theorem LogProcessConnected_attribution (K : Capacity) (hK : K.Valid) (h : Host)
    (hr : Reachable K h) (img : ProcessImage) :
    (∀ i, i < h.telemetry._uiNumberProcessFileNames →
      wcsnicmp img.pwszFileName (h.telemetry.processFileName i) MAX_PATH = 0 →
      (Telemetry.LogProcessConnected K true (some img) h).telemetry._iProcessConnectedCurrently
        = i) ∧
    ((∀ i, i < h.telemetry._uiNumberProcessFileNames →
        wcsnicmp img.pwszFileName (h.telemetry.processFileName i) MAX_PATH ≠ 0) →
      Telemetry.LogProcessConnected.admits K h.telemetry img.pwszFileName →
      (Telemetry.LogProcessConnected K true (some img) h).telemetry._iProcessConnectedCurrently
        = h.telemetry._uiNumberProcessFileNames) ∧
    ((∀ i, i < h.telemetry._uiNumberProcessFileNames →
        wcsnicmp img.pwszFileName (h.telemetry.processFileName i) MAX_PATH ≠ 0) →
      ¬ Telemetry.LogProcessConnected.admits K h.telemetry img.pwszFileName →
      (Telemetry.LogProcessConnected K true (some img) h).telemetry._iProcessConnectedCurrently
        = SIZE_MAX) := by
  have hi := hr.inv hK
  refine ⟨fun i hin hx => ?_, fun habsent ha => ?_, fun habsent ha => ?_⟩
  · rw [Telemetry.hit_of_present hK hi hin hx]
  · obtain ⟨p, _, _, heq⟩ := Telemetry.recorded_eq_of_absent hK hi habsent ha
    rw [heq]
    exact (Telemetry.TotalCodes_sameNames K h).2.2.2
  · obtain ⟨b, buf, heq⟩ := Telemetry.rejected_of_absent hK hi habsent ha
    rw [heq]
    exact Telemetry.TotalCodes_current K hK h hi

theorem LogProcessConnected_attribution_witness :
    sampleCapacity.Valid ∧ Reachable sampleCapacity sampleHost ∧
    (∀ i, i < sampleHost.telemetry._uiNumberProcessFileNames →
      wcsnicmp wszBashExe (sampleHost.telemetry.processFileName i) MAX_PATH = 0 →
      (Telemetry.LogProcessConnected sampleCapacity true (some ⟨wszBashExe, some true⟩)
        sampleHost).telemetry._iProcessConnectedCurrently = i) ∧
    ((∀ i, i < sampleHost.telemetry._uiNumberProcessFileNames →
        wcsnicmp wszBashExe (sampleHost.telemetry.processFileName i) MAX_PATH ≠ 0) →
      Telemetry.LogProcessConnected.admits sampleCapacity sampleHost.telemetry wszBashExe →
      (Telemetry.LogProcessConnected sampleCapacity true (some ⟨wszBashExe, some true⟩)
        sampleHost).telemetry._iProcessConnectedCurrently =
        sampleHost.telemetry._uiNumberProcessFileNames) ∧
    ((∀ i, i < sampleHost.telemetry._uiNumberProcessFileNames →
        wcsnicmp wszBashExe (sampleHost.telemetry.processFileName i) MAX_PATH ≠ 0) →
      ¬ Telemetry.LogProcessConnected.admits sampleCapacity sampleHost.telemetry wszBashExe →
      (Telemetry.LogProcessConnected sampleCapacity true (some ⟨wszBashExe, some true⟩)
        sampleHost).telemetry._iProcessConnectedCurrently = SIZE_MAX) :=
  ⟨by decide, ⟨0, sampleSession, rfl⟩,
    LogProcessConnected_attribution sampleCapacity (by decide) sampleHost
      ⟨0, sampleSession, rfl⟩ ⟨wszBashExe, some true⟩⟩

set_option maxRecDepth 100000 in
theorem LogProcessConnected_records_new_name_witness :
    sampleCapacity.Valid ∧ Reachable sampleCapacity sampleHost ∧
    sampleHost.telemetry.FindProcessName wszPingExe = some (false, 2) ∧
    Telemetry.LogProcessConnected.admits sampleCapacity sampleHost.telemetry wszPingExe ∧
    (Telemetry.LogProcessConnected sampleCapacity true (some ⟨wszPingExe, none⟩)
        sampleHost).telemetry._uiNumberProcessFileNames =
        sampleHost.telemetry._uiNumberProcessFileNames + 1 ∧
    (Telemetry.LogProcessConnected sampleCapacity true (some ⟨wszPingExe, none⟩)
        sampleHost).telemetry._iProcessConnectedCurrently =
        sampleHost.telemetry._uiNumberProcessFileNames ∧
    (Telemetry.LogProcessConnected sampleCapacity true (some ⟨wszPingExe, none⟩)
        sampleHost).telemetry._rgiProccessFileNameIndex
        sampleHost.telemetry._uiNumberProcessFileNames =
        sampleHost.telemetry._iProcessFileNamesNext ∧
    (Telemetry.LogProcessConnected sampleCapacity true (some ⟨wszPingExe, none⟩)
        sampleHost).telemetry._rguiProcessFileNamesCount
        sampleHost.telemetry._uiNumberProcessFileNames = 1 ∧
    (Telemetry.LogProcessConnected sampleCapacity true (some ⟨wszPingExe, none⟩)
        sampleHost).telemetry._rguiProcessFileNamesCodesCount
        sampleHost.telemetry._uiNumberProcessFileNames = 0 ∧
    (Telemetry.LogProcessConnected sampleCapacity true (some ⟨wszPingExe, none⟩)
        sampleHost).telemetry._rguiProcessFileNamesFailedCodesCount
        sampleHost.telemetry._uiNumberProcessFileNames = 0 ∧
    (Telemetry.LogProcessConnected sampleCapacity true (some ⟨wszPingExe, none⟩)
        sampleHost).telemetry._rguiProcessFileNamesFailedOutsideCodesCount
        sampleHost.telemetry._uiNumberProcessFileNames = 0 ∧
    (Telemetry.LogProcessConnected sampleCapacity true (some ⟨wszPingExe, none⟩)
        sampleHost).telemetry._iProcessFileNamesNext =
        sampleHost.telemetry._iProcessFileNamesNext + wcslen wszPingExe + 1 ∧
    ∀ j, j ≤ sampleHost.telemetry._uiNumberProcessFileNames →
      (Telemetry.LogProcessConnected sampleCapacity true (some ⟨wszPingExe, none⟩)
        sampleHost).telemetry._rgiAlphabeticalIndex j =
        if j < 2 then sampleHost.telemetry._rgiAlphabeticalIndex j
        else if j = 2 then sampleHost.telemetry._uiNumberProcessFileNames
        else sampleHost.telemetry._rgiAlphabeticalIndex (j - 1) :=
  ⟨by decide, ⟨0, sampleSession, rfl⟩, by decide, by decide,
    LogProcessConnected_records_new_name sampleCapacity (by decide) sampleHost
      ⟨0, sampleSession, rfl⟩ ⟨wszPingExe, none⟩ 2 (by decide) (by decide)⟩

/-- Claim C6, as amended. In a reachable state, for a sampled connection whose name no
slot holds: if the slot table is full, or the cursor is not below the buffer size
minus 10, or the name is not shorter than the buffer size minus the cursor minus 1,
nothing is recorded (count, cursor, alphabetical index, offsets and connection counts
are unchanged, and the code counters are as the fold of the pending counters left
them); otherwise a new slot is recorded. -/
theorem LogProcessConnected_new_name_admission (K : Capacity) (hK : K.Valid) (h : Host)
    (hr : Reachable K h) (img : ProcessImage)
    (habsent : ∀ i, i < h.telemetry._uiNumberProcessFileNames →
      wcsnicmp img.pwszFileName (h.telemetry.processFileName i) MAX_PATH ≠ 0) :
    (¬ (h.telemetry._uiNumberProcessFileNames < K.c_iMaxProcessesConnected ∧
        h.telemetry._iProcessFileNamesNext < K.cchProcessFileNames - 10 ∧
        wcslen img.pwszFileName <
          K.cchProcessFileNames - h.telemetry._iProcessFileNamesNext - 1) →
      (Telemetry.LogProcessConnected K true (some img) h).telemetry._uiNumberProcessFileNames =
          h.telemetry._uiNumberProcessFileNames ∧
      (Telemetry.LogProcessConnected K true (some img) h).telemetry._iProcessFileNamesNext =
          h.telemetry._iProcessFileNamesNext ∧
      (Telemetry.LogProcessConnected K true (some img) h).telemetry._rgiAlphabeticalIndex =
          h.telemetry._rgiAlphabeticalIndex ∧
      (Telemetry.LogProcessConnected K true (some img) h).telemetry._rgiProccessFileNameIndex =
          h.telemetry._rgiProccessFileNameIndex ∧
      (Telemetry.LogProcessConnected K true (some img) h).telemetry._rguiProcessFileNamesCount =
          h.telemetry._rguiProcessFileNamesCount ∧
      (Telemetry.LogProcessConnected K true (some img) h).telemetry._rguiProcessFileNamesCodesCount
          = (Telemetry.TotalCodesForPreviousProcess K h).telemetry._rguiProcessFileNamesCodesCount ∧
      (Telemetry.LogProcessConnected K true (some img)
          h).telemetry._rguiProcessFileNamesFailedCodesCount =
        (Telemetry.TotalCodesForPreviousProcess K
          h).telemetry._rguiProcessFileNamesFailedCodesCount ∧
      (Telemetry.LogProcessConnected K true (some img)
          h).telemetry._rguiProcessFileNamesFailedOutsideCodesCount =
        (Telemetry.TotalCodesForPreviousProcess K
          h).telemetry._rguiProcessFileNamesFailedOutsideCodesCount) ∧
    (h.telemetry._uiNumberProcessFileNames < K.c_iMaxProcessesConnected ∧
        h.telemetry._iProcessFileNamesNext < K.cchProcessFileNames - 10 ∧
        wcslen img.pwszFileName <
          K.cchProcessFileNames - h.telemetry._iProcessFileNamesNext - 1 →
      (Telemetry.LogProcessConnected K true (some img) h).telemetry._uiNumberProcessFileNames =
        h.telemetry._uiNumberProcessFileNames + 1) := by
  have hi := hr.inv hK
  have hsn := Telemetry.TotalCodes_sameNames K h
  refine ⟨fun ha => ?_, fun ha => ?_⟩
  · obtain ⟨b, buf, heq⟩ := Telemetry.rejected_of_absent hK hi habsent ha
    rw [heq]
    exact ⟨hsn.2.2.2, Telemetry.TotalCodes_next K h, hsn.2.2.1, hsn.2.1,
      Telemetry.TotalCodes_count K h, rfl, rfl, rfl⟩
  · obtain ⟨p, _, _, heq⟩ := Telemetry.recorded_eq_of_absent hK hi habsent ha
    rw [heq]
    show _ + 1 = _ + 1
    rw [hsn.2.2.2]

namespace Telemetry

theorem recorded_old_name {K : Capacity} {t : Telemetry} (hi : Inv K t) (img : ProcessImage)
    (p : Nat) {i : Nat} (hin : i < t._uiNumberProcessFileNames) :
    wcstr (processFileName (LogProcessConnected.recorded t img p) i) =
      wcstr (processFileName t i) := by
  have hlen := hi.buf_len
  have hle := hi.next_le
  show wcstr (List.drop (setAt _ _ _ i) (List.set _ _ _)) = _
  rw [setAt_ne _ _ (by omega)]
  refine hi.names_preserved ?_ hin
  intro e he1 he2
  rw [List.getElem?_set_ne (by omega), getElem?_writeAt_lt he2 (by omega)]

theorem recorded_new_name {K : Capacity} {t : Telemetry} (hi : Inv K t) (img : ProcessImage)
    (p : Nat) :
    wcstr (processFileName (LogProcessConnected.recorded t img p) t._uiNumberProcessFileNames) =
      wcstr img.pwszFileName := by
  have hlen := hi.buf_len
  have hle := hi.next_le
  have hnp := hi.next_pos
  show wcstr (List.drop (setAt _ _ _ _) (List.set _ _ _)) = _
  rw [setAt_same, List.drop_set_of_lt _ _ (by omega), drop_writeAt (by omega),
    List.append_assoc, List.singleton_append, wcstr_append_zero]

theorem storedNames_recorded {K : Capacity} {t : Telemetry} (hi : Inv K t) (img : ProcessImage)
    (p : Nat) :
    storedNames (LogProcessConnected.recorded t img p) =
      storedNames t ++ [wcstr img.pwszFileName] := by
  unfold storedNames
  show List.map _ (List.range (t._uiNumberProcessFileNames + 1)) = _
  rw [List.range_succ, List.map_append, List.map_singleton, recorded_new_name hi]
  congr 1
  apply List.map_congr_left
  intro i hin
  exact recorded_old_name hi img p (List.mem_range.mp hin)

theorem SameNames.storedNames {t t' : Telemetry} (h : SameNames t t') :
    storedNames t' = storedNames t := by
  unfold Telemetry.storedNames
  rw [h.2.2.2]
  apply List.map_congr_left
  intro i _
  rw [h.processFileName]

theorem absent_of_storedNames {t : Telemetry} {names : List (List Nat)} {x : List Nat}
    (hst : storedNames t = names.map wcstr)
    (hx : ∀ y, y ∈ names → wcsnicmp y x MAX_PATH ≠ 0) :
    ∀ i, i < t._uiNumberProcessFileNames → wcsnicmp x (processFileName t i) MAX_PATH ≠ 0 := by
  intro i hin
  have hmem : wcstr (processFileName t i) ∈ storedNames t :=
    List.mem_map.mpr ⟨i, List.mem_range.mpr hin, rfl⟩
  rw [hst] at hmem
  obtain ⟨y, hy, hyw⟩ := List.mem_map.mp hmem
  have h1 := hx y hy
  rw [← wcsnicmp_wcstr_right, ← hyw, wcsnicmp_wcstr_right, wcsnicmp_swap y]
  omega

theorem TotalCodes_quiet {K : Capacity} {h : Host} (hq : Quiet h) :
    Quiet (TotalCodesForPreviousProcess K h) ∧
    (TotalCodesForPreviousProcess K h).telemetry._rguiProcessFileNamesCodesCount =
      h.telemetry._rguiProcessFileNamesCodesCount ∧
    (TotalCodesForPreviousProcess K h).telemetry._rguiProcessFileNamesFailedCodesCount =
      h.telemetry._rguiProcessFileNamesFailedCodesCount ∧
    (TotalCodesForPreviousProcess K h).telemetry._rguiProcessFileNamesFailedOutsideCodesCount =
      h.telemetry._rguiProcessFileNamesFailedOutsideCodesCount := by
  obtain ⟨h1, h2, h3, h4⟩ := hq
  have hz : ∀ (a : Nat → Nat) (i : Nat), a i = 0 → setAt a i ((a i + 0) % UINT_MOD) = a := by
    intro a i hai
    funext j
    by_cases hj : j = i
    · rw [hj, setAt_same, hai]; rfl
    · rw [setAt_ne _ _ hj]
  have e1 := hz h.telemetry._rguiProcessFileNamesCodesCount
    h.telemetry._iProcessConnectedCurrently (h4 _).1
  have e2 := hz h.telemetry._rguiProcessFileNamesFailedCodesCount
    h.telemetry._iProcessConnectedCurrently (h4 _).2.1
  have e3 := hz h.telemetry._rguiProcessFileNamesFailedOutsideCodesCount
    h.telemetry._iProcessConnectedCurrently (h4 _).2.2
  unfold TotalCodesForPreviousProcess
  dsimp only
  split
  · rw [h1, h2, h3]
    refine ⟨⟨rfl, rfl, rfl, fun j => ?_⟩, e1, e2, e3⟩
    show setAt _ _ _ j = 0 ∧ setAt _ _ _ j = 0 ∧ setAt _ _ _ j = 0
    rw [e1, e2, e3]
    exact h4 j
  · exact ⟨⟨rfl, rfl, rfl, h4⟩, rfl, rfl, rfl⟩

end Telemetry

theorem fits_take (K : Capacity) : ∀ (l : List ProcessImage) (c k : Nat),
    fits K c l = true → fits K c (l.take k) = true := by
  intro l
  induction l with
  | nil => intro c k h; simpa using h
  | cons g gs ih =>
    intro c k h
    cases k with
    | zero => rfl
    | succ k =>
      simp only [fits, List.take_succ_cons, Bool.and_eq_true] at h ⊢
      exact ⟨h.1, ih _ _ h.2⟩

theorem run_cons (K : Capacity) (op : Op) (ops : List Op) (h : Host) :
    run K (op :: ops) h = run K ops (step K op h) := rfl

theorem connects_distinct {K : Capacity} (hK : K.Valid) :
    ∀ (l : List ProcessImage) (h : Host) (names : List (List Nat)),
      Telemetry.Inv K h.telemetry → Quiet h →
      h.telemetry.storedNames = names.map wcstr →
      (names ++ l.map (fun g => g.pwszFileName)).Pairwise
        (fun a b => wcsnicmp a b MAX_PATH ≠ 0) →
      h.telemetry._uiNumberProcessFileNames + l.length ≤ K.c_iMaxProcessesConnected →
      fits K h.telemetry._iProcessFileNamesNext l = true →
      Telemetry.Inv K (run K (l.map connectImage) h).telemetry ∧
      Quiet (run K (l.map connectImage) h) ∧
      (run K (l.map connectImage) h).telemetry.storedNames =
        (names ++ l.map (fun g => g.pwszFileName)).map wcstr ∧
      (run K (l.map connectImage) h).telemetry._uiNumberProcessFileNames =
        h.telemetry._uiNumberProcessFileNames + l.length := by
  intro l
  induction l with
  | nil =>
    intro h names hi hq hst _ _ _
    simp only [List.map_nil, List.append_nil, List.length_nil, Nat.add_zero]
    exact ⟨hi, hq, hst, rfl⟩
  | cons g gs ih =>
    intro h names hi hq hst hd hcap hfit
    simp only [fits, Bool.and_eq_true, decide_eq_true_eq] at hfit
    simp only [List.length_cons] at hcap
    have hpw := List.pairwise_append.mp hd
    have habsent := Telemetry.absent_of_storedNames (x := g.pwszFileName) hst
      (fun y hy => hpw.2.2 y hy g.pwszFileName (by simp))
    have ha : Telemetry.LogProcessConnected.admits K h.telemetry g.pwszFileName :=
      ⟨by omega, hfit.1.1, hfit.1.2⟩
    obtain ⟨p, _, hip, heq⟩ := Telemetry.recorded_eq_of_absent hK hi habsent ha
    have hi1 := Telemetry.TotalCodes_inv K hK h hi
    have hsn := Telemetry.TotalCodes_sameNames K h
    have hq1 := Telemetry.TotalCodes_quiet (K := K) hq
    have hstep : step K (connectImage g) h =
        { Telemetry.TotalCodesForPreviousProcess K h with
          telemetry := Telemetry.LogProcessConnected.recorded
            (Telemetry.TotalCodesForPreviousProcess K h).telemetry g p } := heq
    rw [List.map_cons, run_cons, hstep]
    have hnext : (Telemetry.LogProcessConnected.recorded
        (Telemetry.TotalCodesForPreviousProcess K h).telemetry g p)._iProcessFileNamesNext =
        h.telemetry._iProcessFileNamesNext + wcslen g.pwszFileName + 1 := by
      show _ + _ + 1 = _
      rw [Telemetry.TotalCodes_next]
    have hcount : (Telemetry.LogProcessConnected.recorded
        (Telemetry.TotalCodesForPreviousProcess K h).telemetry g p)._uiNumberProcessFileNames =
        h.telemetry._uiNumberProcessFileNames + 1 := by
      show _ + 1 = _
      rw [hsn.2.2.2]
    have hres := ih
      { Telemetry.TotalCodesForPreviousProcess K h with
        telemetry := Telemetry.LogProcessConnected.recorded
          (Telemetry.TotalCodesForPreviousProcess K h).telemetry g p }
      (names ++ [g.pwszFileName])
      (Telemetry.recorded_inv hi1 g hip (by
        refine ⟨?_, ?_, ?_⟩
        · rw [hsn.2.2.2]; exact ha.1
        · rw [Telemetry.TotalCodes_next]; exact ha.2.1
        · rw [Telemetry.TotalCodes_next]; exact ha.2.2))
      ⟨hq1.1.1, hq1.1.2.1, hq1.1.2.2.1, hq1.1.2.2.2⟩
      (by
        show Telemetry.storedNames (Telemetry.LogProcessConnected.recorded _ g p) = _
        rw [Telemetry.storedNames_recorded hi1, hsn.storedNames, hst, List.map_append,
          List.map_singleton])
      (by rw [List.append_assoc, List.singleton_append]; exact hd)
      (by
        show (Telemetry.LogProcessConnected.recorded _ g p)._uiNumberProcessFileNames + _ ≤ _
        rw [hcount]; omega)
      (by
        show fits K (Telemetry.LogProcessConnected.recorded _ g p)._iProcessFileNamesNext gs = _
        rw [hnext]; exact hfit.2)
    obtain ⟨r1, r2, r3, r4⟩ := hres
    refine ⟨r1, r2, ?_, ?_⟩
    · rw [r3, List.append_assoc, List.singleton_append, List.map_cons]
    · rw [r4]
      show (Telemetry.LogProcessConnected.recorded _ g p)._uiNumberProcessFileNames + _ = _
      rw [hcount, List.length_cons]; omega

/-- Claim C5, as amended. Take pairwise distinct (case-insensitively) image names,
as many as the slot capacity plus one more, connected in turn to a freshly constructed
aggregator, and suppose each of the first `capacity` names passes the buffer checks
when its turn comes (the cursor is below the buffer size minus 10 and the name is
shorter than the buffer size minus the cursor minus 1).  Then each of the first
`capacity` connections records a new slot (after `k` of them there are `k` slots), and
the connection of the extra name is rejected: count, alphabetical index, cursor,
offsets, connection counts and code counters are left unchanged. -/
theorem distinct_names_up_to_capacity (K : Capacity) (hK : K.Valid) (tStartedAt : Int)
    (imgs : List ProcessImage) (last : ProcessImage)
    (hdistinct : (imgs ++ [last]).Pairwise
      (fun a b => wcsnicmp a.pwszFileName b.pwszFileName MAX_PATH ≠ 0))
    (hlen : imgs.length = K.c_iMaxProcessesConnected)
    (hfit : fits K 1 imgs = true) :
    (∀ k, k ≤ K.c_iMaxProcessesConnected →
      (run K ((imgs.take k).map connectImage)
        (Host.new K tStartedAt)).telemetry._uiNumberProcessFileNames = k) ∧
    (Telemetry.LogProcessConnected K true (some last)
        (run K (imgs.map connectImage) (Host.new K tStartedAt))).telemetry._uiNumberProcessFileNames
      = (run K (imgs.map connectImage) (Host.new K tStartedAt)).telemetry._uiNumberProcessFileNames ∧
    (Telemetry.LogProcessConnected K true (some last)
        (run K (imgs.map connectImage) (Host.new K tStartedAt))).telemetry._rgiAlphabeticalIndex
      = (run K (imgs.map connectImage) (Host.new K tStartedAt)).telemetry._rgiAlphabeticalIndex ∧
    (Telemetry.LogProcessConnected K true (some last)
        (run K (imgs.map connectImage) (Host.new K tStartedAt))).telemetry._iProcessFileNamesNext
      = (run K (imgs.map connectImage) (Host.new K tStartedAt)).telemetry._iProcessFileNamesNext ∧
    (Telemetry.LogProcessConnected K true (some last)
        (run K (imgs.map connectImage) (Host.new K tStartedAt))).telemetry._rgiProccessFileNameIndex
      = (run K (imgs.map connectImage) (Host.new K tStartedAt)).telemetry._rgiProccessFileNameIndex ∧
    (Telemetry.LogProcessConnected K true (some last)
        (run K (imgs.map connectImage) (Host.new K tStartedAt))).telemetry._rguiProcessFileNamesCount
      = (run K (imgs.map connectImage) (Host.new K tStartedAt)).telemetry._rguiProcessFileNamesCount ∧
    (Telemetry.LogProcessConnected K true (some last)
        (run K (imgs.map connectImage)
          (Host.new K tStartedAt))).telemetry._rguiProcessFileNamesCodesCount
      = (run K (imgs.map connectImage)
          (Host.new K tStartedAt)).telemetry._rguiProcessFileNamesCodesCount ∧
    (Telemetry.LogProcessConnected K true (some last)
        (run K (imgs.map connectImage)
          (Host.new K tStartedAt))).telemetry._rguiProcessFileNamesFailedCodesCount
      = (run K (imgs.map connectImage)
          (Host.new K tStartedAt)).telemetry._rguiProcessFileNamesFailedCodesCount ∧
    (Telemetry.LogProcessConnected K true (some last)
        (run K (imgs.map connectImage)
          (Host.new K tStartedAt))).telemetry._rguiProcessFileNamesFailedOutsideCodesCount
      = (run K (imgs.map connectImage)
          (Host.new K tStartedAt)).telemetry._rguiProcessFileNamesFailedOutsideCodesCount := by
  have hnew : Telemetry.Inv K (Host.new K tStartedAt).telemetry := Telemetry.Inv_new K hK tStartedAt
  have hqnew : Quiet (Host.new K tStartedAt) := ⟨rfl, rfl, rfl, fun _ => ⟨rfl, rfl, rfl⟩⟩
  have hnames : (imgs.map (fun g => g.pwszFileName) ++ [last.pwszFileName]).Pairwise
      (fun a b => wcsnicmp a b MAX_PATH ≠ 0) := by
    have hm : ((imgs ++ [last]).map (fun g => g.pwszFileName)).Pairwise
        (fun a b => wcsnicmp a b MAX_PATH ≠ 0) := by
      rw [List.pairwise_map]; exact hdistinct
    rwa [List.map_append, List.map_singleton] at hm
  have hpw := List.pairwise_append.mp hnames
  constructor
  · intro k hk
    have hsub : ((imgs.take k).map (fun g => g.pwszFileName)).Pairwise
        (fun a b => wcsnicmp a b MAX_PATH ≠ 0) :=
      hpw.1.sublist ((List.take_sublist k imgs).map _)
    have hres := connects_distinct hK (imgs.take k) (Host.new K tStartedAt) [] hnew hqnew rfl
      (by rw [List.nil_append]; exact hsub)
      (by
        show 0 + _ ≤ _
        rw [List.length_take]; omega)
      (fits_take K imgs 1 k hfit)
    rw [hres.2.2.2, List.length_take]
    show 0 + _ = _
    omega
  · have hres := connects_distinct hK imgs (Host.new K tStartedAt) [] hnew hqnew rfl
      (by rw [List.nil_append]; exact hpw.1)
      (by show 0 + _ ≤ _; omega) hfit
    obtain ⟨hi, hq, hst, hcount⟩ := hres
    rw [List.nil_append] at hst
    have habsent := Telemetry.absent_of_storedNames (x := last.pwszFileName) hst
      (fun y hy => hpw.2.2 y hy last.pwszFileName (by simp))
    have hfull : ¬ Telemetry.LogProcessConnected.admits K
        (run K (imgs.map connectImage) (Host.new K tStartedAt)).telemetry
        last.pwszFileName := by
      intro ha
      have h1 := ha.1
      rw [hcount] at h1
      have h0 : (Host.new K tStartedAt).telemetry._uiNumberProcessFileNames = 0 := rfl
      omega
    obtain ⟨b, buf, heq⟩ := Telemetry.rejected_of_absent hK hi habsent hfull
    have hsn := Telemetry.TotalCodes_sameNames K
      (run K (imgs.map connectImage) (Host.new K tStartedAt))
    have hq1 := Telemetry.TotalCodes_quiet (K := K) hq
    rw [heq]
    exact ⟨hsn.2.2.2, hsn.2.2.1, Telemetry.TotalCodes_next K _, hsn.2.1,
      Telemetry.TotalCodes_count K _, hq1.2.1, hq1.2.2.1, hq1.2.2.2⟩

set_option maxRecDepth 100000 in
/-- Counterexample to claim C5 as stated: with 100 slots and a buffer of 2000
characters, eight pairwise distinct image names of 250 characters are connected; the
first seven are recorded, the eighth, far below the slot capacity, is not. -/
theorem eighth_long_name_not_recorded :
    ((List.range 8).map (fun k => longName k 250)).Pairwise
      (fun a b => wcsnicmp a b MAX_PATH ≠ 0) ∧
    8 ≤ sampleCapacity.c_iMaxProcessesConnected ∧
    (run sampleCapacity ((List.range 7).map (fun k => connect (longName k 250)))
      (Host.new sampleCapacity 0)).telemetry._uiNumberProcessFileNames = 7 ∧
    (run sampleCapacity ((List.range 8).map (fun k => connect (longName k 250)))
      (Host.new sampleCapacity 0)).telemetry._uiNumberProcessFileNames = 7 := by
  decide

set_option maxRecDepth 100000 in
/-- Counterexample to claim C6 as stated: with a buffer of 2000 characters and the
cursor at 1758, a new name of 235 characters would end at 1994, past 2000 - 10, yet it
is recorded. -/
theorem name_recorded_inside_margin :
    (∀ i, i < longHost.telemetry._uiNumberProcessFileNames →
      wcsnicmp (longName 7 235) (longHost.telemetry.processFileName i) MAX_PATH ≠ 0) ∧
    longHost.telemetry._uiNumberProcessFileNames < sampleCapacity.c_iMaxProcessesConnected ∧
    sampleCapacity.cchProcessFileNames - 10 <
      longHost.telemetry._iProcessFileNamesNext + wcslen (longName 7 235) + 1 ∧
    (Telemetry.LogProcessConnected sampleCapacity true (some ⟨longName 7 235, none⟩)
      longHost).telemetry._uiNumberProcessFileNames =
        longHost.telemetry._uiNumberProcessFileNames + 1 := by
  decide

set_option maxRecDepth 1000000 in
theorem distinct_names_up_to_capacity_witness :
    sampleCapacity.Valid ∧
    (shortImages ++ [ProcessImage.mk wszCmdExe none]).Pairwise
      (fun a b => wcsnicmp a.pwszFileName b.pwszFileName MAX_PATH ≠ 0) ∧
    shortImages.length = sampleCapacity.c_iMaxProcessesConnected ∧
    fits sampleCapacity 1 shortImages = true ∧
    (∀ k, k ≤ sampleCapacity.c_iMaxProcessesConnected →
      (run sampleCapacity ((shortImages.take k).map connectImage)
        (Host.new sampleCapacity 0)).telemetry._uiNumberProcessFileNames = k) ∧
    (Telemetry.LogProcessConnected sampleCapacity true (some ⟨wszCmdExe, none⟩)
        (run sampleCapacity (shortImages.map connectImage)
          (Host.new sampleCapacity 0))).telemetry._uiNumberProcessFileNames
      = (run sampleCapacity (shortImages.map connectImage)
          (Host.new sampleCapacity 0)).telemetry._uiNumberProcessFileNames ∧
    (Telemetry.LogProcessConnected sampleCapacity true (some ⟨wszCmdExe, none⟩)
        (run sampleCapacity (shortImages.map connectImage)
          (Host.new sampleCapacity 0))).telemetry._rgiAlphabeticalIndex
      = (run sampleCapacity (shortImages.map connectImage)
          (Host.new sampleCapacity 0)).telemetry._rgiAlphabeticalIndex ∧
    (Telemetry.LogProcessConnected sampleCapacity true (some ⟨wszCmdExe, none⟩)
        (run sampleCapacity (shortImages.map connectImage)
          (Host.new sampleCapacity 0))).telemetry._iProcessFileNamesNext
      = (run sampleCapacity (shortImages.map connectImage)
          (Host.new sampleCapacity 0)).telemetry._iProcessFileNamesNext ∧
    (Telemetry.LogProcessConnected sampleCapacity true (some ⟨wszCmdExe, none⟩)
        (run sampleCapacity (shortImages.map connectImage)
          (Host.new sampleCapacity 0))).telemetry._rgiProccessFileNameIndex
      = (run sampleCapacity (shortImages.map connectImage)
          (Host.new sampleCapacity 0)).telemetry._rgiProccessFileNameIndex ∧
    (Telemetry.LogProcessConnected sampleCapacity true (some ⟨wszCmdExe, none⟩)
        (run sampleCapacity (shortImages.map connectImage)
          (Host.new sampleCapacity 0))).telemetry._rguiProcessFileNamesCount
      = (run sampleCapacity (shortImages.map connectImage)
          (Host.new sampleCapacity 0)).telemetry._rguiProcessFileNamesCount ∧
    (Telemetry.LogProcessConnected sampleCapacity true (some ⟨wszCmdExe, none⟩)
        (run sampleCapacity (shortImages.map connectImage)
          (Host.new sampleCapacity 0))).telemetry._rguiProcessFileNamesCodesCount
      = (run sampleCapacity (shortImages.map connectImage)
          (Host.new sampleCapacity 0)).telemetry._rguiProcessFileNamesCodesCount ∧
    (Telemetry.LogProcessConnected sampleCapacity true (some ⟨wszCmdExe, none⟩)
        (run sampleCapacity (shortImages.map connectImage)
          (Host.new sampleCapacity 0))).telemetry._rguiProcessFileNamesFailedCodesCount
      = (run sampleCapacity (shortImages.map connectImage)
          (Host.new sampleCapacity 0)).telemetry._rguiProcessFileNamesFailedCodesCount ∧
    (Telemetry.LogProcessConnected sampleCapacity true (some ⟨wszCmdExe, none⟩)
        (run sampleCapacity (shortImages.map connectImage)
          (Host.new sampleCapacity 0))).telemetry._rguiProcessFileNamesFailedOutsideCodesCount
      = (run sampleCapacity (shortImages.map connectImage)
          (Host.new sampleCapacity 0)).telemetry._rguiProcessFileNamesFailedOutsideCodesCount :=
  ⟨by decide, by decide, by decide, by decide,
    distinct_names_up_to_capacity sampleCapacity (by decide) 0 shortImages ⟨wszCmdExe, none⟩
      (by decide) (by decide) (by decide)⟩

theorem LogProcessConnected_new_name_admission_witness :
    sampleCapacity.Valid ∧ Reachable sampleCapacity sampleHost ∧
    (∀ i, i < sampleHost.telemetry._uiNumberProcessFileNames →
      wcsnicmp wszPingExe (sampleHost.telemetry.processFileName i) MAX_PATH ≠ 0) ∧
    (¬ (sampleHost.telemetry._uiNumberProcessFileNames < sampleCapacity.c_iMaxProcessesConnected ∧
        sampleHost.telemetry._iProcessFileNamesNext < sampleCapacity.cchProcessFileNames - 10 ∧
        wcslen wszPingExe <
          sampleCapacity.cchProcessFileNames - sampleHost.telemetry._iProcessFileNamesNext - 1) →
      (Telemetry.LogProcessConnected sampleCapacity true (some ⟨wszPingExe, none⟩)
          sampleHost).telemetry._uiNumberProcessFileNames =
          sampleHost.telemetry._uiNumberProcessFileNames ∧
      (Telemetry.LogProcessConnected sampleCapacity true (some ⟨wszPingExe, none⟩)
          sampleHost).telemetry._iProcessFileNamesNext =
          sampleHost.telemetry._iProcessFileNamesNext ∧
      (Telemetry.LogProcessConnected sampleCapacity true (some ⟨wszPingExe, none⟩)
          sampleHost).telemetry._rgiAlphabeticalIndex =
          sampleHost.telemetry._rgiAlphabeticalIndex ∧
      (Telemetry.LogProcessConnected sampleCapacity true (some ⟨wszPingExe, none⟩)
          sampleHost).telemetry._rgiProccessFileNameIndex =
          sampleHost.telemetry._rgiProccessFileNameIndex ∧
      (Telemetry.LogProcessConnected sampleCapacity true (some ⟨wszPingExe, none⟩)
          sampleHost).telemetry._rguiProcessFileNamesCount =
          sampleHost.telemetry._rguiProcessFileNamesCount ∧
      (Telemetry.LogProcessConnected sampleCapacity true (some ⟨wszPingExe, none⟩)
          sampleHost).telemetry._rguiProcessFileNamesCodesCount
          = (Telemetry.TotalCodesForPreviousProcess sampleCapacity
            sampleHost).telemetry._rguiProcessFileNamesCodesCount ∧
      (Telemetry.LogProcessConnected sampleCapacity true (some ⟨wszPingExe, none⟩)
          sampleHost).telemetry._rguiProcessFileNamesFailedCodesCount =
        (Telemetry.TotalCodesForPreviousProcess sampleCapacity
          sampleHost).telemetry._rguiProcessFileNamesFailedCodesCount ∧
      (Telemetry.LogProcessConnected sampleCapacity true (some ⟨wszPingExe, none⟩)
          sampleHost).telemetry._rguiProcessFileNamesFailedOutsideCodesCount =
        (Telemetry.TotalCodesForPreviousProcess sampleCapacity
          sampleHost).telemetry._rguiProcessFileNamesFailedOutsideCodesCount) ∧
    (sampleHost.telemetry._uiNumberProcessFileNames < sampleCapacity.c_iMaxProcessesConnected ∧
        sampleHost.telemetry._iProcessFileNamesNext < sampleCapacity.cchProcessFileNames - 10 ∧
        wcslen wszPingExe <
          sampleCapacity.cchProcessFileNames - sampleHost.telemetry._iProcessFileNamesNext - 1 →
      (Telemetry.LogProcessConnected sampleCapacity true (some ⟨wszPingExe, none⟩)
          sampleHost).telemetry._uiNumberProcessFileNames =
        sampleHost.telemetry._uiNumberProcessFileNames + 1) :=
  ⟨by decide, ⟨0, sampleSession, rfl⟩, by decide,
    LogProcessConnected_new_name_admission sampleCapacity (by decide) sampleHost
      ⟨0, sampleSession, rfl⟩ ⟨wszPingExe, none⟩ (by decide)⟩

namespace Telemetry

theorem FindProcessName.loop_isSome (t : Telemetry) (x : List Nat) :
    ∀ (fuel : Nat) (iMin iMax iMid result : Int),
      0 ≤ iMin → iMin ≤ iMax + 1 → iMax - iMin + 1 < fuel →
      ∃ r, FindProcessName.loop t x fuel iMin iMax iMid result = some r := by
  intro fuel
  induction fuel with
  | zero => intro iMin iMax iMid result h0 h2 h3; omega
  | succ fuel ih =>
    intro iMin iMax iMid result h0 h2 h3
    rw [FindProcessName.loop]
    by_cases hle : iMin ≤ iMax
    · rw [if_pos hle]
      have hmid : Int.tdiv (iMax + iMin) 2 = (iMax + iMin) / 2 :=
        Int.tdiv_eq_ediv (by omega) (by omega)
      simp only [hmid]
      split
      · exact ih _ _ _ _ h0 (by omega) (by omega)
      · split
        · exact ih _ _ _ _ (by omega) (by omega) (by omega)
        · exact ⟨_, rfl⟩
    · rw [if_neg hle]
      exact ⟨_, rfl⟩

/-- The loop of `FindProcessName` always ends within the iterations allowed for. -/
theorem FindProcessName_isSome (t : Telemetry) (x : List Nat) :
    ∃ r, FindProcessName t x = some r := by
  unfold FindProcessName
  exact FindProcessName.loop_isSome t x _ _ _ _ _ (by omega) (by omega) (by omega)

end Telemetry

namespace Telemetry

theorem TotalCodes_term (K : Capacity) (h : Host) :
    (TotalCodesForPreviousProcess K h).term =
      (TermTelemetry.GetAndResetTimesFailedOutsideRangeCurrent
        (TermTelemetry.GetAndResetTimesFailedCurrent
          (TermTelemetry.GetAndResetTimesUsedCurrent h.term).2).2).2 := by
  unfold TotalCodesForPreviousProcess
  dsimp only
  split <;> rfl

theorem TotalCodes_of_attributed {K : Capacity} {h : Host}
    (hc : h.telemetry._iProcessConnectedCurrently < K.c_iMaxProcessesConnected) :
    (TotalCodesForPreviousProcess K h).telemetry =
      { h.telemetry with
        _rguiProcessFileNamesCodesCount := setAt h.telemetry._rguiProcessFileNamesCodesCount
          h.telemetry._iProcessConnectedCurrently
          ((h.telemetry._rguiProcessFileNamesCodesCount h.telemetry._iProcessConnectedCurrently
            + h.term._uiTimesUsedCurrent) % UINT_MOD)
        _rguiProcessFileNamesFailedCodesCount :=
          setAt h.telemetry._rguiProcessFileNamesFailedCodesCount
            h.telemetry._iProcessConnectedCurrently
            ((h.telemetry._rguiProcessFileNamesFailedCodesCount
              h.telemetry._iProcessConnectedCurrently + h.term._uiTimesFailedCurrent) % UINT_MOD)
        _rguiProcessFileNamesFailedOutsideCodesCount :=
          setAt h.telemetry._rguiProcessFileNamesFailedOutsideCodesCount
            h.telemetry._iProcessConnectedCurrently
            ((h.telemetry._rguiProcessFileNamesFailedOutsideCodesCount
              h.telemetry._iProcessConnectedCurrently
                + h.term._uiTimesFailedOutsideRangeCurrent) % UINT_MOD)
        _iProcessConnectedCurrently := SIZE_MAX } := by
  unfold TotalCodesForPreviousProcess
  dsimp only
  rw [if_pos hc]

theorem TotalCodes_of_not_attributed {K : Capacity} {h : Host}
    (hc : ¬ h.telemetry._iProcessConnectedCurrently < K.c_iMaxProcessesConnected) :
    (TotalCodesForPreviousProcess K h).telemetry = h.telemetry := by
  unfold TotalCodesForPreviousProcess
  dsimp only
  rw [if_neg hc]

end Telemetry

/-- Claim C11. `TotalCodesForPreviousProcess`, for every state and pending values: if
the attributed process is a slot `i` (below the slot capacity), each of the three
pending values is added to the matching code counter of slot `i` (an `unsigned int`
addition: the exact sum, short of the 32-bit limit), no counter of another slot
changes, and the attribution is cleared; if no process is attributed (`SIZE_MAX`), no
code counter of any slot changes. -/
theorem TotalCodesForPreviousProcess_folds (K : Capacity) (hK : K.Valid) (h : Host) :
    (h.telemetry._iProcessConnectedCurrently < K.c_iMaxProcessesConnected →
      (Telemetry.TotalCodesForPreviousProcess K h).telemetry._rguiProcessFileNamesCodesCount
          h.telemetry._iProcessConnectedCurrently =
        (h.telemetry._rguiProcessFileNamesCodesCount h.telemetry._iProcessConnectedCurrently
          + h.term._uiTimesUsedCurrent) % UINT_MOD ∧
      (Telemetry.TotalCodesForPreviousProcess K h).telemetry._rguiProcessFileNamesFailedCodesCount
          h.telemetry._iProcessConnectedCurrently =
        (h.telemetry._rguiProcessFileNamesFailedCodesCount
          h.telemetry._iProcessConnectedCurrently + h.term._uiTimesFailedCurrent) % UINT_MOD ∧
      (Telemetry.TotalCodesForPreviousProcess K
          h).telemetry._rguiProcessFileNamesFailedOutsideCodesCount
          h.telemetry._iProcessConnectedCurrently =
        (h.telemetry._rguiProcessFileNamesFailedOutsideCodesCount
          h.telemetry._iProcessConnectedCurrently
            + h.term._uiTimesFailedOutsideRangeCurrent) % UINT_MOD ∧
      (h.telemetry._rguiProcessFileNamesCodesCount h.telemetry._iProcessConnectedCurrently
          + h.term._uiTimesUsedCurrent < UINT_MOD →
        (Telemetry.TotalCodesForPreviousProcess K h).telemetry._rguiProcessFileNamesCodesCount
            h.telemetry._iProcessConnectedCurrently =
          h.telemetry._rguiProcessFileNamesCodesCount h.telemetry._iProcessConnectedCurrently
            + h.term._uiTimesUsedCurrent) ∧
      (h.telemetry._rguiProcessFileNamesFailedCodesCount h.telemetry._iProcessConnectedCurrently
          + h.term._uiTimesFailedCurrent < UINT_MOD →
        (Telemetry.TotalCodesForPreviousProcess K
            h).telemetry._rguiProcessFileNamesFailedCodesCount
            h.telemetry._iProcessConnectedCurrently =
          h.telemetry._rguiProcessFileNamesFailedCodesCount
            h.telemetry._iProcessConnectedCurrently + h.term._uiTimesFailedCurrent) ∧
      (h.telemetry._rguiProcessFileNamesFailedOutsideCodesCount
          h.telemetry._iProcessConnectedCurrently
          + h.term._uiTimesFailedOutsideRangeCurrent < UINT_MOD →
        (Telemetry.TotalCodesForPreviousProcess K
            h).telemetry._rguiProcessFileNamesFailedOutsideCodesCount
            h.telemetry._iProcessConnectedCurrently =
          h.telemetry._rguiProcessFileNamesFailedOutsideCodesCount
            h.telemetry._iProcessConnectedCurrently
              + h.term._uiTimesFailedOutsideRangeCurrent) ∧
      (∀ j, j ≠ h.telemetry._iProcessConnectedCurrently →
        (Telemetry.TotalCodesForPreviousProcess K h).telemetry._rguiProcessFileNamesCodesCount j
          = h.telemetry._rguiProcessFileNamesCodesCount j ∧
        (Telemetry.TotalCodesForPreviousProcess K
            h).telemetry._rguiProcessFileNamesFailedCodesCount j
          = h.telemetry._rguiProcessFileNamesFailedCodesCount j ∧
        (Telemetry.TotalCodesForPreviousProcess K
            h).telemetry._rguiProcessFileNamesFailedOutsideCodesCount j
          = h.telemetry._rguiProcessFileNamesFailedOutsideCodesCount j) ∧
      (Telemetry.TotalCodesForPreviousProcess K h).telemetry._iProcessConnectedCurrently
        = SIZE_MAX) ∧
    (h.telemetry._iProcessConnectedCurrently = SIZE_MAX →
      (Telemetry.TotalCodesForPreviousProcess K h).telemetry._rguiProcessFileNamesCodesCount
        = h.telemetry._rguiProcessFileNamesCodesCount ∧
      (Telemetry.TotalCodesForPreviousProcess K h).telemetry._rguiProcessFileNamesFailedCodesCount
        = h.telemetry._rguiProcessFileNamesFailedCodesCount ∧
      (Telemetry.TotalCodesForPreviousProcess K
          h).telemetry._rguiProcessFileNamesFailedOutsideCodesCount
        = h.telemetry._rguiProcessFileNamesFailedOutsideCodesCount) := by
  constructor
  · intro hc
    rw [Telemetry.TotalCodes_of_attributed hc]
    refine ⟨Telemetry.setAt_same _ _ _, Telemetry.setAt_same _ _ _, Telemetry.setAt_same _ _ _,
      fun hlt => ?_, fun hlt => ?_, fun hlt => ?_, fun j hj => ?_, rfl⟩
    · exact (Telemetry.setAt_same _ _ _).trans (Nat.mod_eq_of_lt hlt)
    · exact (Telemetry.setAt_same _ _ _).trans (Nat.mod_eq_of_lt hlt)
    · exact (Telemetry.setAt_same _ _ _).trans (Nat.mod_eq_of_lt hlt)
    · exact ⟨Telemetry.setAt_ne _ _ hj, Telemetry.setAt_ne _ _ hj, Telemetry.setAt_ne _ _ hj⟩
  · intro hc
    have hv := hK.2.2
    rw [Telemetry.TotalCodes_of_not_attributed (by rw [hc]; simp only [SIZE_MAX]; omega)]
    exact ⟨rfl, rfl, rfl⟩

/-- Claim C12. After `TotalCodesForPreviousProcess`, in every state and whatever the
attribution, the three counters of the pending-counters source are zero. -/
theorem TotalCodesForPreviousProcess_zeroes_pending (K : Capacity) (h : Host) :
    (Telemetry.TotalCodesForPreviousProcess K h).term._uiTimesUsedCurrent = 0 ∧
    (Telemetry.TotalCodesForPreviousProcess K h).term._uiTimesFailedCurrent = 0 ∧
    (Telemetry.TotalCodesForPreviousProcess K h).term._uiTimesFailedOutsideRangeCurrent = 0 := by
  rw [Telemetry.TotalCodes_term]
  exact ⟨rfl, rfl, rfl⟩
namespace Telemetry

theorem LogProcessConnected_codes {K : Capacity} (hK : K.Valid)
    (hProcess : Option ProcessImage) {h : Host} (hi : Inv K h.telemetry) :
    (LogProcessConnected K true hProcess h).telemetry._rguiProcessFileNamesCodesCount =
      (TotalCodesForPreviousProcess K h).telemetry._rguiProcessFileNamesCodesCount ∧
    (LogProcessConnected K true hProcess h).telemetry._rguiProcessFileNamesFailedCodesCount =
      (TotalCodesForPreviousProcess K h).telemetry._rguiProcessFileNamesFailedCodesCount ∧
    (LogProcessConnected K true hProcess h).telemetry._rguiProcessFileNamesFailedOutsideCodesCount
      = (TotalCodesForPreviousProcess K
          h).telemetry._rguiProcessFileNamesFailedOutsideCodesCount := by
  cases hProcess with
  | none => rw [LogProcessConnected_unresolved]; exact ⟨rfl, rfl, rfl⟩
  | some img =>
    by_cases hex : ∃ i, i < h.telemetry._uiNumberProcessFileNames ∧
        wcsnicmp img.pwszFileName (h.telemetry.processFileName i) MAX_PATH = 0
    · obtain ⟨i, hin, hx⟩ := hex
      rw [hit_of_present hK hi hin hx]
      exact ⟨rfl, rfl, rfl⟩
    · have habsent : ∀ i, i < h.telemetry._uiNumberProcessFileNames →
          wcsnicmp img.pwszFileName (h.telemetry.processFileName i) MAX_PATH ≠ 0 :=
        fun i hin hx => hex ⟨i, hin, hx⟩
      by_cases ha : LogProcessConnected.admits K h.telemetry img.pwszFileName
      · obtain ⟨p, _, _, heq⟩ := recorded_eq_of_absent hK hi habsent ha
        rw [heq]
        exact ⟨rfl, rfl, rfl⟩
      · obtain ⟨b, buf, heq⟩ := rejected_of_absent hK hi habsent ha
        rw [heq]
        exact ⟨rfl, rfl, rfl⟩

end Telemetry

/-- Claim C13. In a reachable state where slot `a` is the attributed process and the
pending source holds `(u, f, o)`, a sampled `LogProcessConnected` for any process
(the same name, another stored name, a new name, a rejected name, or none resolved)
leaves the code counters exactly as the fold that precedes the lookup leaves them:
`u`, `f` and `o` are added (as `unsigned int`) to the three counters of slot `a`, and
the counters of every other slot, the slot of the connecting process included unless
it is `a`, are unchanged. -/
theorem LogProcessConnected_credits_previous (K : Capacity) (hK : K.Valid) (h : Host)
    (hr : Reachable K h) (hProcess : Option ProcessImage) (a : Nat)
    (hcur : h.telemetry._iProcessConnectedCurrently = a)
    (ha : a < h.telemetry._uiNumberProcessFileNames) :
    (Telemetry.LogProcessConnected K true hProcess h).telemetry._rguiProcessFileNamesCodesCount
      = (Telemetry.TotalCodesForPreviousProcess K h).telemetry._rguiProcessFileNamesCodesCount ∧
    (Telemetry.LogProcessConnected K true hProcess
        h).telemetry._rguiProcessFileNamesFailedCodesCount
      = (Telemetry.TotalCodesForPreviousProcess K
          h).telemetry._rguiProcessFileNamesFailedCodesCount ∧
    (Telemetry.LogProcessConnected K true hProcess
        h).telemetry._rguiProcessFileNamesFailedOutsideCodesCount
      = (Telemetry.TotalCodesForPreviousProcess K
          h).telemetry._rguiProcessFileNamesFailedOutsideCodesCount ∧
    (Telemetry.LogProcessConnected K true hProcess h).telemetry._rguiProcessFileNamesCodesCount a
      = (h.telemetry._rguiProcessFileNamesCodesCount a + h.term._uiTimesUsedCurrent)
          % UINT_MOD ∧
    (Telemetry.LogProcessConnected K true hProcess
        h).telemetry._rguiProcessFileNamesFailedCodesCount a
      = (h.telemetry._rguiProcessFileNamesFailedCodesCount a + h.term._uiTimesFailedCurrent)
          % UINT_MOD ∧
    (Telemetry.LogProcessConnected K true hProcess
        h).telemetry._rguiProcessFileNamesFailedOutsideCodesCount a
      = (h.telemetry._rguiProcessFileNamesFailedOutsideCodesCount a
          + h.term._uiTimesFailedOutsideRangeCurrent) % UINT_MOD ∧
    ∀ j, j ≠ a →
      (Telemetry.LogProcessConnected K true hProcess
          h).telemetry._rguiProcessFileNamesCodesCount j
        = h.telemetry._rguiProcessFileNamesCodesCount j ∧
      (Telemetry.LogProcessConnected K true hProcess
          h).telemetry._rguiProcessFileNamesFailedCodesCount j
        = h.telemetry._rguiProcessFileNamesFailedCodesCount j ∧
      (Telemetry.LogProcessConnected K true hProcess
          h).telemetry._rguiProcessFileNamesFailedOutsideCodesCount j
        = h.telemetry._rguiProcessFileNamesFailedOutsideCodesCount j := by
  have hi := hr.inv hK
  obtain ⟨e1, e2, e3⟩ := Telemetry.LogProcessConnected_codes hK hProcess hi
  have hc : h.telemetry._iProcessConnectedCurrently < K.c_iMaxProcessesConnected := by
    have := hi.count_le
    omega
  have hfold := Telemetry.TotalCodes_of_attributed hc
  rw [e1, e2, e3, hfold, hcur]
  exact ⟨rfl, rfl, rfl, Telemetry.setAt_same _ _ _, Telemetry.setAt_same _ _ _,
    Telemetry.setAt_same _ _ _, fun j hj =>
      ⟨Telemetry.setAt_ne _ _ hj, Telemetry.setAt_ne _ _ hj, Telemetry.setAt_ne _ _ hj⟩⟩
/-- Claim C14, as amended. The two-argument `LogApiCall(api, fUnicode)` increments by
exactly one (an `unsigned int` increment) the entry for `api` of the default counter
array `_rguiTimesApiUsed` when the flag is set, and the entry for `api` of the ANSI
counter array `_rguiTimesApiUsedAnsi` when the flag is not set; no other entry of
either array changes. -/
theorem LogApiCall_counts (api : Nat) (t : Telemetry) :
    ((t.LogApiCall api true)._rguiTimesApiUsed api = (t._rguiTimesApiUsed api + 1) % UINT_MOD ∧
      (t._rguiTimesApiUsed api + 1 < UINT_MOD →
        (t.LogApiCall api true)._rguiTimesApiUsed api = t._rguiTimesApiUsed api + 1) ∧
      (∀ j, j ≠ api → (t.LogApiCall api true)._rguiTimesApiUsed j = t._rguiTimesApiUsed j) ∧
      (t.LogApiCall api true)._rguiTimesApiUsedAnsi = t._rguiTimesApiUsedAnsi) ∧
    ((t.LogApiCall api false)._rguiTimesApiUsedAnsi api =
        (t._rguiTimesApiUsedAnsi api + 1) % UINT_MOD ∧
      (t._rguiTimesApiUsedAnsi api + 1 < UINT_MOD →
        (t.LogApiCall api false)._rguiTimesApiUsedAnsi api = t._rguiTimesApiUsedAnsi api + 1) ∧
      (∀ j, j ≠ api →
        (t.LogApiCall api false)._rguiTimesApiUsedAnsi j = t._rguiTimesApiUsedAnsi j) ∧
      (t.LogApiCall api false)._rguiTimesApiUsed = t._rguiTimesApiUsed) :=
  ⟨⟨Telemetry.setAt_same _ _ _,
      fun hlt => (Telemetry.setAt_same _ _ _).trans (Nat.mod_eq_of_lt hlt),
      fun _ hj => Telemetry.setAt_ne _ _ hj, rfl⟩,
    ⟨Telemetry.setAt_same _ _ _,
      fun hlt => (Telemetry.setAt_same _ _ _).trans (Nat.mod_eq_of_lt hlt),
      fun _ hj => Telemetry.setAt_ne _ _ hj, rfl⟩⟩

/-- Counterexample to claim C14 as stated: on a freshly constructed aggregator,
`LogApiCall(0, true)` leaves entry 0 of the ANSI array at 0 and brings entry 0 of the
default array to 1. -/
theorem LogApiCall_flag_set_counts_default :
    ((Telemetry.new sampleCapacity 0).LogApiCall 0 true)._rguiTimesApiUsedAnsi 0 = 0 ∧
    ((Telemetry.new sampleCapacity 0).LogApiCall 0 true)._rguiTimesApiUsed 0 = 1 := by
  decide

theorem roundHalfEven_intCast (z : Int) : roundHalfEven (z : ℚ) = z := by
  unfold roundHalfEven
  rw [Int.floor_intCast, sub_self, if_pos (by norm_num)]

theorem roundHalfEven_of_near {x : ℚ} {m : Int} (hlo : (m : ℚ) - 1 / 2 < x)
    (hhi : x < (m : ℚ) + 1 / 2) : roundHalfEven x = m := by
  unfold roundHalfEven
  have h1 : (⌊x⌋ : ℚ) ≤ x := Int.floor_le x
  have h2 : x < (⌊x⌋ : ℚ) + 1 := Int.lt_floor_add_one x
  have hf : ⌊x⌋ = m ∨ ⌊x⌋ = m - 1 := by
    have a1 : ((⌊x⌋ : ℤ) : ℚ) < (m : ℚ) + 1 := by linarith
    have a2 : (m : ℚ) - 2 < ((⌊x⌋ : ℤ) : ℚ) := by linarith
    have b1 : ⌊x⌋ < m + 1 := by exact_mod_cast a1
    have b2 : m - 2 < ⌊x⌋ := by exact_mod_cast a2
    omega
  rcases hf with hf | hf
  · rw [hf, if_pos (by linarith)]
  · rw [hf]
    push_cast
    rw [if_neg (by linarith), if_pos (by linarith)]
    ring

theorem log_abs_eq {q : ℚ} {k : Int} (h1 : (2 : ℚ) ^ k ≤ |q|) (h2 : |q| < (2 : ℚ) ^ (k + 1)) :
    Int.log 2 |q| = k := by
  have hpos : 0 < |q| := lt_of_lt_of_le (zpow_pos (by norm_num) k) h1
  have a := (Int.zpow_le_iff_le_log (b := 2) (by norm_num) hpos).mp (by exact_mod_cast h1)
  have b := (Int.lt_zpow_iff_log_lt (b := 2) (by norm_num) hpos).mp (by exact_mod_cast h2)
  omega

theorem roundToFloat_zero : roundToFloat 0 = 0 := by
  unfold roundToFloat
  rw [zero_div]
  have := roundHalfEven_intCast 0
  rw [Int.cast_zero] at this
  rw [this, Int.cast_zero, zero_mul]

theorem roundToFloat_of_scaled {q : ℚ} {E : Int} {z : Int}
    (hE : max (Int.log 2 |q|) (-126) = E) (hz : q = (z : ℚ) * (2 : ℚ) ^ (E - 23)) :
    roundToFloat q = q := by
  unfold roundToFloat
  rw [hE]
  have hne : (2 : ℚ) ^ (E - 23) ≠ 0 := zpow_ne_zero _ (by norm_num)
  have hdiv : q / (2 : ℚ) ^ (E - 23) = (z : ℚ) := by
    rw [hz, mul_div_assoc, div_self hne, mul_one]
  rw [hdiv, roundHalfEven_intCast, ← hz]

/-- Rounding leaves every `float` value as it is. -/
theorem roundToFloat_of_isFloat32 {q : ℚ} (h : IsFloat32 q) : roundToFloat q = q := by
  obtain ⟨m, e, hm, he1, he2, rfl⟩ := h
  by_cases hm0 : m = 0
  · subst hm0
    rw [Int.cast_zero, zero_mul]
    exact roundToFloat_zero
  · have hpos : 0 < m.natAbs := Int.natAbs_pos.mpr hm0
    have hk1 : 2 ^ Nat.log 2 m.natAbs ≤ m.natAbs := Nat.pow_log_le_self 2 (by omega)
    have hk2 : m.natAbs < 2 ^ (Nat.log 2 m.natAbs + 1) :=
      Nat.lt_pow_succ_log_self (by norm_num) _
    have habs : |(m : ℚ)| = ((m.natAbs : Nat) : ℚ) := by
      rw [Nat.cast_natAbs, Int.cast_abs]
    have hm24 : m.natAbs < 2 ^ 24 := by
      have : ((m.natAbs : Nat) : Int) < 2 ^ 24 := by
        rw [← Int.abs_eq_natAbs]; exact hm
      exact_mod_cast this
    have hk24 : Nat.log 2 m.natAbs < 24 := by
      by_contra hge
      have : 2 ^ 24 ≤ 2 ^ Nat.log 2 m.natAbs :=
        Nat.pow_le_pow_right (by norm_num) (by omega)
      omega
    have hq : |(m : ℚ) * (2 : ℚ) ^ e| = ((m.natAbs : Nat) : ℚ) * (2 : ℚ) ^ e := by
      rw [abs_mul, habs, abs_of_pos (zpow_pos (by norm_num) e)]
    have h2e : (0 : ℚ) < (2 : ℚ) ^ e := zpow_pos (by norm_num) e
    have hlog : Int.log 2 |(m : ℚ) * (2 : ℚ) ^ e| = (Nat.log 2 m.natAbs : Int) + e := by
      apply log_abs_eq
      · rw [hq, zpow_add₀ (by norm_num), zpow_natCast]
        exact mul_le_mul_of_nonneg_right (by exact_mod_cast hk1) (le_of_lt h2e)
      · rw [hq, add_right_comm, zpow_add₀ (by norm_num)]
        have : (((Nat.log 2 m.natAbs : Nat) : Int) + 1) =
            ((Nat.log 2 m.natAbs + 1 : Nat) : Int) := by
          push_cast; ring
        rw [this, zpow_natCast]
        exact mul_lt_mul_of_pos_right (by exact_mod_cast hk2) h2e
    have hj : 0 ≤ e - (max ((Nat.log 2 m.natAbs : Int) + e) (-126) - 23) := by
      rcases max_cases ((Nat.log 2 m.natAbs : Int) + e) (-126) with ⟨h1, _⟩ | ⟨h1, _⟩
      · rw [h1]; omega
      · rw [h1]; omega
    refine roundToFloat_of_scaled (E := max ((Nat.log 2 m.natAbs : Int) + e) (-126))
      (z := m * 2 ^ (e - (max ((Nat.log 2 m.natAbs : Int) + e) (-126) - 23)).toNat)
      (by rw [hlog]) ?_
    rw [Int.cast_mul, Int.cast_pow, Int.cast_ofNat, mul_assoc, ← zpow_natCast,
      Int.toNat_of_nonneg hj, ← zpow_add₀ (by norm_num)]
    congr 2
    ring

/-- The value of the rounding at a `q` of binary exponent `e` that lies less than half
a spacing from the multiple `m` of the spacing. -/
theorem roundToFloat_of_near {q : ℚ} {e m : Int} (he : -126 ≤ e)
    (h1 : (2 : ℚ) ^ e ≤ |q|) (h2 : |q| < (2 : ℚ) ^ (e + 1))
    (hlo : (m : ℚ) - 1 / 2 < q / (2 : ℚ) ^ (e - 23))
    (hhi : q / (2 : ℚ) ^ (e - 23) < (m : ℚ) + 1 / 2) :
    roundToFloat q = (m : ℚ) * (2 : ℚ) ^ (e - 23) := by
  unfold roundToFloat
  rw [log_abs_eq h1 h2, max_eq_left he, roundHalfEven_of_near hlo hhi]

theorem isFloat32_zero : IsFloat32 0 :=
  ⟨0, 0, by norm_num, by norm_num, by norm_num, by norm_num⟩

theorem isFloat32_natCast {n : Nat} (h : n < 2 ^ 24) : IsFloat32 (n : ℚ) :=
  ⟨n, 0, by rw [abs_of_nonneg (Int.natCast_nonneg n)]; exact_mod_cast h, by norm_num,
    by norm_num, by norm_num⟩

theorem isFloat32_boolSample (b : Bool) : IsFloat32 (boolSample b) := by
  cases b
  · exact isFloat32_zero
  · exact ⟨1, 0, by norm_num, by norm_num, by norm_num, by norm_num [boolSample]⟩

namespace Telemetry

theorem logFindSamples_cons (s : FindSample) (samples : List FindSample) (t : Telemetry) :
    logFindSamples (s :: samples) t =
      logFindSamples samples
        (t.LogFindDialogNextClicked s.uiStringLength s.fDirectionDown s.fMatchCase) := rfl

/-- The running average is the exact quotient when none of its steps rounds. -/
theorem runningAverage_exact {a : ℚ} {n x : Nat} (hn : IsFloat32 (n : ℚ))
    (han : IsFloat32 (a * (n : ℚ))) (hx : IsFloat32 (x : ℚ))
    (hs : IsFloat32 (a * (n : ℚ) + (x : ℚ))) (hd : IsFloat32 ((n + 1 : Nat) : ℚ))
    (hq : IsFloat32 ((a * (n : ℚ) + (x : ℚ)) / ((n + 1 : Nat) : ℚ))) :
    runningAverage a n x (n + 1) = (a * (n : ℚ) + (x : ℚ)) / ((n + 1 : Nat) : ℚ) := by
  unfold runningAverage
  rw [roundToFloat_of_isFloat32 hn, roundToFloat_of_isFloat32 han,
    roundToFloat_of_isFloat32 hx, roundToFloat_of_isFloat32 hs,
    roundToFloat_of_isFloat32 hd, roundToFloat_of_isFloat32 hq]

theorem logFindSamples_total :
    ∀ (samples : List FindSample) (t : Telemetry),
      t._uiFindNextClickedTotal + samples.length < UINT_MOD →
      (logFindSamples samples t)._uiFindNextClickedTotal =
        t._uiFindNextClickedTotal + samples.length := by
  intro samples
  induction samples with
  | nil => intro t _; rfl
  | cons s samples ih =>
    intro t hlt
    rw [List.length_cons] at hlt
    have hmod : (t._uiFindNextClickedTotal + 1) % UINT_MOD = t._uiFindNextClickedTotal + 1 :=
      Nat.mod_eq_of_lt (by omega)
    have htot : (t.LogFindDialogNextClicked s.uiStringLength s.fDirectionDown
        s.fMatchCase)._uiFindNextClickedTotal = t._uiFindNextClickedTotal + 1 := hmod
    rw [logFindSamples_cons, ih _ (by rw [htot]; omega), htot, List.length_cons]
    omega

/-- One of the three averages (`f`, fed the sample `g`) over a run of samples none of
whose steps rounds: the average times the count is the sum. -/
theorem logFindSamples_exact (f : Telemetry → ℚ) (g : FindSample → Nat)
    (hf : ∀ (t : Telemetry) (s : FindSample),
      f (t.LogFindDialogNextClicked s.uiStringLength s.fDirectionDown s.fMatchCase) =
        runningAverage (f t) t._uiFindNextClickedTotal (g s)
          ((t._uiFindNextClickedTotal + 1) % UINT_MOD)) :
    ∀ (samples : List FindSample) (t : Telemetry) (S : ℚ),
      t._uiFindNextClickedTotal + samples.length < UINT_MOD →
      f t * (t._uiFindNextClickedTotal : ℚ) = S →
      (∀ s, s ∈ samples → IsFloat32 ((g s : Nat) : ℚ)) →
      (∀ p, p <+: samples.map (fun s => ((g s : Nat) : ℚ)) →
        IsFloat32 ((t._uiFindNextClickedTotal + p.length : Nat) : ℚ) ∧
        IsFloat32 (S + p.sum) ∧
        IsFloat32 ((S + p.sum) / ((t._uiFindNextClickedTotal + p.length : Nat) : ℚ))) →
      f (logFindSamples samples t) * ((t._uiFindNextClickedTotal + samples.length : Nat) : ℚ) =
        S + (samples.map (fun s => ((g s : Nat) : ℚ))).sum := by
  intro samples
  induction samples with
  | nil =>
    intro t S _ hS _ _
    simp only [logFindSamples, List.foldl_nil, List.length_nil, Nat.add_zero, List.map_nil,
      List.sum_nil, add_zero]
    exact hS
  | cons s samples ih =>
    intro t S hlt hS hx hp
    rw [List.length_cons] at hlt
    have hmod : (t._uiFindNextClickedTotal + 1) % UINT_MOD = t._uiFindNextClickedTotal + 1 :=
      Nat.mod_eq_of_lt (by omega)
    have htot : (t.LogFindDialogNextClicked s.uiStringLength s.fDirectionDown
        s.fMatchCase)._uiFindNextClickedTotal = t._uiFindNextClickedTotal + 1 := hmod
    have hd : (((t._uiFindNextClickedTotal + 1 : Nat) : ℚ)) ≠ 0 :=
      Nat.cast_ne_zero.mpr (Nat.succ_ne_zero _)
    obtain ⟨p0n, p0s, _⟩ := hp [] List.nil_prefix
    obtain ⟨p1n, p1s, p1q⟩ := hp [((g s : Nat) : ℚ)] (by
      rw [List.map_cons]
      exact (List.cons_prefix_cons).mpr ⟨rfl, List.nil_prefix⟩)
    simp only [List.length_nil, Nat.add_zero, List.sum_nil, add_zero] at p0n p0s
    simp only [List.length_cons, List.length_nil, Nat.zero_add, List.sum_cons, List.sum_nil,
      add_zero] at p1n p1s p1q
    have hstep : f (t.LogFindDialogNextClicked s.uiStringLength s.fDirectionDown s.fMatchCase) *
        ((t._uiFindNextClickedTotal + 1 : Nat) : ℚ) = S + ((g s : Nat) : ℚ) := by
      rw [hf, hmod, runningAverage_exact p0n (by rw [hS]; exact p0s) (hx s (List.mem_cons_self _ _))
        (by rw [hS]; exact p1s) p1n (by rw [hS]; exact p1q), hS, div_mul_cancel₀ _ hd]
    have hrec := ih (t.LogFindDialogNextClicked s.uiStringLength s.fDirectionDown s.fMatchCase)
      (S + ((g s : Nat) : ℚ)) (by rw [htot]; omega) (by rw [htot]; exact hstep)
      (fun s2 hs2 => hx s2 (List.mem_cons_of_mem _ hs2))
      (by
        intro p hpre
        have h3 := hp (((g s : Nat) : ℚ) :: p) (by
          rw [List.map_cons]
          exact (List.cons_prefix_cons).mpr ⟨rfl, hpre⟩)
        rw [htot]
        have e1 : t._uiFindNextClickedTotal + (((g s : Nat) : ℚ) :: p).length =
            t._uiFindNextClickedTotal + 1 + p.length := by
          rw [List.length_cons]; omega
        have e2 : S + (((g s : Nat) : ℚ) :: p).sum = S + ((g s : Nat) : ℚ) + p.sum := by
          rw [List.sum_cons]; ring
        rw [e1, e2] at h3
        exact h3)
    rw [htot] at hrec
    have e3 : t._uiFindNextClickedTotal + 1 + samples.length =
        t._uiFindNextClickedTotal + (s :: samples).length := by
      rw [List.length_cons]; omega
    rw [e3] at hrec
    rw [logFindSamples_cons, hrec, List.map_cons, List.sum_cons]
    ring

/-- From zeroed statistics, an average whose samples are exact in `float` arithmetic
is the mean of its samples. -/
theorem logFindSamples_mean (f : Telemetry → ℚ) (g : FindSample → Nat)
    (hf : ∀ (t : Telemetry) (s : FindSample),
      f (t.LogFindDialogNextClicked s.uiStringLength s.fDirectionDown s.fMatchCase) =
        runningAverage (f t) t._uiFindNextClickedTotal (g s)
          ((t._uiFindNextClickedTotal + 1) % UINT_MOD))
    (samples : List FindSample) (t : Telemetry) (hne : samples ≠ [])
    (hlen : samples.length < UINT_MOD) (h0 : t._uiFindNextClickedTotal = 0) (h1 : f t = 0)
    (hex : exactInFloat (samples.map (fun s => ((g s : Nat) : ℚ)))) :
    f (logFindSamples samples t) = mean (samples.map (fun s => ((g s : Nat) : ℚ))) := by
  have hn : ((samples.length : Nat) : ℚ) ≠ 0 :=
    Nat.cast_ne_zero.mpr (fun h => hne (List.length_eq_zero.mp h))
  have hmain := logFindSamples_exact f g hf samples t 0 (by rw [h0]; omega)
    (by rw [h1, zero_mul])
    (fun s hs => hex.1 _ (List.mem_map_of_mem _ hs))
    (by
      intro p hpre
      obtain ⟨a, b, c⟩ := hex.2 p hpre
      rw [h0, Nat.zero_add, zero_add]
      exact ⟨a, b, c⟩)
  rw [h0, Nat.zero_add, zero_add] at hmain
  unfold mean
  rw [List.length_map]
  exact eq_div_of_mul_eq hn hmain

theorem natCast_boolSample (b : Bool) : (((if b then 1 else 0 : Nat) : Nat) : ℚ) = boolSample b := by
  cases b <;> simp [boolSample]

end Telemetry

/-- Claim C15, as amended. Starting from zeroed running statistics, after any non-empty
sequence of fewer than `2^32` `LogFindDialogNextClicked` calls the sample count is the
number of calls, and each of the three averages, updated as `(a * n + x) / (n + 1)` in
`float` arithmetic, is the arithmetic mean of its samples (the length, and 1 or 0 for
each of the two flags) whenever no step of that average rounds: the samples and the
length, sum and mean of every initial part of the sample sequence are `float`
values. -/
theorem LogFindDialogNextClicked_running_mean (samples : List FindSample) (t : Telemetry)
    (hne : samples ≠ []) (hlen : samples.length < UINT_MOD)
    (h0 : t._uiFindNextClickedTotal = 0) (h1 : t._fpFindStringLengthAverage = 0)
    (h2 : t._fpDirectionDownAverage = 0) (h3 : t._fpMatchCaseAverage = 0) :
    (t.logFindSamples samples)._uiFindNextClickedTotal = samples.length ∧
    (exactInFloat (samples.map (fun s => (s.uiStringLength : ℚ))) →
      (t.logFindSamples samples)._fpFindStringLengthAverage =
        mean (samples.map (fun s => (s.uiStringLength : ℚ)))) ∧
    (exactInFloat (samples.map (fun s => boolSample s.fDirectionDown)) →
      (t.logFindSamples samples)._fpDirectionDownAverage =
        mean (samples.map (fun s => boolSample s.fDirectionDown))) ∧
    (exactInFloat (samples.map (fun s => boolSample s.fMatchCase)) →
      (t.logFindSamples samples)._fpMatchCaseAverage =
        mean (samples.map (fun s => boolSample s.fMatchCase))) := by
  have hD : (fun s : FindSample => (((if s.fDirectionDown then 1 else 0 : Nat) : Nat) : ℚ)) =
      fun s => boolSample s.fDirectionDown :=
    funext fun s => Telemetry.natCast_boolSample s.fDirectionDown
  have hM : (fun s : FindSample => (((if s.fMatchCase then 1 else 0 : Nat) : Nat) : ℚ)) =
      fun s => boolSample s.fMatchCase :=
    funext fun s => Telemetry.natCast_boolSample s.fMatchCase
  refine ⟨?_, fun hex => ?_, fun hex => ?_, fun hex => ?_⟩
  · have := Telemetry.logFindSamples_total samples t (by rw [h0]; omega)
    rw [h0, Nat.zero_add] at this
    exact this
  · exact Telemetry.logFindSamples_mean (fun t => t._fpFindStringLengthAverage)
      (fun s => s.uiStringLength) (fun _ _ => rfl) samples t hne hlen h0 h1 hex
  · have := Telemetry.logFindSamples_mean (fun t => t._fpDirectionDownAverage)
      (fun s => if s.fDirectionDown then 1 else 0) (fun _ _ => rfl) samples t hne hlen h0 h2
      (by rw [hD]; exact hex)
    rw [hD] at this
    exact this
  · have := Telemetry.logFindSamples_mean (fun t => t._fpMatchCaseAverage)
      (fun s => if s.fMatchCase then 1 else 0) (fun _ _ => rfl) samples t hne hlen h0 h3
      (by rw [hM]; exact hex)
    rw [hM] at this
    exact this

namespace Telemetry

theorem WriteFinalTraceLog_disabled (K : Capacity) (tEndedAt : Int) (ci : ConsoleInformation)
    (h : Host) : WriteFinalTraceLog K false tEndedAt ci h = h := by
  simp [WriteFinalTraceLog]

theorem WriteFinalTraceLog_not_interactive (K : Capacity) (tEndedAt : Int)
    (ci : ConsoleInformation) {h : Host}
    (hint : h.telemetry._fUserInteractiveForTelemetry = false) :
    WriteFinalTraceLog K true tEndedAt ci h =
      { h with term := { h.term with _fShouldWriteFinalLog := false } } := by
  simp [WriteFinalTraceLog, hint]

theorem TotalCodes_flag_telemetry (K : Capacity) (h : Host) (b : Bool) :
    (TotalCodesForPreviousProcess K
      { h with term := { h.term with _fShouldWriteFinalLog := b } }).telemetry =
      (TotalCodesForPreviousProcess K h).telemetry := by
  unfold TotalCodesForPreviousProcess
  dsimp only
  split <;> rfl

theorem WriteFinalTraceLog_telemetry (K : Capacity) (fEnabled : Bool) (tEndedAt : Int)
    (ci : ConsoleInformation) (h : Host) :
    (WriteFinalTraceLog K fEnabled tEndedAt ci h).telemetry = h.telemetry ∨
      (WriteFinalTraceLog K fEnabled tEndedAt ci h).telemetry =
        (TotalCodesForPreviousProcess K h).telemetry := by
  unfold WriteFinalTraceLog
  dsimp only
  split
  · split
    · exact Or.inr (TotalCodes_flag_telemetry K h _)
    · exact Or.inl rfl
  · exact Or.inl rfl

theorem TotalCodes_frame (K : Capacity) (h : Host) :
    ∃ (codes failed outside : Nat → Nat) (cur : Nat),
      (TotalCodesForPreviousProcess K h).telemetry =
        { h.telemetry with
          _rguiProcessFileNamesCodesCount := codes
          _rguiProcessFileNamesFailedCodesCount := failed
          _rguiProcessFileNamesFailedOutsideCodesCount := outside
          _iProcessConnectedCurrently := cur } ∧
      ∀ j, j ≠ h.telemetry._iProcessConnectedCurrently →
        codes j = h.telemetry._rguiProcessFileNamesCodesCount j ∧
        failed j = h.telemetry._rguiProcessFileNamesFailedCodesCount j ∧
        outside j = h.telemetry._rguiProcessFileNamesFailedOutsideCodesCount j := by
  by_cases hc : h.telemetry._iProcessConnectedCurrently < K.c_iMaxProcessesConnected
  · exact ⟨_, _, _, _, TotalCodes_of_attributed hc, fun j hj =>
      ⟨setAt_ne _ _ hj, setAt_ne _ _ hj, setAt_ne _ _ hj⟩⟩
  · exact ⟨_, _, _, _, (TotalCodes_of_not_attributed hc).trans rfl, fun j _ => ⟨rfl, rfl, rfl⟩⟩

theorem WriteFinalTraceLog_frame (K : Capacity) (fEnabled : Bool) (tEndedAt : Int)
    (ci : ConsoleInformation) (h : Host) :
    ∃ (codes failed outside : Nat → Nat) (cur : Nat),
      (WriteFinalTraceLog K fEnabled tEndedAt ci h).telemetry =
        { h.telemetry with
          _rguiProcessFileNamesCodesCount := codes
          _rguiProcessFileNamesFailedCodesCount := failed
          _rguiProcessFileNamesFailedOutsideCodesCount := outside
          _iProcessConnectedCurrently := cur } ∧
      ∀ j, j ≠ h.telemetry._iProcessConnectedCurrently →
        codes j = h.telemetry._rguiProcessFileNamesCodesCount j ∧
        failed j = h.telemetry._rguiProcessFileNamesFailedCodesCount j ∧
        outside j = h.telemetry._rguiProcessFileNamesFailedOutsideCodesCount j := by
  rcases WriteFinalTraceLog_telemetry K fEnabled tEndedAt ci h with e | e
  · exact ⟨_, _, _, _, e.trans rfl, fun j _ => ⟨rfl, rfl, rfl⟩⟩
  · rw [e]; exact TotalCodes_frame K h

theorem WriteFinalTraceLog_events (K : Capacity) (tEndedAt : Int) (ci : ConsoleInformation)
    {h : Host} (hint : h.telemetry._fUserInteractiveForTelemetry = true) :
    ∃ rest : List TraceEvent,
      (WriteFinalTraceLog K true tEndedAt ci h).events =
        h.events ++
          TraceEvent.SessionEnding h.telemetry._fBashUsed h.telemetry._fCtrlPgUpPgDnUsed
            h.telemetry._fKeyboardTextEditingUsed h.telemetry._fKeyboardTextSelectionUsed
            ci.fLinkTitleIsNull
            (h.telemetry._wchProcessFileNames.take h.telemetry._iProcessFileNamesNext)
            (arrayPrefix h.telemetry._rguiProcessFileNamesCount
              h.telemetry._uiNumberProcessFileNames)
            (arrayPrefix (TotalCodesForPreviousProcess K
                h).telemetry._rguiProcessFileNamesCodesCount
              h.telemetry._uiNumberProcessFileNames)
            (arrayPrefix (TotalCodesForPreviousProcess K
                h).telemetry._rguiProcessFileNamesFailedCodesCount
              h.telemetry._uiNumberProcessFileNames)
            (arrayPrefix (TotalCodesForPreviousProcess K
                h).telemetry._rguiProcessFileNamesFailedOutsideCodesCount
              h.telemetry._uiNumberProcessFileNames)
            (toInt32 h.telemetry._tStartedAt) (toInt32 tEndedAt) :: rest ∧
      (WriteFinalTraceLog K true tEndedAt ci h).term._uiTimesUsedCurrent = 0 ∧
      (WriteFinalTraceLog K true tEndedAt ci h).term._uiTimesFailedCurrent = 0 ∧
      (WriteFinalTraceLog K true tEndedAt ci h).term._uiTimesFailedOutsideRangeCurrent = 0 := by
  obtain ⟨c1, c2, c3, cur, heq, _⟩ := TotalCodes_frame K
    { h with term := { h.term with _fShouldWriteFinalLog := true } }
  have hflag := TotalCodes_flag_telemetry K h true
  have hterm := TotalCodes_term K { h with term := { h.term with _fShouldWriteFinalLog := true } }
  have hev : (TotalCodesForPreviousProcess K
      { h with term := { h.term with _fShouldWriteFinalLog := true } }).events = h.events := by
    unfold TotalCodesForPreviousProcess
    dsimp only
    split <;> rfl
  simp only [WriteFinalTraceLog, hint, if_true]
  rw [hev, hterm, ← hflag, heq]
  exact ⟨_, by simp only [List.append_assoc, List.cons_append]; rfl, rfl, rfl, rfl⟩

theorem arrayPrefix_length (a : Nat → Nat) (n : Nat) : (arrayPrefix a n).length = n := by
  simp [arrayPrefix]

theorem arrayPrefix_getElem? (a : Nat → Nat) {n i : Nat} (h : i < n) :
    (arrayPrefix a n)[i]? = some (a i) := by
  simp [arrayPrefix, List.getElem?_map, List.getElem?_range h]

end Telemetry
/-- Claim C16. `WriteFinalTraceLog` writes no event and leaves the aggregator as it
was whenever the provider is not enabled or the user-interactive flag is false; it
writes events only, and always, when the provider is enabled and the flag is true. -/
theorem WriteFinalTraceLog_gated (K : Capacity) (fEnabled : Bool) (tEndedAt : Int)
    (ci : ConsoleInformation) (h : Host) :
    (fEnabled = false ∨ h.telemetry._fUserInteractiveForTelemetry = false →
      (Telemetry.WriteFinalTraceLog K fEnabled tEndedAt ci h).events = h.events ∧
      (Telemetry.WriteFinalTraceLog K fEnabled tEndedAt ci h).telemetry = h.telemetry) ∧
    ((Telemetry.WriteFinalTraceLog K fEnabled tEndedAt ci h).events ≠ h.events →
      fEnabled = true ∧ h.telemetry._fUserInteractiveForTelemetry = true) ∧
    (fEnabled = true → h.telemetry._fUserInteractiveForTelemetry = true →
      (Telemetry.WriteFinalTraceLog K fEnabled tEndedAt ci h).events ≠ h.events) := by
  have hsilent : fEnabled = false ∨ h.telemetry._fUserInteractiveForTelemetry = false →
      (Telemetry.WriteFinalTraceLog K fEnabled tEndedAt ci h).events = h.events ∧
      (Telemetry.WriteFinalTraceLog K fEnabled tEndedAt ci h).telemetry = h.telemetry := by
    intro hor
    cases fEnabled with
    | false => rw [Telemetry.WriteFinalTraceLog_disabled]; exact ⟨rfl, rfl⟩
    | true =>
      rcases hor with hf | hint
      · exact absurd hf (by decide)
      · rw [Telemetry.WriteFinalTraceLog_not_interactive K tEndedAt ci hint]
        exact ⟨rfl, rfl⟩
  refine ⟨hsilent, fun hne => ?_, fun he hint => ?_⟩
  · by_contra hcon
    apply hne
    refine (hsilent ?_).1
    cases fEnabled with
    | false => exact Or.inl rfl
    | true =>
      right
      cases hv : h.telemetry._fUserInteractiveForTelemetry with
      | false => rfl
      | true => exact absurd ⟨rfl, hv⟩ hcon
  · subst he
    obtain ⟨rest, hev, _⟩ := Telemetry.WriteFinalTraceLog_events K tEndedAt ci hint
    rw [hev]
    intro hcon
    have hl := congrArg List.length hcon
    rw [List.length_append, List.length_cons] at hl
    omega

/-- Claim C17, as amended. `WriteFinalTraceLog` leaves the three find-dialog running
averages and their sample count unchanged, whether or not it writes the final events;
they are zeroed by `FindDialogClosed` only. -/
theorem WriteFinalTraceLog_keeps_find_averages (K : Capacity) (fEnabled : Bool)
    (tEndedAt : Int) (ci : ConsoleInformation) (h : Host) :
    (Telemetry.WriteFinalTraceLog K fEnabled tEndedAt ci h).telemetry._fpFindStringLengthAverage
      = h.telemetry._fpFindStringLengthAverage ∧
    (Telemetry.WriteFinalTraceLog K fEnabled tEndedAt ci h).telemetry._fpDirectionDownAverage
      = h.telemetry._fpDirectionDownAverage ∧
    (Telemetry.WriteFinalTraceLog K fEnabled tEndedAt ci h).telemetry._fpMatchCaseAverage
      = h.telemetry._fpMatchCaseAverage ∧
    (Telemetry.WriteFinalTraceLog K fEnabled tEndedAt ci h).telemetry._uiFindNextClickedTotal
      = h.telemetry._uiFindNextClickedTotal := by
  obtain ⟨c1, c2, c3, cur, heq, _⟩ := Telemetry.WriteFinalTraceLog_frame K fEnabled tEndedAt ci h
  rw [heq]
  exact ⟨rfl, rfl, rfl, rfl⟩

/-- Counterexample to claim C17 as stated: after some user interaction and one click
of Find Next on a string of 4 characters, `WriteFinalTraceLog` with the provider
enabled leaves the sample count at 1 and the average length at 4. -/
theorem WriteFinalTraceLog_leaves_find_averages :
    findHost.telemetry._fUserInteractiveForTelemetry = true ∧
    (Telemetry.WriteFinalTraceLog sampleCapacity true 60 sampleConsole
      findHost).telemetry._uiFindNextClickedTotal = 1 ∧
    (Telemetry.WriteFinalTraceLog sampleCapacity true 60 sampleConsole
      findHost).telemetry._fpFindStringLengthAverage = 4 := by
  refine ⟨by decide, by decide, ?_⟩
  obtain ⟨c1, c2, c3, cur, heq, _⟩ :=
    Telemetry.WriteFinalTraceLog_frame sampleCapacity true 60 sampleConsole findHost
  rw [heq]
  show findHost.telemetry._fpFindStringLengthAverage = 4
  have e1 : Telemetry.runningAverage 0 0 4 1 = 4 := by
    have h := Telemetry.runningAverage_exact (a := 0) (n := 0) (x := 4)
      (isFloat32_natCast (by norm_num)) (by rw [zero_mul]; exact isFloat32_zero)
      (isFloat32_natCast (by norm_num))
      (by rw [zero_mul, zero_add]; exact isFloat32_natCast (by norm_num))
      (isFloat32_natCast (by norm_num))
      (by norm_num; exact isFloat32_natCast (n := 4) (by norm_num))
    rw [h]; norm_num
  norm_num [findHost, run, step, Host.new, Telemetry.new, Telemetry.LogFindDialogNextClicked,
    Telemetry.SetUserInteractive, UINT_MOD, e1]
/-- Claim C18. `WriteFinalTraceLog`, in every state, changes at most four members of
the aggregator: the three code counter arrays, and those only at the attributed slot,
and the attribution marker.  In particular both API counter arrays, the table of
process names (count, alphabetical index, offsets, packed buffer, write cursor,
connection counts) and the five usage flags are as before. -/
theorem WriteFinalTraceLog_frame_effect (K : Capacity) (fEnabled : Bool) (tEndedAt : Int)
    (ci : ConsoleInformation) (h : Host) :
    (∃ (codes failed outside : Nat → Nat) (cur : Nat),
      (Telemetry.WriteFinalTraceLog K fEnabled tEndedAt ci h).telemetry =
        { h.telemetry with
          _rguiProcessFileNamesCodesCount := codes
          _rguiProcessFileNamesFailedCodesCount := failed
          _rguiProcessFileNamesFailedOutsideCodesCount := outside
          _iProcessConnectedCurrently := cur } ∧
      ∀ j, j ≠ h.telemetry._iProcessConnectedCurrently →
        codes j = h.telemetry._rguiProcessFileNamesCodesCount j ∧
        failed j = h.telemetry._rguiProcessFileNamesFailedCodesCount j ∧
        outside j = h.telemetry._rguiProcessFileNamesFailedOutsideCodesCount j) ∧
    (Telemetry.WriteFinalTraceLog K fEnabled tEndedAt ci h).telemetry._rguiTimesApiUsed
      = h.telemetry._rguiTimesApiUsed ∧
    (Telemetry.WriteFinalTraceLog K fEnabled tEndedAt ci h).telemetry._rguiTimesApiUsedAnsi
      = h.telemetry._rguiTimesApiUsedAnsi ∧
    (Telemetry.WriteFinalTraceLog K fEnabled tEndedAt ci h).telemetry._uiNumberProcessFileNames
      = h.telemetry._uiNumberProcessFileNames ∧
    (Telemetry.WriteFinalTraceLog K fEnabled tEndedAt ci h).telemetry._rgiAlphabeticalIndex
      = h.telemetry._rgiAlphabeticalIndex ∧
    (Telemetry.WriteFinalTraceLog K fEnabled tEndedAt ci h).telemetry._rgiProccessFileNameIndex
      = h.telemetry._rgiProccessFileNameIndex ∧
    (Telemetry.WriteFinalTraceLog K fEnabled tEndedAt ci h).telemetry._wchProcessFileNames
      = h.telemetry._wchProcessFileNames ∧
    (Telemetry.WriteFinalTraceLog K fEnabled tEndedAt ci h).telemetry._iProcessFileNamesNext
      = h.telemetry._iProcessFileNamesNext ∧
    (Telemetry.WriteFinalTraceLog K fEnabled tEndedAt ci h).telemetry._rguiProcessFileNamesCount
      = h.telemetry._rguiProcessFileNamesCount ∧
    (Telemetry.WriteFinalTraceLog K fEnabled tEndedAt ci h).telemetry._fBashUsed
      = h.telemetry._fBashUsed ∧
    (Telemetry.WriteFinalTraceLog K fEnabled tEndedAt ci h).telemetry._fCtrlPgUpPgDnUsed
      = h.telemetry._fCtrlPgUpPgDnUsed ∧
    (Telemetry.WriteFinalTraceLog K fEnabled tEndedAt ci h).telemetry._fKeyboardTextEditingUsed
      = h.telemetry._fKeyboardTextEditingUsed ∧
    (Telemetry.WriteFinalTraceLog K fEnabled tEndedAt ci h).telemetry._fKeyboardTextSelectionUsed
      = h.telemetry._fKeyboardTextSelectionUsed ∧
    (Telemetry.WriteFinalTraceLog K fEnabled tEndedAt ci
        h).telemetry._fUserInteractiveForTelemetry
      = h.telemetry._fUserInteractiveForTelemetry := by
  obtain ⟨c1, c2, c3, cur, heq, hrest⟩ :=
    Telemetry.WriteFinalTraceLog_frame K fEnabled tEndedAt ci h
  refine ⟨⟨c1, c2, c3, cur, heq, hrest⟩, ?_⟩
  rw [heq]
  exact ⟨rfl, rfl, rfl, rfl, rfl, rfl, rfl, rfl, rfl, rfl, rfl, rfl, rfl⟩

/-- Claim C19. With the provider enabled and the user-interactive flag true,
`WriteFinalTraceLog` folds the pending counters before it writes the session record:
the first event it appends is `SessionEnding`, whose three code counter arrays have
one entry per slot in arrival order (length `count`), the entry of the attributed slot
already including the pending value (an `unsigned int` sum), the others as they were,
and whose two times are the start and end times cast to `int`; and afterwards the
three pending counters are zero. -/
theorem WriteFinalTraceLog_folds_before_record (K : Capacity) (tEndedAt : Int)
    (ci : ConsoleInformation) (h : Host)
    (hint : h.telemetry._fUserInteractiveForTelemetry = true) :
    ∃ (codes failed outside : List Nat) (rest : List TraceEvent),
      (Telemetry.WriteFinalTraceLog K true tEndedAt ci h).events =
        h.events ++
          TraceEvent.SessionEnding h.telemetry._fBashUsed h.telemetry._fCtrlPgUpPgDnUsed
            h.telemetry._fKeyboardTextEditingUsed h.telemetry._fKeyboardTextSelectionUsed
            ci.fLinkTitleIsNull
            (h.telemetry._wchProcessFileNames.take h.telemetry._iProcessFileNamesNext)
            (arrayPrefix h.telemetry._rguiProcessFileNamesCount
              h.telemetry._uiNumberProcessFileNames)
            codes failed outside (toInt32 h.telemetry._tStartedAt) (toInt32 tEndedAt) ::
              rest ∧
      codes.length = h.telemetry._uiNumberProcessFileNames ∧
      failed.length = h.telemetry._uiNumberProcessFileNames ∧
      outside.length = h.telemetry._uiNumberProcessFileNames ∧
      (∀ i, i < h.telemetry._uiNumberProcessFileNames →
        codes[i]? = some
          (if i = h.telemetry._iProcessConnectedCurrently ∧
              h.telemetry._iProcessConnectedCurrently < K.c_iMaxProcessesConnected then
            (h.telemetry._rguiProcessFileNamesCodesCount i + h.term._uiTimesUsedCurrent)
              % UINT_MOD
          else h.telemetry._rguiProcessFileNamesCodesCount i) ∧
        failed[i]? = some
          (if i = h.telemetry._iProcessConnectedCurrently ∧
              h.telemetry._iProcessConnectedCurrently < K.c_iMaxProcessesConnected then
            (h.telemetry._rguiProcessFileNamesFailedCodesCount i + h.term._uiTimesFailedCurrent)
              % UINT_MOD
          else h.telemetry._rguiProcessFileNamesFailedCodesCount i) ∧
        outside[i]? = some
          (if i = h.telemetry._iProcessConnectedCurrently ∧
              h.telemetry._iProcessConnectedCurrently < K.c_iMaxProcessesConnected then
            (h.telemetry._rguiProcessFileNamesFailedOutsideCodesCount i
              + h.term._uiTimesFailedOutsideRangeCurrent) % UINT_MOD
          else h.telemetry._rguiProcessFileNamesFailedOutsideCodesCount i)) ∧
      (Telemetry.WriteFinalTraceLog K true tEndedAt ci h).term._uiTimesUsedCurrent = 0 ∧
      (Telemetry.WriteFinalTraceLog K true tEndedAt ci h).term._uiTimesFailedCurrent = 0 ∧
      (Telemetry.WriteFinalTraceLog K true tEndedAt ci h).term._uiTimesFailedOutsideRangeCurrent
        = 0 := by
  obtain ⟨rest, hev, hz1, hz2, hz3⟩ := Telemetry.WriteFinalTraceLog_events K tEndedAt ci hint
  refine ⟨_, _, _, rest, hev, Telemetry.arrayPrefix_length _ _, Telemetry.arrayPrefix_length _ _,
    Telemetry.arrayPrefix_length _ _, fun i hi => ?_, hz1, hz2, hz3⟩
  rw [Telemetry.arrayPrefix_getElem? _ hi, Telemetry.arrayPrefix_getElem? _ hi,
    Telemetry.arrayPrefix_getElem? _ hi]
  by_cases hc : h.telemetry._iProcessConnectedCurrently < K.c_iMaxProcessesConnected
  · rw [Telemetry.TotalCodes_of_attributed hc]
    by_cases hic : i = h.telemetry._iProcessConnectedCurrently
    · rw [if_pos ⟨hic, hc⟩, if_pos ⟨hic, hc⟩, if_pos ⟨hic, hc⟩]
      rw [hic]
      exact ⟨congrArg some (Telemetry.setAt_same _ _ _),
        congrArg some (Telemetry.setAt_same _ _ _), congrArg some (Telemetry.setAt_same _ _ _)⟩
    · rw [if_neg (fun hh => hic hh.1), if_neg (fun hh => hic hh.1), if_neg (fun hh => hic hh.1)]
      exact ⟨congrArg some (Telemetry.setAt_ne _ _ hic),
        congrArg some (Telemetry.setAt_ne _ _ hic), congrArg some (Telemetry.setAt_ne _ _ hic)⟩
  · rw [Telemetry.TotalCodes_of_not_attributed hc,
      if_neg (fun hh => hc hh.2), if_neg (fun hh => hc hh.2), if_neg (fun hh => hc hh.2)]
    exact ⟨rfl, rfl, rfl⟩

namespace Telemetry

theorem logFindSamples_congr :
    ∀ (samples : List FindSample) (t t' : Telemetry),
      t'._fpFindStringLengthAverage = t._fpFindStringLengthAverage →
      t'._fpDirectionDownAverage = t._fpDirectionDownAverage →
      t'._fpMatchCaseAverage = t._fpMatchCaseAverage →
      t'._uiFindNextClickedTotal = t._uiFindNextClickedTotal →
      (logFindSamples samples t')._fpFindStringLengthAverage =
        (logFindSamples samples t)._fpFindStringLengthAverage ∧
      (logFindSamples samples t')._fpDirectionDownAverage =
        (logFindSamples samples t)._fpDirectionDownAverage ∧
      (logFindSamples samples t')._fpMatchCaseAverage =
        (logFindSamples samples t)._fpMatchCaseAverage ∧
      (logFindSamples samples t')._uiFindNextClickedTotal =
        (logFindSamples samples t)._uiFindNextClickedTotal := by
  intro samples
  induction samples with
  | nil => intro t t' h1 h2 h3 h4; exact ⟨h1, h2, h3, h4⟩
  | cons s samples ih =>
    intro t t' h1 h2 h3 h4
    rw [logFindSamples_cons, logFindSamples_cons]
    apply ih
    · show runningAverage _ _ _ _ = runningAverage _ _ _ _
      rw [h1, h4]
    · show runningAverage _ _ _ _ = runningAverage _ _ _ _
      rw [h2, h4]
    · show runningAverage _ _ _ _ = runningAverage _ _ _ _
      rw [h3, h4]
    · show (_ + 1) % _ = (_ + 1) % _
      rw [h4]

end Telemetry

/-- Claim C20. `FindDialogClosed`, in every state, appends one `FindDialogUsed` event
carrying the three averages and the sample count held before the call, sets the three
averages and the sample count to zero and changes nothing else of the aggregator; a
sequence of samples logged afterwards is averaged as on a freshly constructed
aggregator, whatever was sampled before. -/
theorem FindDialogClosed_flushes_and_resets (h : Host) :
    (Telemetry.FindDialogClosed h).events =
      h.events ++ [TraceEvent.FindDialogUsed h.telemetry._fpFindStringLengthAverage
        h.telemetry._fpDirectionDownAverage h.telemetry._fpMatchCaseAverage
        h.telemetry._uiFindNextClickedTotal] ∧
    (Telemetry.FindDialogClosed h).telemetry =
      { h.telemetry with
        _fpFindStringLengthAverage := 0
        _fpDirectionDownAverage := 0
        _fpMatchCaseAverage := 0
        _uiFindNextClickedTotal := 0 } ∧
    (Telemetry.FindDialogClosed h).term = h.term ∧
    ∀ (samples : List FindSample) (K : Capacity) (tStartedAt : Int),
      ((Telemetry.FindDialogClosed h).telemetry.logFindSamples samples)._fpFindStringLengthAverage
        = ((Telemetry.new K tStartedAt).logFindSamples samples)._fpFindStringLengthAverage ∧
      ((Telemetry.FindDialogClosed h).telemetry.logFindSamples samples)._fpDirectionDownAverage
        = ((Telemetry.new K tStartedAt).logFindSamples samples)._fpDirectionDownAverage ∧
      ((Telemetry.FindDialogClosed h).telemetry.logFindSamples samples)._fpMatchCaseAverage
        = ((Telemetry.new K tStartedAt).logFindSamples samples)._fpMatchCaseAverage ∧
      ((Telemetry.FindDialogClosed h).telemetry.logFindSamples samples)._uiFindNextClickedTotal
        = ((Telemetry.new K tStartedAt).logFindSamples samples)._uiFindNextClickedTotal :=
  ⟨rfl, rfl, rfl, fun samples K tStartedAt =>
    Telemetry.logFindSamples_congr samples (Telemetry.new K tStartedAt)
      (Telemetry.FindDialogClosed h).telemetry rfl rfl rfl rfl⟩
theorem TotalCodesForPreviousProcess_folds_witness :
    sampleCapacity.Valid ∧
    ((pendingHost.telemetry._iProcessConnectedCurrently < sampleCapacity.c_iMaxProcessesConnected →
      (Telemetry.TotalCodesForPreviousProcess sampleCapacity pendingHost).telemetry._rguiProcessFileNamesCodesCount
          pendingHost.telemetry._iProcessConnectedCurrently =
        (pendingHost.telemetry._rguiProcessFileNamesCodesCount pendingHost.telemetry._iProcessConnectedCurrently
          + pendingHost.term._uiTimesUsedCurrent) % UINT_MOD ∧
      (Telemetry.TotalCodesForPreviousProcess sampleCapacity pendingHost).telemetry._rguiProcessFileNamesFailedCodesCount
          pendingHost.telemetry._iProcessConnectedCurrently =
        (pendingHost.telemetry._rguiProcessFileNamesFailedCodesCount
          pendingHost.telemetry._iProcessConnectedCurrently + pendingHost.term._uiTimesFailedCurrent) % UINT_MOD ∧
      (Telemetry.TotalCodesForPreviousProcess sampleCapacity
          pendingHost).telemetry._rguiProcessFileNamesFailedOutsideCodesCount
          pendingHost.telemetry._iProcessConnectedCurrently =
        (pendingHost.telemetry._rguiProcessFileNamesFailedOutsideCodesCount
          pendingHost.telemetry._iProcessConnectedCurrently
            + pendingHost.term._uiTimesFailedOutsideRangeCurrent) % UINT_MOD ∧
      (pendingHost.telemetry._rguiProcessFileNamesCodesCount pendingHost.telemetry._iProcessConnectedCurrently
          + pendingHost.term._uiTimesUsedCurrent < UINT_MOD →
        (Telemetry.TotalCodesForPreviousProcess sampleCapacity pendingHost).telemetry._rguiProcessFileNamesCodesCount
            pendingHost.telemetry._iProcessConnectedCurrently =
          pendingHost.telemetry._rguiProcessFileNamesCodesCount pendingHost.telemetry._iProcessConnectedCurrently
            + pendingHost.term._uiTimesUsedCurrent) ∧
      (pendingHost.telemetry._rguiProcessFileNamesFailedCodesCount pendingHost.telemetry._iProcessConnectedCurrently
          + pendingHost.term._uiTimesFailedCurrent < UINT_MOD →
        (Telemetry.TotalCodesForPreviousProcess sampleCapacity
            pendingHost).telemetry._rguiProcessFileNamesFailedCodesCount
            pendingHost.telemetry._iProcessConnectedCurrently =
          pendingHost.telemetry._rguiProcessFileNamesFailedCodesCount
            pendingHost.telemetry._iProcessConnectedCurrently + pendingHost.term._uiTimesFailedCurrent) ∧
      (pendingHost.telemetry._rguiProcessFileNamesFailedOutsideCodesCount
          pendingHost.telemetry._iProcessConnectedCurrently
          + pendingHost.term._uiTimesFailedOutsideRangeCurrent < UINT_MOD →
        (Telemetry.TotalCodesForPreviousProcess sampleCapacity
            pendingHost).telemetry._rguiProcessFileNamesFailedOutsideCodesCount
            pendingHost.telemetry._iProcessConnectedCurrently =
          pendingHost.telemetry._rguiProcessFileNamesFailedOutsideCodesCount
            pendingHost.telemetry._iProcessConnectedCurrently
              + pendingHost.term._uiTimesFailedOutsideRangeCurrent) ∧
      (∀ j, j ≠ pendingHost.telemetry._iProcessConnectedCurrently →
        (Telemetry.TotalCodesForPreviousProcess sampleCapacity pendingHost).telemetry._rguiProcessFileNamesCodesCount j
          = pendingHost.telemetry._rguiProcessFileNamesCodesCount j ∧
        (Telemetry.TotalCodesForPreviousProcess sampleCapacity
            pendingHost).telemetry._rguiProcessFileNamesFailedCodesCount j
          = pendingHost.telemetry._rguiProcessFileNamesFailedCodesCount j ∧
        (Telemetry.TotalCodesForPreviousProcess sampleCapacity
            pendingHost).telemetry._rguiProcessFileNamesFailedOutsideCodesCount j
          = pendingHost.telemetry._rguiProcessFileNamesFailedOutsideCodesCount j) ∧
      (Telemetry.TotalCodesForPreviousProcess sampleCapacity pendingHost).telemetry._iProcessConnectedCurrently
        = SIZE_MAX) ∧
    (pendingHost.telemetry._iProcessConnectedCurrently = SIZE_MAX →
      (Telemetry.TotalCodesForPreviousProcess sampleCapacity pendingHost).telemetry._rguiProcessFileNamesCodesCount
        = pendingHost.telemetry._rguiProcessFileNamesCodesCount ∧
      (Telemetry.TotalCodesForPreviousProcess sampleCapacity pendingHost).telemetry._rguiProcessFileNamesFailedCodesCount
        = pendingHost.telemetry._rguiProcessFileNamesFailedCodesCount ∧
      (Telemetry.TotalCodesForPreviousProcess sampleCapacity
          pendingHost).telemetry._rguiProcessFileNamesFailedOutsideCodesCount
        = pendingHost.telemetry._rguiProcessFileNamesFailedOutsideCodesCount)) :=
  ⟨by decide, TotalCodesForPreviousProcess_folds sampleCapacity (by decide) pendingHost⟩

theorem LogProcessConnected_credits_previous_witness :
    sampleCapacity.Valid ∧ Reachable sampleCapacity pendingHost ∧
    pendingHost.telemetry._iProcessConnectedCurrently = 0 ∧
    0 < pendingHost.telemetry._uiNumberProcessFileNames ∧
    ((Telemetry.LogProcessConnected sampleCapacity true (some ⟨wszPingExe, none⟩) pendingHost).telemetry._rguiProcessFileNamesCodesCount
      = (Telemetry.TotalCodesForPreviousProcess sampleCapacity pendingHost).telemetry._rguiProcessFileNamesCodesCount ∧
    (Telemetry.LogProcessConnected sampleCapacity true (some ⟨wszPingExe, none⟩)
        pendingHost).telemetry._rguiProcessFileNamesFailedCodesCount
      = (Telemetry.TotalCodesForPreviousProcess sampleCapacity
          pendingHost).telemetry._rguiProcessFileNamesFailedCodesCount ∧
    (Telemetry.LogProcessConnected sampleCapacity true (some ⟨wszPingExe, none⟩)
        pendingHost).telemetry._rguiProcessFileNamesFailedOutsideCodesCount
      = (Telemetry.TotalCodesForPreviousProcess sampleCapacity
          pendingHost).telemetry._rguiProcessFileNamesFailedOutsideCodesCount ∧
    (Telemetry.LogProcessConnected sampleCapacity true (some ⟨wszPingExe, none⟩) pendingHost).telemetry._rguiProcessFileNamesCodesCount 0
      = (pendingHost.telemetry._rguiProcessFileNamesCodesCount 0 + pendingHost.term._uiTimesUsedCurrent)
          % UINT_MOD ∧
    (Telemetry.LogProcessConnected sampleCapacity true (some ⟨wszPingExe, none⟩)
        pendingHost).telemetry._rguiProcessFileNamesFailedCodesCount 0
      = (pendingHost.telemetry._rguiProcessFileNamesFailedCodesCount 0 + pendingHost.term._uiTimesFailedCurrent)
          % UINT_MOD ∧
    (Telemetry.LogProcessConnected sampleCapacity true (some ⟨wszPingExe, none⟩)
        pendingHost).telemetry._rguiProcessFileNamesFailedOutsideCodesCount 0
      = (pendingHost.telemetry._rguiProcessFileNamesFailedOutsideCodesCount 0
          + pendingHost.term._uiTimesFailedOutsideRangeCurrent) % UINT_MOD ∧
    ∀ j, j ≠ 0 →
      (Telemetry.LogProcessConnected sampleCapacity true (some ⟨wszPingExe, none⟩)
          pendingHost).telemetry._rguiProcessFileNamesCodesCount j
        = pendingHost.telemetry._rguiProcessFileNamesCodesCount j ∧
      (Telemetry.LogProcessConnected sampleCapacity true (some ⟨wszPingExe, none⟩)
          pendingHost).telemetry._rguiProcessFileNamesFailedCodesCount j
        = pendingHost.telemetry._rguiProcessFileNamesFailedCodesCount j ∧
      (Telemetry.LogProcessConnected sampleCapacity true (some ⟨wszPingExe, none⟩)
          pendingHost).telemetry._rguiProcessFileNamesFailedOutsideCodesCount j
        = pendingHost.telemetry._rguiProcessFileNamesFailedOutsideCodesCount j) :=
  ⟨by decide, ⟨0, _, rfl⟩, by decide, by decide,
    LogProcessConnected_credits_previous sampleCapacity (by decide) pendingHost ⟨0, _, rfl⟩
      (some ⟨wszPingExe, none⟩) 0 (by decide) (by decide)⟩

theorem sampleFindClicks_lengths_exact :
    exactInFloat (sampleFindClicks.map (fun s => (s.uiStringLength : ℚ))) := by
  constructor
  · intro x hx
    simp only [sampleFindClicks, List.map_cons, List.map_nil, List.mem_cons,
      List.mem_singleton, List.not_mem_nil, or_false] at hx
    rcases hx with rfl | rfl
    · exact isFloat32_natCast (by norm_num)
    · exact isFloat32_natCast (by norm_num)
  · intro p hp
    have hmem := (List.mem_inits _ _).mpr hp
    simp only [sampleFindClicks, List.map_cons, List.map_nil, List.inits, List.mem_cons,
      List.mem_singleton, List.not_mem_nil, or_false] at hmem
    rcases hmem with rfl | rfl | rfl
    · exact ⟨⟨0, 0, by norm_num, by norm_num, by norm_num, by norm_num⟩,
        ⟨0, 0, by norm_num, by norm_num, by norm_num, by norm_num⟩,
        ⟨0, 0, by norm_num, by norm_num, by norm_num, by norm_num [mean]⟩⟩
    · exact ⟨⟨1, 0, by norm_num, by norm_num, by norm_num, by norm_num⟩,
        ⟨4, 0, by norm_num, by norm_num, by norm_num, by norm_num⟩,
        ⟨4, 0, by norm_num, by norm_num, by norm_num, by norm_num [mean]⟩⟩
    · exact ⟨⟨2, 0, by norm_num, by norm_num, by norm_num, by norm_num⟩,
        ⟨12, 0, by norm_num, by norm_num, by norm_num, by norm_num⟩,
        ⟨6, 0, by norm_num, by norm_num, by norm_num, by norm_num [mean]⟩⟩

theorem sampleFindClicks_down_exact :
    exactInFloat (sampleFindClicks.map (fun s => boolSample s.fDirectionDown)) := by
  constructor
  · intro x hx
    obtain ⟨s, _, rfl⟩ := List.mem_map.mp hx
    exact isFloat32_boolSample _
  · intro p hp
    have hmem := (List.mem_inits _ _).mpr hp
    simp only [sampleFindClicks, List.map_cons, List.map_nil, List.inits, List.mem_cons,
      List.mem_singleton, List.not_mem_nil, or_false] at hmem
    rcases hmem with rfl | rfl | rfl
    · exact ⟨⟨0, 0, by norm_num, by norm_num, by norm_num, by norm_num⟩,
        ⟨0, 0, by norm_num, by norm_num, by norm_num, by norm_num⟩,
        ⟨0, 0, by norm_num, by norm_num, by norm_num, by norm_num [mean]⟩⟩
    · exact ⟨⟨1, 0, by norm_num, by norm_num, by norm_num, by norm_num⟩,
        ⟨1, 0, by norm_num, by norm_num, by norm_num, by norm_num [boolSample]⟩,
        ⟨1, 0, by norm_num, by norm_num, by norm_num, by norm_num [mean, boolSample]⟩⟩
    · exact ⟨⟨2, 0, by norm_num, by norm_num, by norm_num, by norm_num⟩,
        ⟨1, 0, by norm_num, by norm_num, by norm_num, by norm_num [boolSample]⟩,
        ⟨1, -1, by norm_num, by norm_num, by norm_num, by norm_num [mean, boolSample]⟩⟩

theorem sampleFindClicks_match_exact :
    exactInFloat (sampleFindClicks.map (fun s => boolSample s.fMatchCase)) := by
  constructor
  · intro x hx
    obtain ⟨s, _, rfl⟩ := List.mem_map.mp hx
    exact isFloat32_boolSample _
  · intro p hp
    have hmem := (List.mem_inits _ _).mpr hp
    simp only [sampleFindClicks, List.map_cons, List.map_nil, List.inits, List.mem_cons,
      List.mem_singleton, List.not_mem_nil, or_false] at hmem
    rcases hmem with rfl | rfl | rfl
    · exact ⟨⟨0, 0, by norm_num, by norm_num, by norm_num, by norm_num⟩,
        ⟨0, 0, by norm_num, by norm_num, by norm_num, by norm_num⟩,
        ⟨0, 0, by norm_num, by norm_num, by norm_num, by norm_num [mean]⟩⟩
    · exact ⟨⟨1, 0, by norm_num, by norm_num, by norm_num, by norm_num⟩,
        ⟨0, 0, by norm_num, by norm_num, by norm_num, by norm_num [boolSample]⟩,
        ⟨0, 0, by norm_num, by norm_num, by norm_num, by norm_num [mean, boolSample]⟩⟩
    · exact ⟨⟨2, 0, by norm_num, by norm_num, by norm_num, by norm_num⟩,
        ⟨1, 0, by norm_num, by norm_num, by norm_num, by norm_num [boolSample]⟩,
        ⟨1, -1, by norm_num, by norm_num, by norm_num, by norm_num [mean, boolSample]⟩⟩

theorem LogFindDialogNextClicked_running_mean_witness :
    sampleFindClicks ≠ [] ∧ sampleFindClicks.length < UINT_MOD ∧
    (Telemetry.new sampleCapacity 0)._uiFindNextClickedTotal = 0 ∧
    (Telemetry.new sampleCapacity 0)._fpFindStringLengthAverage = 0 ∧
    (Telemetry.new sampleCapacity 0)._fpDirectionDownAverage = 0 ∧
    (Telemetry.new sampleCapacity 0)._fpMatchCaseAverage = 0 ∧
    exactInFloat (sampleFindClicks.map (fun s => (s.uiStringLength : ℚ))) ∧
    exactInFloat (sampleFindClicks.map (fun s => boolSample s.fDirectionDown)) ∧
    exactInFloat (sampleFindClicks.map (fun s => boolSample s.fMatchCase)) ∧
    (((Telemetry.new sampleCapacity 0).logFindSamples sampleFindClicks)._fpFindStringLengthAverage =
      mean (sampleFindClicks.map (fun s => (s.uiStringLength : ℚ))) ∧
    ((Telemetry.new sampleCapacity 0).logFindSamples sampleFindClicks)._fpDirectionDownAverage =
      mean (sampleFindClicks.map (fun s => boolSample s.fDirectionDown)) ∧
    ((Telemetry.new sampleCapacity 0).logFindSamples sampleFindClicks)._fpMatchCaseAverage =
      mean (sampleFindClicks.map (fun s => boolSample s.fMatchCase)) ∧
    ((Telemetry.new sampleCapacity 0).logFindSamples sampleFindClicks)._uiFindNextClickedTotal = sampleFindClicks.length) ∧
    mean (sampleFindClicks.map (fun s => (s.uiStringLength : ℚ))) = 6 ∧
    mean (sampleFindClicks.map (fun s => boolSample s.fDirectionDown)) = 1 / 2 ∧
    mean (sampleFindClicks.map (fun s => boolSample s.fMatchCase)) = 1 / 2 ∧
    sampleFindClicks.length = 2 :=
  ⟨List.cons_ne_nil _ _, by decide, rfl, rfl, rfl, rfl,
    sampleFindClicks_lengths_exact, sampleFindClicks_down_exact, sampleFindClicks_match_exact,
    ⟨(LogFindDialogNextClicked_running_mean sampleFindClicks (Telemetry.new sampleCapacity 0)
        (List.cons_ne_nil _ _) (by decide) rfl rfl rfl rfl).2.1 sampleFindClicks_lengths_exact,
      (LogFindDialogNextClicked_running_mean sampleFindClicks (Telemetry.new sampleCapacity 0)
        (List.cons_ne_nil _ _) (by decide) rfl rfl rfl rfl).2.2.1 sampleFindClicks_down_exact,
      (LogFindDialogNextClicked_running_mean sampleFindClicks (Telemetry.new sampleCapacity 0)
        (List.cons_ne_nil _ _) (by decide) rfl rfl rfl rfl).2.2.2 sampleFindClicks_match_exact,
      (LogFindDialogNextClicked_running_mean sampleFindClicks (Telemetry.new sampleCapacity 0)
        (List.cons_ne_nil _ _) (by decide) rfl rfl rfl rfl).1⟩,
    by norm_num [mean, sampleFindClicks, boolSample],
    by norm_num [mean, sampleFindClicks, boolSample],
    by norm_num [mean, sampleFindClicks, boolSample], rfl⟩

/-- Counterexample to claim C15 as stated: after Find Next on strings of 1, 2 and 2
characters the average length held is `13981013 / 8388608`, the `float` nearest to
`5 / 3` (1.66666662...), not the mean `5 / 3` of the samples. -/
theorem running_average_is_rounded :
    ((Telemetry.new sampleCapacity 0).logFindSamples
      roundedFindClicks)._fpFindStringLengthAverage = 13981013 / 8388608 ∧
    mean (roundedFindClicks.map (fun s => (s.uiStringLength : ℚ))) = 5 / 3 ∧
    ((Telemetry.new sampleCapacity 0).logFindSamples
      roundedFindClicks)._fpFindStringLengthAverage ≠
        mean (roundedFindClicks.map (fun s => (s.uiStringLength : ℚ))) := by
  have r0 : roundToFloat (0 : ℚ) = 0 := roundToFloat_zero
  have r1 : roundToFloat (1 : ℚ) = 1 :=
    roundToFloat_of_isFloat32 ⟨1, 0, by norm_num, by norm_num, by norm_num, by norm_num⟩
  have r2 : roundToFloat (2 : ℚ) = 2 :=
    roundToFloat_of_isFloat32 ⟨2, 0, by norm_num, by norm_num, by norm_num, by norm_num⟩
  have r3 : roundToFloat (3 : ℚ) = 3 :=
    roundToFloat_of_isFloat32 ⟨3, 0, by norm_num, by norm_num, by norm_num, by norm_num⟩
  have r5 : roundToFloat (5 : ℚ) = 5 :=
    roundToFloat_of_isFloat32 ⟨5, 0, by norm_num, by norm_num, by norm_num, by norm_num⟩
  have r32 : roundToFloat (3 / 2 : ℚ) = 3 / 2 :=
    roundToFloat_of_isFloat32 ⟨3, -1, by norm_num, by norm_num, by norm_num, by norm_num⟩
  have r53 : roundToFloat (5 / 3 : ℚ) = 13981013 / 8388608 := by
    rw [roundToFloat_of_near (e := 0) (m := 13981013) (by norm_num)
      (by norm_num [abs_of_pos]) (by norm_num [abs_of_pos]) (by norm_num) (by norm_num)]
    norm_num
  have e1 : Telemetry.runningAverage 0 0 1 1 = 1 := by
    norm_num [Telemetry.runningAverage, r0, r1]
  have e2 : Telemetry.runningAverage 1 1 2 2 = 3 / 2 := by
    norm_num [Telemetry.runningAverage, r1, r2, r3, r32]
  have e3 : Telemetry.runningAverage (3 / 2) 2 2 3 = 13981013 / 8388608 := by
    norm_num [Telemetry.runningAverage, r2, r3, r5, r53]
  have hval : ((Telemetry.new sampleCapacity 0).logFindSamples
      roundedFindClicks)._fpFindStringLengthAverage = 13981013 / 8388608 := by
    norm_num [Telemetry.logFindSamples, roundedFindClicks, Telemetry.LogFindDialogNextClicked,
      Telemetry.new, UINT_MOD, e1, e2, e3]
  have hmean : mean (roundedFindClicks.map (fun s => (s.uiStringLength : ℚ))) = 5 / 3 := by
    norm_num [mean, roundedFindClicks]
  refine ⟨hval, hmean, ?_⟩
  rw [hval, hmean]
  norm_num

theorem WriteFinalTraceLog_folds_before_record_witness :
    pendingHost.telemetry._fUserInteractiveForTelemetry = true ∧
    (∃ (codes failed outside : List Nat) (rest : List TraceEvent),
      (Telemetry.WriteFinalTraceLog sampleCapacity true 60 sampleConsole pendingHost).events =
        pendingHost.events ++
          TraceEvent.SessionEnding pendingHost.telemetry._fBashUsed pendingHost.telemetry._fCtrlPgUpPgDnUsed
            pendingHost.telemetry._fKeyboardTextEditingUsed pendingHost.telemetry._fKeyboardTextSelectionUsed
            sampleConsole.fLinkTitleIsNull
            (pendingHost.telemetry._wchProcessFileNames.take pendingHost.telemetry._iProcessFileNamesNext)
            (arrayPrefix pendingHost.telemetry._rguiProcessFileNamesCount
              pendingHost.telemetry._uiNumberProcessFileNames)
            codes failed outside (toInt32 pendingHost.telemetry._tStartedAt) (toInt32 60) ::
              rest ∧
      codes.length = pendingHost.telemetry._uiNumberProcessFileNames ∧
      failed.length = pendingHost.telemetry._uiNumberProcessFileNames ∧
      outside.length = pendingHost.telemetry._uiNumberProcessFileNames ∧
      (∀ i, i < pendingHost.telemetry._uiNumberProcessFileNames →
        codes[i]? = some
          (if i = pendingHost.telemetry._iProcessConnectedCurrently ∧
              pendingHost.telemetry._iProcessConnectedCurrently < sampleCapacity.c_iMaxProcessesConnected then
            (pendingHost.telemetry._rguiProcessFileNamesCodesCount i + pendingHost.term._uiTimesUsedCurrent)
              % UINT_MOD
          else pendingHost.telemetry._rguiProcessFileNamesCodesCount i) ∧
        failed[i]? = some
          (if i = pendingHost.telemetry._iProcessConnectedCurrently ∧
              pendingHost.telemetry._iProcessConnectedCurrently < sampleCapacity.c_iMaxProcessesConnected then
            (pendingHost.telemetry._rguiProcessFileNamesFailedCodesCount i + pendingHost.term._uiTimesFailedCurrent)
              % UINT_MOD
          else pendingHost.telemetry._rguiProcessFileNamesFailedCodesCount i) ∧
        outside[i]? = some
          (if i = pendingHost.telemetry._iProcessConnectedCurrently ∧
              pendingHost.telemetry._iProcessConnectedCurrently < sampleCapacity.c_iMaxProcessesConnected then
            (pendingHost.telemetry._rguiProcessFileNamesFailedOutsideCodesCount i
              + pendingHost.term._uiTimesFailedOutsideRangeCurrent) % UINT_MOD
          else pendingHost.telemetry._rguiProcessFileNamesFailedOutsideCodesCount i)) ∧
      (Telemetry.WriteFinalTraceLog sampleCapacity true 60 sampleConsole pendingHost).term._uiTimesUsedCurrent = 0 ∧
      (Telemetry.WriteFinalTraceLog sampleCapacity true 60 sampleConsole pendingHost).term._uiTimesFailedCurrent = 0 ∧
      (Telemetry.WriteFinalTraceLog sampleCapacity true 60 sampleConsole pendingHost).term._uiTimesFailedOutsideRangeCurrent
        = 0) ∧
    toInt32 60 = 60 ∧ toInt32 2147483653 = -2147483643 ∧ toInt32 4294967301 = 5 :=
  ⟨by decide,
    WriteFinalTraceLog_folds_before_record sampleCapacity 60 sampleConsole pendingHost
      (by decide),
    by decide, by decide, by decide⟩

/-! ## Case-insensitive lookup -/

theorem wcsnicmp_sameUpToCase {a b : List Nat} (hab : sameUpToCase a b) (c : List Nat)
    (n : Nat) : wcsnicmp a c n = wcsnicmp b c n := by
  induction n generalizing a b c with
  | zero => simp [wcsnicmp]
  | succ n ih =>
    rw [wcsnicmp_succ, wcsnicmp_succ]
    unfold sameUpToCase at hab
    cases a with
    | nil =>
      cases b with
      | nil => rfl
      | cons y b => simp at hab
    | cons x a =>
      cases b with
      | nil => simp at hab
      | cons y b =>
        simp only [List.map_cons, List.cons.injEq] at hab
        simp only [List.headD_cons, List.tail_cons, hab.1]
        rw [ih (a := a) (b := b) hab.2]

theorem wcsnicmp_sameUpToCase_right {a b : List Nat} (hab : sameUpToCase a b) (c : List Nat)
    (n : Nat) : wcsnicmp c a n = wcsnicmp c b n := by
  rw [wcsnicmp_swap a c, wcsnicmp_swap b c, wcsnicmp_sameUpToCase hab]

theorem wcslen_sameUpToCase {a b : List Nat} (hab : sameUpToCase a b) :
    wcslen a = wcslen b := by
  unfold wcslen
  induction a generalizing b with
  | nil =>
    cases b with
    | nil => rfl
    | cons y b => simp [sameUpToCase] at hab
  | cons x a ih =>
    cases b with
    | nil => simp [sameUpToCase] at hab
    | cons y b =>
      simp only [sameUpToCase, List.map_cons, List.cons.injEq] at hab
      have hxy : x = 0 ↔ y = 0 := by
        rw [← towlower_eq_zero, hab.1, towlower_eq_zero]
      rw [wcstr_cons, wcstr_cons]
      by_cases hx : x = 0
      · rw [if_pos hx, if_pos (hxy.mp hx)]
      · rw [if_neg hx, if_neg (fun hy => hx (hxy.mpr hy)), List.length_cons, List.length_cons,
          ih hab.2]

namespace Telemetry

theorem FindProcessName.loop_sameUpToCase (t : Telemetry) {x y : List Nat}
    (hxy : sameUpToCase x y) :
    ∀ (fuel : Nat) (iMin iMax iMid result : Int),
      FindProcessName.loop t x fuel iMin iMax iMid result =
        FindProcessName.loop t y fuel iMin iMax iMid result := by
  intro fuel
  induction fuel with
  | zero => intros; rfl
  | succ fuel ih =>
    intro iMin iMax iMid result
    simp only [FindProcessName.loop, wcsnicmp_sameUpToCase hxy, ih]

theorem FindProcessName_sameUpToCase (t : Telemetry) {x y : List Nat}
    (hxy : sameUpToCase x y) : FindProcessName t x = FindProcessName t y := by
  unfold FindProcessName
  exact FindProcessName.loop_sameUpToCase t hxy _ _ _ _ _

theorem StringCchCopyW_fst_sameUpToCase (buf : List Nat) (dest cchDest : Nat) {x y : List Nat}
    (hxy : sameUpToCase x y) :
    (StringCchCopyW buf dest cchDest x).1 = (StringCchCopyW buf dest cchDest y).1 := by
  unfold StringCchCopyW
  rw [wcslen_sameUpToCase hxy]
  split
  · rfl
  · split <;> rfl

end Telemetry

/-- Claim C21. For every table state and every two names that are equal up to letter
case, `FindProcessName` returns the same found flag and the same position; so a
`LogProcessConnected` call with either name attributes the same slot and leaves the
same count, alphabetical index and connection counts. -/
theorem FindProcessName_case_insensitive (K : Capacity) (fEnabled : Bool) (h : Host)
    (x y : List Nat) (fSameRoot : Option Bool) (hxy : sameUpToCase x y) :
    h.telemetry.FindProcessName x = h.telemetry.FindProcessName y ∧
    (Telemetry.LogProcessConnected K fEnabled (some ⟨x, fSameRoot⟩)
        h).telemetry._iProcessConnectedCurrently =
      (Telemetry.LogProcessConnected K fEnabled (some ⟨y, fSameRoot⟩)
        h).telemetry._iProcessConnectedCurrently ∧
    (Telemetry.LogProcessConnected K fEnabled (some ⟨x, fSameRoot⟩)
        h).telemetry._uiNumberProcessFileNames =
      (Telemetry.LogProcessConnected K fEnabled (some ⟨y, fSameRoot⟩)
        h).telemetry._uiNumberProcessFileNames ∧
    (Telemetry.LogProcessConnected K fEnabled (some ⟨x, fSameRoot⟩)
        h).telemetry._rgiAlphabeticalIndex =
      (Telemetry.LogProcessConnected K fEnabled (some ⟨y, fSameRoot⟩)
        h).telemetry._rgiAlphabeticalIndex ∧
    (Telemetry.LogProcessConnected K fEnabled (some ⟨x, fSameRoot⟩)
        h).telemetry._rguiProcessFileNamesCount =
      (Telemetry.LogProcessConnected K fEnabled (some ⟨y, fSameRoot⟩)
        h).telemetry._rguiProcessFileNamesCount := by
  refine ⟨Telemetry.FindProcessName_sameUpToCase _ hxy, ?_⟩
  cases fEnabled with
  | false => exact ⟨rfl, rfl, rfl, rfl⟩
  | true =>
    have hfind := Telemetry.FindProcessName_sameUpToCase
      (Telemetry.TotalCodesForPreviousProcess K h).telemetry hxy
    have hcopy := Telemetry.StringCchCopyW_fst_sameUpToCase
      (Telemetry.TotalCodesForPreviousProcess K h).telemetry._wchProcessFileNames
      (Telemetry.TotalCodesForPreviousProcess K h).telemetry._iProcessFileNamesNext
      (K.cchProcessFileNames -
        (Telemetry.TotalCodesForPreviousProcess K h).telemetry._iProcessFileNamesNext - 1) hxy
    simp only [Telemetry.LogProcessConnected, if_true, hfind, hcopy]
    cases Telemetry.FindProcessName (Telemetry.TotalCodesForPreviousProcess K h).telemetry y with
    | none => exact ⟨rfl, rfl, rfl, rfl⟩
    | some r =>
      obtain ⟨found, p⟩ := r
      cases found with
      | true => exact ⟨rfl, rfl, rfl, rfl⟩
      | false =>
        dsimp only
        split
        · split <;> exact ⟨rfl, rfl, rfl, rfl⟩
        · exact ⟨rfl, rfl, rfl, rfl⟩

set_option maxRecDepth 100000 in
theorem FindProcessName_case_insensitive_witness :
    sameUpToCase wszBashExe wszBashExeUpper ∧
    (sampleHost.telemetry.FindProcessName wszBashExe = sampleHost.telemetry.FindProcessName wszBashExeUpper ∧
    (Telemetry.LogProcessConnected sampleCapacity true (some ⟨wszBashExe, none⟩)
        sampleHost).telemetry._iProcessConnectedCurrently =
      (Telemetry.LogProcessConnected sampleCapacity true (some ⟨wszBashExeUpper, none⟩)
        sampleHost).telemetry._iProcessConnectedCurrently ∧
    (Telemetry.LogProcessConnected sampleCapacity true (some ⟨wszBashExe, none⟩)
        sampleHost).telemetry._uiNumberProcessFileNames =
      (Telemetry.LogProcessConnected sampleCapacity true (some ⟨wszBashExeUpper, none⟩)
        sampleHost).telemetry._uiNumberProcessFileNames ∧
    (Telemetry.LogProcessConnected sampleCapacity true (some ⟨wszBashExe, none⟩)
        sampleHost).telemetry._rgiAlphabeticalIndex =
      (Telemetry.LogProcessConnected sampleCapacity true (some ⟨wszBashExeUpper, none⟩)
        sampleHost).telemetry._rgiAlphabeticalIndex ∧
    (Telemetry.LogProcessConnected sampleCapacity true (some ⟨wszBashExe, none⟩)
        sampleHost).telemetry._rguiProcessFileNamesCount =
      (Telemetry.LogProcessConnected sampleCapacity true (some ⟨wszBashExeUpper, none⟩)
        sampleHost).telemetry._rguiProcessFileNamesCount) ∧
    sampleHost.telemetry.FindProcessName wszBashExeUpper = some (true, 0) :=
  ⟨by decide,
    FindProcessName_case_insensitive sampleCapacity true sampleHost wszBashExe wszBashExeUpper
      none (by decide),
    by decide⟩

/-! ## Unresolved connections -/

/-- Claim C22. In a reachable state, a sampled `LogProcessConnected` whose
`QueryFullProcessImageName` fails leaves the table of process names (count,
alphabetical index, offsets, packed buffer, write cursor, connection counts) and the
five usage flags unchanged and leaves no process attributed (`SIZE_MAX`); whatever the
pending counters hold at the next `TotalCodesForPreviousProcess`, that fold changes no
code counter of any slot. -/
theorem LogProcessConnected_unresolved_drops (K : Capacity) (hK : K.Valid) (h : Host)
    (hr : Reachable K h) :
    (Telemetry.LogProcessConnected K true none h).telemetry._uiNumberProcessFileNames =
      h.telemetry._uiNumberProcessFileNames ∧
    (Telemetry.LogProcessConnected K true none h).telemetry._rgiAlphabeticalIndex =
      h.telemetry._rgiAlphabeticalIndex ∧
    (Telemetry.LogProcessConnected K true none h).telemetry._rgiProccessFileNameIndex =
      h.telemetry._rgiProccessFileNameIndex ∧
    (Telemetry.LogProcessConnected K true none h).telemetry._wchProcessFileNames =
      h.telemetry._wchProcessFileNames ∧
    (Telemetry.LogProcessConnected K true none h).telemetry._iProcessFileNamesNext =
      h.telemetry._iProcessFileNamesNext ∧
    (Telemetry.LogProcessConnected K true none h).telemetry._rguiProcessFileNamesCount =
      h.telemetry._rguiProcessFileNamesCount ∧
    (Telemetry.LogProcessConnected K true none h).telemetry._fBashUsed =
      h.telemetry._fBashUsed ∧
    (Telemetry.LogProcessConnected K true none h).telemetry._fCtrlPgUpPgDnUsed =
      h.telemetry._fCtrlPgUpPgDnUsed ∧
    (Telemetry.LogProcessConnected K true none h).telemetry._fKeyboardTextEditingUsed =
      h.telemetry._fKeyboardTextEditingUsed ∧
    (Telemetry.LogProcessConnected K true none h).telemetry._fKeyboardTextSelectionUsed =
      h.telemetry._fKeyboardTextSelectionUsed ∧
    (Telemetry.LogProcessConnected K true none h).telemetry._fUserInteractiveForTelemetry =
      h.telemetry._fUserInteractiveForTelemetry ∧
    (Telemetry.LogProcessConnected K true none h).telemetry._iProcessConnectedCurrently =
      SIZE_MAX ∧
    ∀ pending : TermTelemetry,
      (Telemetry.TotalCodesForPreviousProcess K
          { Telemetry.LogProcessConnected K true none h with term := pending }).telemetry
        = (Telemetry.LogProcessConnected K true none h).telemetry := by
  have hi := hr.inv hK
  have hcur := Telemetry.TotalCodes_current K hK h hi
  obtain ⟨c1, c2, c3, cur, heq, _⟩ := Telemetry.TotalCodes_frame K h
  rw [Telemetry.LogProcessConnected_unresolved]
  have hdrop : ∀ pending : TermTelemetry,
      (Telemetry.TotalCodesForPreviousProcess K
          { Telemetry.TotalCodesForPreviousProcess K h with term := pending }).telemetry
        = (Telemetry.TotalCodesForPreviousProcess K h).telemetry := by
    intro pending
    apply Telemetry.TotalCodes_of_not_attributed
    show ¬ (Telemetry.TotalCodesForPreviousProcess K h).telemetry._iProcessConnectedCurrently
      < K.c_iMaxProcessesConnected
    have hv := hK.2.2
    rw [hcur]; simp only [SIZE_MAX]; omega
  refine ⟨?_, ?_, ?_, ?_, ?_, ?_, ?_, ?_, ?_, ?_, ?_, hcur, hdrop⟩
  all_goals (rw [heq])

theorem LogProcessConnected_unresolved_drops_witness :
    sampleCapacity.Valid ∧ Reachable sampleCapacity sampleHost ∧
    ((Telemetry.LogProcessConnected sampleCapacity true none sampleHost).telemetry._uiNumberProcessFileNames =
      sampleHost.telemetry._uiNumberProcessFileNames ∧
    (Telemetry.LogProcessConnected sampleCapacity true none sampleHost).telemetry._rgiAlphabeticalIndex =
      sampleHost.telemetry._rgiAlphabeticalIndex ∧
    (Telemetry.LogProcessConnected sampleCapacity true none sampleHost).telemetry._rgiProccessFileNameIndex =
      sampleHost.telemetry._rgiProccessFileNameIndex ∧
    (Telemetry.LogProcessConnected sampleCapacity true none sampleHost).telemetry._wchProcessFileNames =
      sampleHost.telemetry._wchProcessFileNames ∧
    (Telemetry.LogProcessConnected sampleCapacity true none sampleHost).telemetry._iProcessFileNamesNext =
      sampleHost.telemetry._iProcessFileNamesNext ∧
    (Telemetry.LogProcessConnected sampleCapacity true none sampleHost).telemetry._rguiProcessFileNamesCount =
      sampleHost.telemetry._rguiProcessFileNamesCount ∧
    (Telemetry.LogProcessConnected sampleCapacity true none sampleHost).telemetry._fBashUsed =
      sampleHost.telemetry._fBashUsed ∧
    (Telemetry.LogProcessConnected sampleCapacity true none sampleHost).telemetry._fCtrlPgUpPgDnUsed =
      sampleHost.telemetry._fCtrlPgUpPgDnUsed ∧
    (Telemetry.LogProcessConnected sampleCapacity true none sampleHost).telemetry._fKeyboardTextEditingUsed =
      sampleHost.telemetry._fKeyboardTextEditingUsed ∧
    (Telemetry.LogProcessConnected sampleCapacity true none sampleHost).telemetry._fKeyboardTextSelectionUsed =
      sampleHost.telemetry._fKeyboardTextSelectionUsed ∧
    (Telemetry.LogProcessConnected sampleCapacity true none sampleHost).telemetry._fUserInteractiveForTelemetry =
      sampleHost.telemetry._fUserInteractiveForTelemetry ∧
    (Telemetry.LogProcessConnected sampleCapacity true none sampleHost).telemetry._iProcessConnectedCurrently =
      SIZE_MAX ∧
    ∀ pending : TermTelemetry,
      (Telemetry.TotalCodesForPreviousProcess sampleCapacity
          { Telemetry.LogProcessConnected sampleCapacity true none sampleHost with term := pending }).telemetry
        = (Telemetry.LogProcessConnected sampleCapacity true none sampleHost).telemetry) :=
  ⟨by decide, ⟨0, sampleSession, rfl⟩,
    LogProcessConnected_unresolved_drops sampleCapacity (by decide) sampleHost
      ⟨0, sampleSession, rfl⟩⟩

/-! ## Usage flags -/

namespace Telemetry

theorem TotalCodes_flags (K : Capacity) (h : Host) :
    (TotalCodesForPreviousProcess K h).telemetry._fBashUsed = h.telemetry._fBashUsed ∧
    (TotalCodesForPreviousProcess K h).telemetry._fCtrlPgUpPgDnUsed =
      h.telemetry._fCtrlPgUpPgDnUsed ∧
    (TotalCodesForPreviousProcess K h).telemetry._fKeyboardTextEditingUsed =
      h.telemetry._fKeyboardTextEditingUsed ∧
    (TotalCodesForPreviousProcess K h).telemetry._fKeyboardTextSelectionUsed =
      h.telemetry._fKeyboardTextSelectionUsed ∧
    (TotalCodesForPreviousProcess K h).telemetry._fUserInteractiveForTelemetry =
      h.telemetry._fUserInteractiveForTelemetry := by
  obtain ⟨c1, c2, c3, cur, heq, _⟩ := TotalCodes_frame K h
  rw [heq]
  exact ⟨rfl, rfl, rfl, rfl, rfl⟩

theorem fBashUsed_of_true {t : Telemetry} (img : ProcessImage) (hb : t._fBashUsed = true) :
    LogProcessConnected.fBashUsed t img = true := by
  unfold LogProcessConnected.fBashUsed
  rw [if_neg (by rw [hb]; simp)]
  exact hb

theorem LogProcessConnected_flags (K : Capacity) (fEnabled : Bool)
    (hProcess : Option ProcessImage) (h : Host) :
    (h.telemetry._fBashUsed = true →
      (LogProcessConnected K fEnabled hProcess h).telemetry._fBashUsed = true) ∧
    (LogProcessConnected K fEnabled hProcess h).telemetry._fCtrlPgUpPgDnUsed =
      h.telemetry._fCtrlPgUpPgDnUsed ∧
    (LogProcessConnected K fEnabled hProcess h).telemetry._fKeyboardTextEditingUsed =
      h.telemetry._fKeyboardTextEditingUsed ∧
    (LogProcessConnected K fEnabled hProcess h).telemetry._fKeyboardTextSelectionUsed =
      h.telemetry._fKeyboardTextSelectionUsed ∧
    (LogProcessConnected K fEnabled hProcess h).telemetry._fUserInteractiveForTelemetry =
      h.telemetry._fUserInteractiveForTelemetry := by
  obtain ⟨f1, f2, f3, f4, f5⟩ := TotalCodes_flags K h
  cases fEnabled with
  | false => rw [LogProcessConnected_disabled]; exact ⟨id, rfl, rfl, rfl, rfl⟩
  | true =>
    cases hProcess with
    | none =>
      rw [LogProcessConnected_unresolved]
      exact ⟨fun hb => f1.trans hb, f2, f3, f4, f5⟩
    | some img =>
      cases hfp : FindProcessName (TotalCodesForPreviousProcess K h).telemetry
          img.pwszFileName with
      | none =>
        simp only [LogProcessConnected, if_true, hfp]
        exact ⟨fun hb => f1.trans hb, f2, f3, f4, f5⟩
      | some r =>
        obtain ⟨found, p⟩ := r
        cases found with
        | true =>
          rw [LogProcessConnected_hit hfp]
          exact ⟨fun hb => f1.trans hb, f2, f3, f4, f5⟩
        | false =>
          by_cases hg : (TotalCodesForPreviousProcess K h).telemetry._uiNumberProcessFileNames
              < K.c_iMaxProcessesConnected ∧
            (TotalCodesForPreviousProcess K h).telemetry._iProcessFileNamesNext
              < K.cchProcessFileNames - 10
          · have hflag : h.telemetry._fBashUsed = true →
                LogProcessConnected.fBashUsed (TotalCodesForPreviousProcess K h).telemetry img
                  = true := fun hb => fBashUsed_of_true img (f1.trans hb)
            simp only [LogProcessConnected, if_true, hfp, if_pos hg]
            split
            · exact ⟨hflag, f2, f3, f4, f5⟩
            · exact ⟨hflag, f2, f3, f4, f5⟩
          · rw [LogProcessConnected_full hfp hg]
            exact ⟨fun hb => f1.trans hb, f2, f3, f4, f5⟩

theorem WriteFinalTraceLog_flags (K : Capacity) (fEnabled : Bool) (tEndedAt : Int)
    (ci : ConsoleInformation) (h : Host) :
    (WriteFinalTraceLog K fEnabled tEndedAt ci h).telemetry._fBashUsed = h.telemetry._fBashUsed ∧
    (WriteFinalTraceLog K fEnabled tEndedAt ci h).telemetry._fCtrlPgUpPgDnUsed =
      h.telemetry._fCtrlPgUpPgDnUsed ∧
    (WriteFinalTraceLog K fEnabled tEndedAt ci h).telemetry._fKeyboardTextEditingUsed =
      h.telemetry._fKeyboardTextEditingUsed ∧
    (WriteFinalTraceLog K fEnabled tEndedAt ci h).telemetry._fKeyboardTextSelectionUsed =
      h.telemetry._fKeyboardTextSelectionUsed ∧
    (WriteFinalTraceLog K fEnabled tEndedAt ci h).telemetry._fUserInteractiveForTelemetry =
      h.telemetry._fUserInteractiveForTelemetry := by
  obtain ⟨c1, c2, c3, cur, heq, _⟩ := WriteFinalTraceLog_frame K fEnabled tEndedAt ci h
  rw [heq]
  exact ⟨rfl, rfl, rfl, rfl, rfl⟩

end Telemetry

theorem step_flags (K : Capacity) (op : Op) (h : Host) :
    (h.telemetry._fBashUsed = true → (step K op h).telemetry._fBashUsed = true) ∧
    (h.telemetry._fCtrlPgUpPgDnUsed = true →
      (step K op h).telemetry._fCtrlPgUpPgDnUsed = true) ∧
    (h.telemetry._fKeyboardTextEditingUsed = true →
      (step K op h).telemetry._fKeyboardTextEditingUsed = true) ∧
    (h.telemetry._fKeyboardTextSelectionUsed = true →
      (step K op h).telemetry._fKeyboardTextSelectionUsed = true) ∧
    (h.telemetry._fUserInteractiveForTelemetry = true →
      (step K op h).telemetry._fUserInteractiveForTelemetry = true) := by
  cases op with
  | LogProcessConnected fEnabled hProcess =>
    obtain ⟨g1, g2, g3, g4, g5⟩ := Telemetry.LogProcessConnected_flags K fEnabled hProcess h
    exact ⟨g1, fun hb => g2.trans hb, fun hb => g3.trans hb, fun hb => g4.trans hb,
      fun hb => g5.trans hb⟩
  | WriteFinalTraceLog fEnabled tEndedAt ci =>
    obtain ⟨g1, g2, g3, g4, g5⟩ := Telemetry.WriteFinalTraceLog_flags K fEnabled tEndedAt ci h
    exact ⟨fun hb => g1.trans hb, fun hb => g2.trans hb, fun hb => g3.trans hb,
      fun hb => g4.trans hb, fun hb => g5.trans hb⟩
  | LogApiCall api fUnicode => cases fUnicode <;> exact ⟨id, id, id, id, id⟩
  | SetUserInteractive => exact ⟨id, id, id, id, fun _ => rfl⟩
  | SetCtrlPgUpPgDnUsed => exact ⟨id, fun _ => rfl, id, id, fun _ => rfl⟩
  | SetWindowSizeChanged => exact ⟨id, id, id, id, fun _ => rfl⟩
  | SetContextMenuUsed => exact ⟨id, id, id, id, fun _ => rfl⟩
  | SetKeyboardTextSelectionUsed => exact ⟨id, id, id, fun _ => rfl, fun _ => rfl⟩
  | SetKeyboardTextEditingUsed => exact ⟨id, id, fun _ => rfl, id, fun _ => rfl⟩
  | _ => exact ⟨id, id, id, id, id⟩

/-- Claim C23. Each of the five usage flags (`_fBashUsed`, `_fCtrlPgUpPgDnUsed`,
`_fKeyboardTextEditingUsed`, `_fKeyboardTextSelectionUsed` and
`_fUserInteractiveForTelemetry`) is monotonic: from any state in which the flag is
true, it is still true after any sequence of operations, `WriteFinalTraceLog` and
`FindDialogClosed` included. -/
theorem usage_flags_monotonic (K : Capacity) (ops : List Op) (h : Host) :
    (h.telemetry._fBashUsed = true → (run K ops h).telemetry._fBashUsed = true) ∧
    (h.telemetry._fCtrlPgUpPgDnUsed = true →
      (run K ops h).telemetry._fCtrlPgUpPgDnUsed = true) ∧
    (h.telemetry._fKeyboardTextEditingUsed = true →
      (run K ops h).telemetry._fKeyboardTextEditingUsed = true) ∧
    (h.telemetry._fKeyboardTextSelectionUsed = true →
      (run K ops h).telemetry._fKeyboardTextSelectionUsed = true) ∧
    (h.telemetry._fUserInteractiveForTelemetry = true →
      (run K ops h).telemetry._fUserInteractiveForTelemetry = true) := by
  induction ops generalizing h with
  | nil => exact ⟨id, id, id, id, id⟩
  | cons op ops ih =>
    obtain ⟨s1, s2, s3, s4, s5⟩ := step_flags K op h
    obtain ⟨r1, r2, r3, r4, r5⟩ := ih (step K op h)
    rw [run_cons]
    exact ⟨fun hb => r1 (s1 hb), fun hb => r2 (s2 hb), fun hb => r3 (s3 hb),
      fun hb => r4 (s4 hb), fun hb => r5 (s5 hb)⟩

set_option maxRecDepth 100000 in
theorem usage_flags_monotonic_witness :
    (flaggedHost.telemetry._fBashUsed = true ∧
      flaggedHost.telemetry._fCtrlPgUpPgDnUsed = true ∧
      flaggedHost.telemetry._fKeyboardTextEditingUsed = true ∧
      flaggedHost.telemetry._fKeyboardTextSelectionUsed = true ∧
      flaggedHost.telemetry._fUserInteractiveForTelemetry = true) ∧
    (run sampleCapacity closingSession flaggedHost).telemetry._fBashUsed = true ∧
    (run sampleCapacity closingSession flaggedHost).telemetry._fCtrlPgUpPgDnUsed = true ∧
    (run sampleCapacity closingSession flaggedHost).telemetry._fKeyboardTextEditingUsed = true ∧
    (run sampleCapacity closingSession
      flaggedHost).telemetry._fKeyboardTextSelectionUsed = true ∧
    (run sampleCapacity closingSession
      flaggedHost).telemetry._fUserInteractiveForTelemetry = true :=
  ⟨by decide,
    (usage_flags_monotonic sampleCapacity closingSession flaggedHost).1 (by decide),
    (usage_flags_monotonic sampleCapacity closingSession flaggedHost).2.1 (by decide),
    (usage_flags_monotonic sampleCapacity closingSession flaggedHost).2.2.1 (by decide),
    (usage_flags_monotonic sampleCapacity closingSession flaggedHost).2.2.2.1 (by decide),
    (usage_flags_monotonic sampleCapacity closingSession flaggedHost).2.2.2.2 (by decide)⟩

/-! ## Outcomes of a connection -/

theorem wcsnicmp_eq_zero_wcslen :
    ∀ (n : Nat) (a b : List Nat), wcsnicmp a b n = 0 → wcslen a < n → wcslen b = wcslen a := by
  intro n
  induction n with
  | zero => intro a b _ h; omega
  | succ n ih =>
    intro a b h hl
    rw [wcsnicmp_succ] at h
    have hz : ∀ l : List Nat, l.headD 0 = 0 → wcslen l = 0 := by
      intro l hl0
      cases l with
      | nil => rfl
      | cons c l =>
        simp only [List.headD_cons] at hl0
        unfold wcslen
        rw [wcstr_cons, if_pos hl0]; rfl
    by_cases hc : towlower (a.headD 0) ≠ 0 ∧ towlower (a.headD 0) = towlower (b.headD 0)
    · rw [if_pos hc] at h
      have ha0 : a.headD 0 ≠ 0 := fun h0 => hc.1 (towlower_eq_zero.mpr h0)
      have hb0 : b.headD 0 ≠ 0 := fun h0 => hc.1 (hc.2.trans (towlower_eq_zero.mpr h0))
      cases a with
      | nil => exact absurd rfl ha0
      | cons x a =>
        cases b with
        | nil => exact absurd rfl hb0
        | cons y b =>
          simp only [List.headD_cons] at ha0 hb0
          simp only [List.tail_cons] at h
          have e1 : wcslen (x :: a) = wcslen a + 1 := by
            unfold wcslen; rw [wcstr_cons, if_neg ha0, List.length_cons]
          have e2 : wcslen (y :: b) = wcslen b + 1 := by
            unfold wcslen; rw [wcstr_cons, if_neg hb0, List.length_cons]
          have := ih a b h (by omega)
          omega
    · rw [if_neg hc] at h
      have heq : towlower (a.headD 0) = towlower (b.headD 0) := by omega
      have ha0 : a.headD 0 = 0 := by
        by_contra hne
        exact hc ⟨fun h0 => hne (towlower_eq_zero.mp h0), heq⟩
      have hb0 : b.headD 0 = 0 :=
        towlower_eq_zero.mp (heq.symm.trans (towlower_eq_zero.mpr ha0))
      rw [hz a ha0, hz b hb0]

namespace Telemetry

theorem fBashUsed_congr {t t' : Telemetry} (img : ProcessImage)
    (hf : t'._fBashUsed = t._fBashUsed) :
    LogProcessConnected.fBashUsed t' img = LogProcessConnected.fBashUsed t img := by
  unfold LogProcessConnected.fBashUsed
  rw [hf]

theorem fBashUsed_long_name {K : Capacity} {t : Telemetry} {img : ProcessImage}
    (hg : t._iProcessFileNamesNext < K.cchProcessFileNames - 10)
    (hr : ¬ wcslen img.pwszFileName < K.cchProcessFileNames - t._iProcessFileNamesNext - 1) :
    LogProcessConnected.fBashUsed t img = t._fBashUsed := by
  unfold LogProcessConnected.fBashUsed
  split
  · rename_i hc
    have h8 : wcslen c_pwszBashExeName = 8 := by decide
    have := wcsnicmp_eq_zero_wcslen MAX_PATH c_pwszBashExeName img.pwszFileName hc.2
      (by rw [h8]; decide)
    omega
  · rfl

/-- The four ways `LogProcessConnected` disposes of a sampled connection of a resolved
process: the name is found; it is new and recorded; it is new and rejected. -/
theorem LogProcessConnected_outcome {K : Capacity} (hK : K.Valid) {h : Host}
    (hi : Inv K h.telemetry) (img : ProcessImage) :
    (∃ p, FindProcessName (TotalCodesForPreviousProcess K h).telemetry img.pwszFileName
        = some (true, p) ∧
      IsMatch (TotalCodesForPreviousProcess K h).telemetry img.pwszFileName p ∧
      LogProcessConnected K true (some img) h =
        { TotalCodesForPreviousProcess K h with
          telemetry := { (TotalCodesForPreviousProcess K h).telemetry with
            _iProcessConnectedCurrently :=
              (TotalCodesForPreviousProcess K h).telemetry._rgiAlphabeticalIndex p
            _rguiProcessFileNamesCount :=
              setAt (TotalCodesForPreviousProcess K h).telemetry._rguiProcessFileNamesCount
                ((TotalCodesForPreviousProcess K h).telemetry._rgiAlphabeticalIndex p)
                (((TotalCodesForPreviousProcess K h).telemetry._rguiProcessFileNamesCount
                  ((TotalCodesForPreviousProcess K h).telemetry._rgiAlphabeticalIndex p) + 1)
                    % UINT_MOD) } }) ∨
    (∃ p, FindProcessName (TotalCodesForPreviousProcess K h).telemetry img.pwszFileName
        = some (false, p) ∧
      IsInsertionPoint (TotalCodesForPreviousProcess K h).telemetry img.pwszFileName p ∧
      LogProcessConnected.admits K (TotalCodesForPreviousProcess K h).telemetry
        img.pwszFileName ∧
      LogProcessConnected K true (some img) h =
        { TotalCodesForPreviousProcess K h with
          telemetry := LogProcessConnected.recorded
            (TotalCodesForPreviousProcess K h).telemetry img p }) ∨
    (∃ p buf, FindProcessName (TotalCodesForPreviousProcess K h).telemetry img.pwszFileName
        = some (false, p) ∧
      ¬ LogProcessConnected.admits K (TotalCodesForPreviousProcess K h).telemetry
        img.pwszFileName ∧
      (∀ e, e < (TotalCodesForPreviousProcess K h).telemetry._iProcessFileNamesNext →
        buf[e]? = (TotalCodesForPreviousProcess K h).telemetry._wchProcessFileNames[e]?) ∧
      LogProcessConnected K true (some img) h =
        { TotalCodesForPreviousProcess K h with
          telemetry := { (TotalCodesForPreviousProcess K h).telemetry with
            _wchProcessFileNames := buf } }) := by
  have hi1 := TotalCodes_inv K hK h hi
  obtain ⟨found, p, hf, hm, hip⟩ :=
    FindProcessName_spec (TotalCodesForPreviousProcess K h).telemetry img.pwszFileName
      hi1.sorted
  cases found with
  | true => exact Or.inl ⟨p, hf, hm rfl, LogProcessConnected_hit hf⟩
  | false =>
    by_cases ha : (TotalCodesForPreviousProcess K h).telemetry._uiNumberProcessFileNames
        < K.c_iMaxProcessesConnected ∧
      (TotalCodesForPreviousProcess K h).telemetry._iProcessFileNamesNext
        < K.cchProcessFileNames - 10
    · by_cases hr : wcslen img.pwszFileName < K.cchProcessFileNames -
        (TotalCodesForPreviousProcess K h).telemetry._iProcessFileNamesNext - 1
      · exact Or.inr (Or.inl ⟨p, hf, hip rfl, ⟨ha.1, ha.2, hr⟩,
          LogProcessConnected_recorded hK hf ⟨ha.1, ha.2, hr⟩⟩)
      · have hfr := StringCchCopyW_frame
          (TotalCodesForPreviousProcess K h).telemetry._wchProcessFileNames
          (TotalCodesForPreviousProcess K h).telemetry._iProcessFileNamesNext
          (K.cchProcessFileNames -
            (TotalCodesForPreviousProcess K h).telemetry._iProcessFileNamesNext - 1)
          img.pwszFileName (by have := hi1.buf_len; have := ha.2; omega)
        refine Or.inr (Or.inr ⟨p, _, hf, fun hadm => hr hadm.2.2, hfr.2, ?_⟩)
        rw [LogProcessConnected_no_room hf ha hr, fBashUsed_long_name ha.2 hr]
    · refine Or.inr (Or.inr ⟨p, _, hf, fun hadm => ha ⟨hadm.1, hadm.2.1⟩, fun e _ => rfl, ?_⟩)
      rw [LogProcessConnected_full hf ha]

end Telemetry

namespace Telemetry

theorem SameNames.IsInsertionPoint {t t' : Telemetry} (h : SameNames t t') {x : List Nat}
    {p : Nat} (hp : IsInsertionPoint t' x p) : IsInsertionPoint t x p := by
  unfold Telemetry.IsInsertionPoint at hp ⊢
  simp only [h.processFileName, h.2.2.1, h.2.2.2] at hp
  exact hp

theorem SameNames.admits {K : Capacity} {t t' : Telemetry} (h : SameNames t t')
    (hn : t'._iProcessFileNamesNext = t._iProcessFileNamesNext) (x : List Nat) :
    LogProcessConnected.admits K t' x ↔ LogProcessConnected.admits K t x := by
  unfold LogProcessConnected.admits
  rw [h.2.2.2, hn]

end Telemetry

/-- Effect of one operation on the table of process names, from a state satisfying the
invariant: the stored names are kept, and either nothing of the table changes, or
the connection count of one slot grows (a hit), or one name is appended. -/
theorem step_table {K : Capacity} (hK : K.Valid) (op : Op) {h : Host}
    (hi : Telemetry.Inv K h.telemetry) :
    (∀ i, i < h.telemetry._uiNumberProcessFileNames →
      wcstr ((step K op h).telemetry.processFileName i) =
        wcstr (h.telemetry.processFileName i)) ∧
    ((credited K op h = false ∧ acceptedBy K op h = [] ∧
        (step K op h).telemetry._uiNumberProcessFileNames =
          h.telemetry._uiNumberProcessFileNames ∧
        (step K op h).telemetry._iProcessFileNamesNext = h.telemetry._iProcessFileNamesNext ∧
        (step K op h).telemetry._rgiProccessFileNameIndex =
          h.telemetry._rgiProccessFileNameIndex ∧
        (step K op h).telemetry._rguiProcessFileNamesCount =
          h.telemetry._rguiProcessFileNamesCount ∧
        (step K op h).telemetry._rgiAlphabeticalIndex = h.telemetry._rgiAlphabeticalIndex ∧
        (step K op h).telemetry._fBashUsed = h.telemetry._fBashUsed) ∨
      (credited K op h = true ∧ acceptedBy K op h = [] ∧
        (step K op h).telemetry._uiNumberProcessFileNames =
          h.telemetry._uiNumberProcessFileNames ∧
        (step K op h).telemetry._iProcessFileNamesNext = h.telemetry._iProcessFileNamesNext ∧
        (step K op h).telemetry._rgiProccessFileNameIndex =
          h.telemetry._rgiProccessFileNameIndex ∧
        (step K op h).telemetry._rgiAlphabeticalIndex = h.telemetry._rgiAlphabeticalIndex ∧
        (step K op h).telemetry._fBashUsed = h.telemetry._fBashUsed ∧
        ∃ i, i < h.telemetry._uiNumberProcessFileNames ∧
          (step K op h).telemetry._rguiProcessFileNamesCount =
            setAt h.telemetry._rguiProcessFileNamesCount i
              ((h.telemetry._rguiProcessFileNamesCount i + 1) % UINT_MOD)) ∨
      (∃ img p, op = Op.LogProcessConnected true (some img) ∧
        Telemetry.IsInsertionPoint h.telemetry img.pwszFileName p ∧
        h.telemetry._uiNumberProcessFileNames < K.c_iMaxProcessesConnected ∧
        credited K op h = true ∧ acceptedBy K op h = [wcstr img.pwszFileName] ∧
        (step K op h).telemetry._uiNumberProcessFileNames =
          h.telemetry._uiNumberProcessFileNames + 1 ∧
        (step K op h).telemetry._iProcessFileNamesNext =
          h.telemetry._iProcessFileNamesNext + wcslen img.pwszFileName + 1 ∧
        (step K op h).telemetry._rgiProccessFileNameIndex =
          setAt h.telemetry._rgiProccessFileNameIndex h.telemetry._uiNumberProcessFileNames
            h.telemetry._iProcessFileNamesNext ∧
        (step K op h).telemetry._rguiProcessFileNamesCount =
          setAt h.telemetry._rguiProcessFileNamesCount
            h.telemetry._uiNumberProcessFileNames 1 ∧
        (step K op h).telemetry._rgiAlphabeticalIndex =
          setAt (Telemetry.shiftAlphabeticalIndex h.telemetry._rgiAlphabeticalIndex p
            h.telemetry._uiNumberProcessFileNames) p h.telemetry._uiNumberProcessFileNames ∧
        (step K op h).telemetry._fBashUsed =
          Telemetry.LogProcessConnected.fBashUsed h.telemetry img ∧
        wcstr ((step K op h).telemetry.processFileName
          h.telemetry._uiNumberProcessFileNames) = wcstr img.pwszFileName)) := by
  cases op with
  | LogProcessConnected fEnabled hProcess =>
    cases fEnabled with
    | false =>
      cases hProcess <;>
        exact ⟨fun i _ => rfl, Or.inl ⟨rfl, rfl, rfl, rfl, rfl, rfl, rfl, rfl⟩⟩
    | true =>
      cases hProcess with
      | none =>
        obtain ⟨c1, c2, c3, cur, heq, _⟩ := Telemetry.TotalCodes_frame K h
        have e : (step K (Op.LogProcessConnected true none) h).telemetry = _ :=
          (congrArg Host.telemetry (Telemetry.LogProcessConnected_unresolved K h)).trans heq
        rw [e]
        exact ⟨fun i _ => rfl, Or.inl ⟨rfl, rfl, rfl, rfl, rfl, rfl, rfl, rfl⟩⟩
      | some img =>
        have hi1 := Telemetry.TotalCodes_inv K hK h hi
        have hsn := Telemetry.TotalCodes_sameNames K h
        have hnx := Telemetry.TotalCodes_next K h
        have hcn := Telemetry.TotalCodes_count K h
        have hfl := (Telemetry.TotalCodes_flags K h).1
        have hfp := hsn.FindProcessName img.pwszFileName
        have hst : (step K (Op.LogProcessConnected true (some img)) h) =
            Telemetry.LogProcessConnected K true (some img) h := rfl
        rcases Telemetry.LogProcessConnected_outcome hK hi img with
          ⟨p, hf, hm, he⟩ | ⟨p, hf, hip, ha, he⟩ | ⟨p, buf, hf, ha, hb, he⟩
        · rw [hfp] at hf
          rw [hst, he]
          refine ⟨fun i _ => ?_, Or.inr (Or.inl ⟨?_, ?_, hsn.2.2.2, hnx, hsn.2.1, hsn.2.2.1,
            hfl, ?_⟩)⟩
          · exact congrArg wcstr (hsn.processFileName i)
          · simp only [credited, hf]
          · simp only [acceptedBy, hf]
          · refine ⟨h.telemetry._rgiAlphabeticalIndex p, ?_, ?_⟩
            · have := hi1.sorted.1 p hm.1
              rw [hsn.2.2.2, hsn.2.2.1] at this
              exact this
            · show setAt _ _ _ = _
              rw [hcn, hsn.2.2.1]
        · rw [hfp] at hf
          have ha2 := (hsn.admits hnx img.pwszFileName).mp ha
          rw [hst, he]
          refine ⟨fun i hin => ?_, Or.inr (Or.inr ⟨img, p, rfl, hsn.IsInsertionPoint hip, ha2.1,
            ?_, ?_, ?_, ?_, ?_, ?_, ?_, ?_, ?_⟩)⟩
          · rw [Telemetry.recorded_old_name hi1 img p (by rw [hsn.2.2.2]; exact hin)]
            exact congrArg wcstr (hsn.processFileName i)
          · simp only [credited, hf, ha2, decide_True]
          · simp only [acceptedBy, hf, if_pos ha2]
          · show _ + 1 = _
            rw [hsn.2.2.2]
          · show _ + _ + 1 = _
            rw [hnx]
          · show setAt _ _ _ = _
            rw [hsn.2.1, hsn.2.2.2, hnx]
          · show setAt _ _ _ = _
            rw [hcn, hsn.2.2.2]
          · show setAt _ _ _ = _
            rw [hsn.2.2.1, hsn.2.2.2]
          · exact Telemetry.fBashUsed_congr img hfl
          · rw [← hsn.2.2.2]
            exact Telemetry.recorded_new_name hi1 img p
        · rw [hfp] at hf
          have ha2 : ¬ Telemetry.LogProcessConnected.admits K h.telemetry img.pwszFileName :=
            fun hadm => ha ((hsn.admits hnx img.pwszFileName).mpr hadm)
          rw [hst, he]
          refine ⟨fun i hin => ?_, Or.inl ⟨?_, ?_, hsn.2.2.2, hnx, hsn.2.1, hcn, hsn.2.2.1,
            hfl⟩⟩
          · have := hi1.names_preserved (fun e _ he2 => hb e he2)
              (show i < _ by rw [hsn.2.2.2]; exact hin)
            exact this.trans (congrArg wcstr (hsn.processFileName i))
          · simp only [credited, hf, ha2, decide_False]
          · simp only [acceptedBy, hf, if_neg ha2]
  | WriteFinalTraceLog fEnabled tEndedAt ci =>
    obtain ⟨c1, c2, c3, cur, heq, _⟩ :=
      Telemetry.WriteFinalTraceLog_frame K fEnabled tEndedAt ci h
    have e : (step K (Op.WriteFinalTraceLog fEnabled tEndedAt ci) h).telemetry = _ := heq
    rw [e]
    exact ⟨fun i _ => rfl, Or.inl ⟨rfl, rfl, rfl, rfl, rfl, rfl, rfl, rfl⟩⟩
  | LogApiCall api fUnicode =>
    cases fUnicode <;>
      exact ⟨fun i _ => rfl, Or.inl ⟨rfl, rfl, rfl, rfl, rfl, rfl, rfl, rfl⟩⟩
  | _ => exact ⟨fun i _ => rfl, Or.inl ⟨rfl, rfl, rfl, rfl, rfl, rfl, rfl, rfl⟩⟩

/-! ## Array bounds -/

namespace Telemetry

theorem FindProcessName.checkedLoop_eq (t : Telemetry) (x : List Nat) :
    ∀ (fuel : Nat) (iMin iMax iMid result : Int),
      0 ≤ iMin → iMax < (t._uiNumberProcessFileNames : Int) →
      FindProcessName.checkedLoop t x fuel iMin iMax iMid result =
        FindProcessName.loop t x fuel iMin iMax iMid result := by
  intro fuel
  induction fuel with
  | zero => intros; rfl
  | succ fuel ih =>
    intro iMin iMax iMid result h0 h1
    rw [FindProcessName.checkedLoop, FindProcessName.loop]
    by_cases hle : iMin ≤ iMax
    · rw [if_pos hle, if_pos hle]
      have hmid : Int.tdiv (iMax + iMin) 2 = (iMax + iMin) / 2 :=
        Int.tdiv_eq_ediv (by omega) (by omega)
      simp only [hmid]
      rw [if_pos (by omega)]
      rw [ih _ _ _ _ h0 (by omega), ih _ _ _ _ (by omega) h1]
    · rw [if_neg hle, if_neg hle]

theorem FindProcessName.checked_eq (t : Telemetry) (x : List Nat) :
    FindProcessName.checked t x = FindProcessName t x := by
  unfold FindProcessName.checked FindProcessName
  exact FindProcessName.checkedLoop_eq t x _ _ _ _ _ (le_refl _) (by omega)

end Telemetry

/-- Claim C25. In every state reachable from the freshly constructed aggregator the
array accesses of `FindProcessName`, `LogProcessConnected` and
`TotalCodesForPreviousProcess` are in bounds: the number of names is at most the slot
capacity; every entry of the alphabetical index below the count is a slot below the
count; every slot offset is at least 1 and below the write cursor; the write cursor
is at most the buffer size minus one and the buffer has its declared size; the
attributed process is `SIZE_MAX` or a slot below the count; `FindProcessName` probes
the alphabetical index only below the count (the checked loop returns what the loop
returns) and returns a position that is at most the count, below it when the name is
found; and an operation changes the alphabetical index only at indices up to the
count, and only when the count is below the capacity. -/
theorem array_accesses_in_bounds (K : Capacity) (hK : K.Valid) (h : Host)
    (hr : Reachable K h) :
    h.telemetry._uiNumberProcessFileNames ≤ K.c_iMaxProcessesConnected ∧
    (∀ j, j < h.telemetry._uiNumberProcessFileNames →
      h.telemetry._rgiAlphabeticalIndex j < h.telemetry._uiNumberProcessFileNames) ∧
    (∀ i, i < h.telemetry._uiNumberProcessFileNames →
      1 ≤ h.telemetry._rgiProccessFileNameIndex i ∧
      h.telemetry._rgiProccessFileNameIndex i < h.telemetry._iProcessFileNamesNext) ∧
    h.telemetry._iProcessFileNamesNext ≤ K.cchProcessFileNames - 1 ∧
    h.telemetry._wchProcessFileNames.length = K.cchProcessFileNames ∧
    (h.telemetry._iProcessConnectedCurrently = SIZE_MAX ∨
      h.telemetry._iProcessConnectedCurrently < h.telemetry._uiNumberProcessFileNames) ∧
    (∀ x, ∃ found p, Telemetry.FindProcessName.checked h.telemetry x = some (found, p) ∧
      h.telemetry.FindProcessName x = some (found, p) ∧
      p ≤ h.telemetry._uiNumberProcessFileNames ∧
      (found = true → p < h.telemetry._uiNumberProcessFileNames)) ∧
    (∀ op,
      (∀ k, h.telemetry._uiNumberProcessFileNames < k →
        (step K op h).telemetry._rgiAlphabeticalIndex k = h.telemetry._rgiAlphabeticalIndex k) ∧
      ((step K op h).telemetry._rgiAlphabeticalIndex ≠ h.telemetry._rgiAlphabeticalIndex →
        h.telemetry._uiNumberProcessFileNames < K.c_iMaxProcessesConnected)) := by
  have hi := hr.inv hK
  refine ⟨hi.count_le, hi.sorted.1, ?_, hi.next_le, hi.buf_len, hi.current, ?_, ?_⟩
  · intro i hin
    obtain ⟨h1, e, he1, he2, _⟩ := hi.terminated i hin
    exact ⟨h1, by omega⟩
  · intro x
    obtain ⟨found, p, hf, hm, hip⟩ := Telemetry.FindProcessName_spec h.telemetry x hi.sorted
    refine ⟨found, p, (Telemetry.FindProcessName.checked_eq _ _).trans hf, hf, ?_, ?_⟩
    · cases found with
      | true => exact Nat.le_of_lt (hm rfl).1
      | false => exact (hip rfl).1
    · intro hft
      exact (hm hft).1
  · intro op
    rcases (step_table hK op hi).2 with hu | hh | ⟨img, p, _, hip, hcap, _, _, _, _, _, _, ha, _⟩
    · exact ⟨fun k _ => by rw [hu.2.2.2.2.2.2.1], fun hne => absurd hu.2.2.2.2.2.2.1 hne⟩
    · exact ⟨fun k _ => by rw [hh.2.2.2.2.2.1], fun hne => absurd hh.2.2.2.2.2.1 hne⟩
    · refine ⟨fun k hk => ?_, fun _ => hcap⟩
      rw [ha, Telemetry.insertedIndex_apply _ _ _ _ hip.1]
      have hp := hip.1
      rw [if_neg (by omega), if_neg (by omega), if_neg (by omega)]

theorem array_accesses_in_bounds_witness :
    sampleCapacity.Valid ∧ Reachable sampleCapacity sampleHost ∧
    (sampleHost.telemetry._uiNumberProcessFileNames ≤ sampleCapacity.c_iMaxProcessesConnected ∧
    (∀ j, j < sampleHost.telemetry._uiNumberProcessFileNames →
      sampleHost.telemetry._rgiAlphabeticalIndex j < sampleHost.telemetry._uiNumberProcessFileNames) ∧
    (∀ i, i < sampleHost.telemetry._uiNumberProcessFileNames →
      1 ≤ sampleHost.telemetry._rgiProccessFileNameIndex i ∧
      sampleHost.telemetry._rgiProccessFileNameIndex i < sampleHost.telemetry._iProcessFileNamesNext) ∧
    sampleHost.telemetry._iProcessFileNamesNext ≤ sampleCapacity.cchProcessFileNames - 1 ∧
    sampleHost.telemetry._wchProcessFileNames.length = sampleCapacity.cchProcessFileNames ∧
    (sampleHost.telemetry._iProcessConnectedCurrently = SIZE_MAX ∨
      sampleHost.telemetry._iProcessConnectedCurrently < sampleHost.telemetry._uiNumberProcessFileNames) ∧
    (∀ x, ∃ found p, Telemetry.FindProcessName.checked sampleHost.telemetry x = some (found, p) ∧
      sampleHost.telemetry.FindProcessName x = some (found, p) ∧
      p ≤ sampleHost.telemetry._uiNumberProcessFileNames ∧
      (found = true → p < sampleHost.telemetry._uiNumberProcessFileNames)) ∧
    (∀ op,
      (∀ k, sampleHost.telemetry._uiNumberProcessFileNames < k →
        (step sampleCapacity op sampleHost).telemetry._rgiAlphabeticalIndex k = sampleHost.telemetry._rgiAlphabeticalIndex k) ∧
      ((step sampleCapacity op sampleHost).telemetry._rgiAlphabeticalIndex ≠ sampleHost.telemetry._rgiAlphabeticalIndex →
        sampleHost.telemetry._uiNumberProcessFileNames < sampleCapacity.c_iMaxProcessesConnected))) :=
  ⟨by decide, ⟨0, sampleSession, rfl⟩,
    array_accesses_in_bounds sampleCapacity (by decide) sampleHost ⟨0, sampleSession, rfl⟩⟩

/-! ## The bash flag -/

theorem run_induction {K : Capacity} (hK : K.Valid) (P : Host → Prop)
    (hstep : ∀ (op : Op) (h : Host), Telemetry.Inv K h.telemetry → P h → P (step K op h)) :
    ∀ (ops : List Op) (h : Host), Telemetry.Inv K h.telemetry → P h → P (run K ops h) := by
  intro ops
  induction ops with
  | nil => intro h _ hp; exact hp
  | cons op ops ih =>
    intro h hi hp
    rw [run_cons]
    exact ih _ (step_inv hK op hi) (hstep op h hi hp)

namespace Telemetry

theorem absent_of_insertionPoint {t : Telemetry} (hs : IndexSorted t) {x : List Nat} {p : Nat}
    (hp : IsInsertionPoint t x p) :
    ∀ i, i < t._uiNumberProcessFileNames → wcsnicmp x (processFileName t i) MAX_PATH ≠ 0 := by
  intro i hin
  obtain ⟨j, hj, hji⟩ := hs.surjective hin
  rw [← hji]
  by_cases hjp : j < p
  · have := hp.2.1 j hjp
    omega
  · have := hp.2.2 j (by omega) hj
    omega

theorem fBashUsed_eq_true {t : Telemetry} {img : ProcessImage}
    (h : LogProcessConnected.fBashUsed t img = true) :
    t._fBashUsed = true ∨ wcsnicmp c_pwszBashExeName img.pwszFileName MAX_PATH = 0 := by
  unfold LogProcessConnected.fBashUsed at h
  split at h
  · rename_i hc
    exact Or.inr hc.2
  · exact Or.inl h

theorem fBashUsed_not_bash {t : Telemetry} {img : ProcessImage}
    (h : wcsnicmp c_pwszBashExeName img.pwszFileName MAX_PATH ≠ 0) :
    LogProcessConnected.fBashUsed t img = t._fBashUsed := by
  unfold LogProcessConnected.fBashUsed
  rw [if_neg (fun hc => h hc.2)]

theorem fBashUsed_outside_system {t : Telemetry} {img : ProcessImage}
    (hf : t._fBashUsed = false) (hroot : img.fSameRootAsSystemDirectory ≠ some true) :
    LogProcessConnected.fBashUsed t img = false := by
  unfold LogProcessConnected.fBashUsed
  split
  · cases hr : img.fSameRootAsSystemDirectory with
    | none => exact hf
    | some b =>
      cases b with
      | true => exact absurd hr hroot
      | false => rfl
  · exact hf

end Telemetry

/-- A name that compares equal to `bash.exe` is in the table whenever the bash flag
is set. -/
theorem step_bash_present {K : Capacity} (hK : K.Valid) (op : Op) (h : Host)
    (hi : Telemetry.Inv K h.telemetry)
    (hp : h.telemetry._fBashUsed = true → ∃ i, i < h.telemetry._uiNumberProcessFileNames ∧
      wcsnicmp c_pwszBashExeName (h.telemetry.processFileName i) MAX_PATH = 0) :
    (step K op h).telemetry._fBashUsed = true →
      ∃ i, i < (step K op h).telemetry._uiNumberProcessFileNames ∧
        wcsnicmp c_pwszBashExeName ((step K op h).telemetry.processFileName i) MAX_PATH = 0 := by
  obtain ⟨h0, hc⟩ := step_table hK op hi
  have hkeep : ∀ i, i < h.telemetry._uiNumberProcessFileNames →
      wcsnicmp c_pwszBashExeName (h.telemetry.processFileName i) MAX_PATH = 0 →
      wcsnicmp c_pwszBashExeName ((step K op h).telemetry.processFileName i) MAX_PATH = 0 :=
    fun i hin hz => (Telemetry.wcsnicmp_wcstr_congr rfl (h0 i hin) MAX_PATH).trans hz
  intro hft
  rcases hc with hu | hh | ⟨img, p, _, hip, _, _, _, hcount, _, _, _, _, hflag, hnew⟩
  · obtain ⟨i, hin, hz⟩ := hp (hu.2.2.2.2.2.2.2.symm.trans hft)
    exact ⟨i, by rw [hu.2.2.1]; exact hin, hkeep i hin hz⟩
  · obtain ⟨i, hin, hz⟩ := hp (hh.2.2.2.2.2.2.1.symm.trans hft)
    exact ⟨i, by rw [hh.2.2.1]; exact hin, hkeep i hin hz⟩
  · rw [hflag] at hft
    rcases Telemetry.fBashUsed_eq_true hft with hold | hb
    · obtain ⟨i, hin, hz⟩ := hp hold
      exact ⟨i, by rw [hcount]; omega, hkeep i hin hz⟩
    · exact ⟨h.telemetry._uiNumberProcessFileNames, by rw [hcount]; omega,
        (Telemetry.wcsnicmp_wcstr_congr rfl hnew MAX_PATH).trans hb⟩

theorem Reachable.bash_present {K : Capacity} (hK : K.Valid) {h : Host} (hr : Reachable K h) :
    h.telemetry._fBashUsed = true → ∃ i, i < h.telemetry._uiNumberProcessFileNames ∧
      wcsnicmp c_pwszBashExeName (h.telemetry.processFileName i) MAX_PATH = 0 := by
  obtain ⟨t0, ops, rfl⟩ := hr
  refine run_induction hK (fun h => h.telemetry._fBashUsed = true →
    ∃ i, i < h.telemetry._uiNumberProcessFileNames ∧
      wcsnicmp c_pwszBashExeName (h.telemetry.processFileName i) MAX_PATH = 0)
    (fun op h hi hp => step_bash_present hK op h hi hp) ops _
    (Telemetry.Inv_new K hK t0) ?_
  intro hf
  exact absurd hf (by simp [Host.new, Telemetry.new])

/-- Once a name that compares equal to `bash.exe` is in the table with the bash flag
clear, the flag stays clear. -/
theorem step_bash_shadowed {K : Capacity} (hK : K.Valid) (op : Op) (h : Host)
    (hi : Telemetry.Inv K h.telemetry)
    (hp : h.telemetry._fBashUsed = false ∧ ∃ i, i < h.telemetry._uiNumberProcessFileNames ∧
      wcsnicmp c_pwszBashExeName (h.telemetry.processFileName i) MAX_PATH = 0) :
    (step K op h).telemetry._fBashUsed = false ∧
      ∃ i, i < (step K op h).telemetry._uiNumberProcessFileNames ∧
        wcsnicmp c_pwszBashExeName ((step K op h).telemetry.processFileName i) MAX_PATH = 0 := by
  obtain ⟨h0, hc⟩ := step_table hK op hi
  obtain ⟨hf, i, hin, hz⟩ := hp
  have hz2 : wcsnicmp c_pwszBashExeName ((step K op h).telemetry.processFileName i) MAX_PATH
      = 0 := (Telemetry.wcsnicmp_wcstr_congr rfl (h0 i hin) MAX_PATH).trans hz
  rcases hc with hu | hh | ⟨img, p, _, hip, _, _, _, hcount, _, _, _, _, hflag, _⟩
  · exact ⟨hu.2.2.2.2.2.2.2.trans hf, i, by rw [hu.2.2.1]; exact hin, hz2⟩
  · exact ⟨hh.2.2.2.2.2.2.1.trans hf, i, by rw [hh.2.2.1]; exact hin, hz2⟩
  · refine ⟨?_, i, by rw [hcount]; omega, hz2⟩
    rw [hflag, Telemetry.fBashUsed_not_bash, hf]
    intro hb
    have habs := Telemetry.absent_of_insertionPoint hi.sorted hip i hin
    rw [← wcsnicmp_congr_left hb, hz] at habs
    exact habs rfl

/-- Claim C24. From every reachable state, when a process whose image name compares
equal to `bash.exe` and that is not rooted under the system directory connects and
is recorded as a new name, the bash flag is false after that connection and stays
false after every further sequence of operations: in particular after a later
connection of a `bash.exe` rooted under the system directory and after every
connection that follows it, because the root check runs only when the name is first
inserted into the table. -/
theorem bash_outside_system_first (K : Capacity) (hK : K.Valid) (h : Host)
    (hr : Reachable K h) (img : ProcessImage)
    (hbash : wcsnicmp c_pwszBashExeName img.pwszFileName MAX_PATH = 0)
    (hroot : img.fSameRootAsSystemDirectory ≠ some true)
    (hrec : (Telemetry.LogProcessConnected K true (some img) h).telemetry._uiNumberProcessFileNames
      = h.telemetry._uiNumberProcessFileNames + 1)
    (ops : List Op) :
    (Telemetry.LogProcessConnected K true (some img) h).telemetry._fBashUsed = false ∧
    (run K ops (Telemetry.LogProcessConnected K true (some img) h)).telemetry._fBashUsed
      = false ∧
    ∀ later : ProcessImage,
      (Telemetry.LogProcessConnected K true (some later)
        (run K ops (Telemetry.LogProcessConnected K true (some img) h))).telemetry._fBashUsed
        = false := by
  have hi := hr.inv hK
  have hst : step K (Op.LogProcessConnected true (some img)) h =
      Telemetry.LogProcessConnected K true (some img) h := rfl
  have hi1 : Telemetry.Inv K (Telemetry.LogProcessConnected K true (some img) h).telemetry :=
    Telemetry.LogProcessConnected_inv hK true (some img) hi
  have hJ : (Telemetry.LogProcessConnected K true (some img) h).telemetry._fBashUsed = false ∧
      ∃ i, i < (Telemetry.LogProcessConnected K true (some img) h).telemetry._uiNumberProcessFileNames
        ∧ wcsnicmp c_pwszBashExeName
          ((Telemetry.LogProcessConnected K true (some img) h).telemetry.processFileName i)
          MAX_PATH = 0 := by
    rw [← hst] at hrec ⊢
    rcases (step_table hK (Op.LogProcessConnected true (some img)) hi).2 with
      hu | hh | ⟨img2, p, hop, hip, _, _, _, hcount, _, _, _, _, hflag, hnew⟩
    · have := hu.2.2.1
      omega
    · have := hh.2.2.1
      omega
    · have himg : img2 = img := by
        injection hop with _ hsome
        injection hsome with hsame
        exact hsame.symm
      subst himg
      have hfalse : h.telemetry._fBashUsed = false := by
        cases hfl : h.telemetry._fBashUsed with
        | false => rfl
        | true =>
          obtain ⟨i, hin, hz⟩ := hr.bash_present hK hfl
          have habs := Telemetry.absent_of_insertionPoint hi.sorted hip i hin
          rw [← wcsnicmp_congr_left hbash, hz] at habs
          exact absurd rfl habs
      refine ⟨?_, h.telemetry._uiNumberProcessFileNames, by rw [hcount]; omega, ?_⟩
      · rw [hflag]
        exact Telemetry.fBashUsed_outside_system hfalse hroot
      · exact (Telemetry.wcsnicmp_wcstr_congr rfl hnew MAX_PATH).trans hbash
  have hrun : ∀ l : List Op,
      (run K l (Telemetry.LogProcessConnected K true (some img) h)).telemetry._fBashUsed = false ∧
      ∃ i, i < (run K l (Telemetry.LogProcessConnected K true (some img) h)).telemetry._uiNumberProcessFileNames
        ∧ wcsnicmp c_pwszBashExeName
          ((run K l (Telemetry.LogProcessConnected K true (some img) h)).telemetry.processFileName i)
          MAX_PATH = 0 := fun l =>
    run_induction hK (fun h => h.telemetry._fBashUsed = false ∧
      ∃ i, i < h.telemetry._uiNumberProcessFileNames ∧
        wcsnicmp c_pwszBashExeName (h.telemetry.processFileName i) MAX_PATH = 0)
      (fun op h hi hp => step_bash_shadowed hK op h hi hp) l _ hi1 hJ
  refine ⟨hJ.1, (hrun ops).1, fun later => ?_⟩
  exact (step_bash_shadowed hK (Op.LogProcessConnected true (some later)) _
    (run_inv hK ops hi1) (hrun ops)).1

set_option maxRecDepth 100000 in
theorem bash_outside_system_first_witness :
    sampleCapacity.Valid ∧ Reachable sampleCapacity (Host.new sampleCapacity 0) ∧
    wcsnicmp c_pwszBashExeName bashOutsideSystem.pwszFileName MAX_PATH = 0 ∧
    bashOutsideSystem.fSameRootAsSystemDirectory ≠ some true ∧
    (Telemetry.LogProcessConnected sampleCapacity true (some bashOutsideSystem)
      (Host.new sampleCapacity 0)).telemetry._uiNumberProcessFileNames =
        (Host.new sampleCapacity 0).telemetry._uiNumberProcessFileNames + 1 ∧
    ((Telemetry.LogProcessConnected sampleCapacity true (some bashOutsideSystem) (Host.new sampleCapacity 0)).telemetry._fBashUsed = false ∧
    (run sampleCapacity bashSession (Telemetry.LogProcessConnected sampleCapacity true (some bashOutsideSystem) (Host.new sampleCapacity 0))).telemetry._fBashUsed
      = false ∧
    ∀ later : ProcessImage,
      (Telemetry.LogProcessConnected sampleCapacity true (some later)
        (run sampleCapacity bashSession (Telemetry.LogProcessConnected sampleCapacity true (some bashOutsideSystem) (Host.new sampleCapacity 0)))).telemetry._fBashUsed
        = false) ∧
    (run sampleCapacity bashSession (Host.new sampleCapacity 0)).telemetry._fBashUsed = true :=
  ⟨by decide, ⟨0, [], rfl⟩, by decide, by decide, by decide,
    bash_outside_system_first sampleCapacity (by decide) (Host.new sampleCapacity 0)
      ⟨0, [], rfl⟩ bashOutsideSystem (by decide) (by decide) (by decide) bashSession,
    by decide⟩

/-! ## Layout of the packed buffer -/

theorem packedEnd_append (names : List (List Nat)) (x : List Nat) :
    packedEnd (names ++ [x]) = packedEnd names + x.length + 1 := by
  simp only [packedEnd, List.map_append, List.sum_append, List.map_cons, List.map_nil,
    List.sum_cons, List.sum_nil]
  omega

namespace Telemetry

theorem storedNames_length (t : Telemetry) :
    (storedNames t).length = t._uiNumberProcessFileNames := by
  simp [storedNames]

theorem storedNames_getElem? {t : Telemetry} {i : Nat} (hi : i < t._uiNumberProcessFileNames) :
    (storedNames t)[i]? = some (wcstr (processFileName t i)) := by
  simp [storedNames, List.getElem?_range hi]

end Telemetry

theorem storedNames_step {K : Capacity} (hK : K.Valid) (op : Op) {h : Host}
    (hi : Telemetry.Inv K h.telemetry) :
    (step K op h).telemetry.storedNames = h.telemetry.storedNames ++ acceptedBy K op h := by
  obtain ⟨h0, hc⟩ := step_table hK op hi
  have hsame : (step K op h).telemetry._uiNumberProcessFileNames =
      h.telemetry._uiNumberProcessFileNames →
      (step K op h).telemetry.storedNames = h.telemetry.storedNames := by
    intro hcount
    unfold Telemetry.storedNames
    rw [hcount]
    apply List.map_congr_left
    intro i hin
    exact h0 i (List.mem_range.mp hin)
  rcases hc with hu | hh | ⟨img, p, _, _, _, _, hacc, hcount, _, _, _, _, _, hnew⟩
  · rw [hu.2.1, List.append_nil]
    exact hsame hu.2.2.1
  · rw [hh.2.1, List.append_nil]
    exact hsame hh.2.2.1
  · rw [hacc]
    unfold Telemetry.storedNames
    rw [hcount, List.range_succ, List.map_append, List.map_cons, List.map_nil, hnew]
    congr 1
    apply List.map_congr_left
    intro i hin
    exact h0 i (List.mem_range.mp hin)

theorem run_storedNames {K : Capacity} (hK : K.Valid) :
    ∀ (ops : List Op) (h : Host), Telemetry.Inv K h.telemetry →
      (run K ops h).telemetry.storedNames = h.telemetry.storedNames ++ acceptedNames K ops h := by
  intro ops
  induction ops with
  | nil => intro h _; simp [run, acceptedNames]
  | cons op ops ih =>
    intro h hi
    rw [run_cons, ih _ (step_inv hK op hi), storedNames_step hK op hi, List.append_assoc]
    rfl

theorem run_names_kept {K : Capacity} (hK : K.Valid) :
    ∀ (ops : List Op) (h : Host), Telemetry.Inv K h.telemetry →
      h.telemetry._uiNumberProcessFileNames ≤ (run K ops h).telemetry._uiNumberProcessFileNames ∧
      ∀ i, i < h.telemetry._uiNumberProcessFileNames →
        wcstr ((run K ops h).telemetry.processFileName i) =
          wcstr (h.telemetry.processFileName i) := by
  intro ops
  induction ops with
  | nil => intro h _; exact ⟨le_refl _, fun i _ => rfl⟩
  | cons op ops ih =>
    intro h hi
    obtain ⟨h0, hc⟩ := step_table hK op hi
    have hle : h.telemetry._uiNumberProcessFileNames ≤
        (step K op h).telemetry._uiNumberProcessFileNames := by
      rcases hc with hu | hh | ⟨img, p, _, _, _, _, _, hcount, _⟩
      · rw [hu.2.2.1]
      · rw [hh.2.2.1]
      · rw [hcount]; omega
    obtain ⟨ih1, ih2⟩ := ih _ (step_inv hK op hi)
    rw [run_cons]
    exact ⟨le_trans hle ih1, fun i hin => (ih2 i (by omega)).trans (h0 i hin)⟩

/-- The offsets and the cursor are those of names packed one after the other behind
the count header. -/
theorem step_packed {K : Capacity} (hK : K.Valid) (op : Op) (h : Host)
    (hi : Telemetry.Inv K h.telemetry)
    (hp : h.telemetry._iProcessFileNamesNext = packedEnd h.telemetry.storedNames ∧
      ∀ i, i < h.telemetry._uiNumberProcessFileNames →
        h.telemetry._rgiProccessFileNameIndex i = packedEnd (h.telemetry.storedNames.take i)) :
    (step K op h).telemetry._iProcessFileNamesNext =
        packedEnd (step K op h).telemetry.storedNames ∧
      ∀ i, i < (step K op h).telemetry._uiNumberProcessFileNames →
        (step K op h).telemetry._rgiProccessFileNameIndex i =
          packedEnd ((step K op h).telemetry.storedNames.take i) := by
  have hnames := storedNames_step hK op hi
  have hlen := Telemetry.storedNames_length h.telemetry
  rcases (step_table hK op hi).2 with hu | hh |
    ⟨img, p, _, _, _, _, hacc, hcount, hnext, hoff, _, _, _, _⟩
  · rw [hu.2.1, List.append_nil] at hnames
    rw [hnames, hu.2.2.1, hu.2.2.2.1, hu.2.2.2.2.1]
    exact hp
  · rw [hh.2.1, List.append_nil] at hnames
    rw [hnames, hh.2.2.1, hh.2.2.2.1, hh.2.2.2.2.1]
    exact hp
  · rw [hacc] at hnames
    rw [hnames, hcount, hnext, hoff, packedEnd_append, ← hp.1]
    refine ⟨rfl, fun i hin => ?_⟩
    rw [List.take_append_of_le_length (by omega)]
    by_cases hic : i = h.telemetry._uiNumberProcessFileNames
    · rw [hic, Telemetry.setAt_same, ← hlen, List.take_length, hp.1]
    · rw [Telemetry.setAt_ne _ _ hic]
      exact hp.2 i (by omega)

theorem new_run_packed {K : Capacity} (hK : K.Valid) (tStartedAt : Int) (ops : List Op) :
    (run K ops (Host.new K tStartedAt)).telemetry._iProcessFileNamesNext =
        packedEnd (run K ops (Host.new K tStartedAt)).telemetry.storedNames ∧
      ∀ i, i < (run K ops (Host.new K tStartedAt)).telemetry._uiNumberProcessFileNames →
        (run K ops (Host.new K tStartedAt)).telemetry._rgiProccessFileNameIndex i =
          packedEnd ((run K ops (Host.new K tStartedAt)).telemetry.storedNames.take i) := by
  refine run_induction hK (fun h =>
    h.telemetry._iProcessFileNamesNext = packedEnd h.telemetry.storedNames ∧
      ∀ i, i < h.telemetry._uiNumberProcessFileNames →
        h.telemetry._rgiProccessFileNameIndex i = packedEnd (h.telemetry.storedNames.take i))
    (fun op h hi hp => step_packed hK op h hi hp) ops _ (Telemetry.Inv_new K hK tStartedAt) ?_
  exact ⟨rfl, fun i hin => absurd hin (Nat.not_lt_zero i)⟩

/-- Claim C26. In every state reached from the freshly constructed aggregator,
decoding the packed buffer recovers the accepted names in arrival order: the strings
read at the offsets of the slots are, slot by slot, the names accepted so far as they were
observed; slot 0 has offset 1; the offset of slot `i + 1` is the offset of slot `i`
plus the length of name `i` plus 1; the write cursor is 1 plus the sum over all slots
of the name length plus 1; and whatever operations follow (accepted or rejected
inserts included), the string read at the offset of each existing slot stays the
same. -/
theorem packed_buffer_decodes (K : Capacity) (hK : K.Valid) (tStartedAt : Int)
    (ops : List Op) :
    (run K ops (Host.new K tStartedAt)).telemetry.storedNames =
      acceptedNames K ops (Host.new K tStartedAt) ∧
    (0 < (run K ops (Host.new K tStartedAt)).telemetry._uiNumberProcessFileNames →
      (run K ops (Host.new K tStartedAt)).telemetry._rgiProccessFileNameIndex 0 = 1) ∧
    (∀ i, i + 1 < (run K ops (Host.new K tStartedAt)).telemetry._uiNumberProcessFileNames →
      (run K ops (Host.new K tStartedAt)).telemetry._rgiProccessFileNameIndex (i + 1) =
        (run K ops (Host.new K tStartedAt)).telemetry._rgiProccessFileNameIndex i +
          wcslen ((run K ops (Host.new K tStartedAt)).telemetry.processFileName i) + 1) ∧
    (run K ops (Host.new K tStartedAt)).telemetry._iProcessFileNamesNext =
      1 + ((run K ops (Host.new K tStartedAt)).telemetry.storedNames.map
        (fun s => s.length + 1)).sum ∧
    (∀ (more : List Op) (i : Nat),
      i < (run K ops (Host.new K tStartedAt)).telemetry._uiNumberProcessFileNames →
      wcstr ((run K more (run K ops (Host.new K tStartedAt))).telemetry.processFileName i) =
        wcstr ((run K ops (Host.new K tStartedAt)).telemetry.processFileName i)) := by
  have hi := new_run_inv hK tStartedAt ops
  obtain ⟨hnext, hoff⟩ := new_run_packed hK tStartedAt ops
  refine ⟨?_, ?_, ?_, hnext, ?_⟩
  · rw [run_storedNames hK ops _ (Telemetry.Inv_new K hK tStartedAt)]
    simp [Host.new, Telemetry.new, Telemetry.storedNames]
  · intro hpos
    rw [hoff 0 hpos]
    rfl
  · intro i hin
    rw [hoff (i + 1) hin, hoff i (by omega), List.take_succ,
      Telemetry.storedNames_getElem? (by omega), Option.toList_some, packedEnd_append]
    rfl
  · intro more i hin
    exact (run_names_kept hK more _ hi).2 i hin

set_option maxRecDepth 100000 in
theorem packed_buffer_decodes_witness :
    sampleCapacity.Valid ∧
    ((run sampleCapacity sampleSession (Host.new sampleCapacity 0)).telemetry.storedNames =
      acceptedNames sampleCapacity sampleSession (Host.new sampleCapacity 0) ∧
    (0 < (run sampleCapacity sampleSession (Host.new sampleCapacity 0)).telemetry._uiNumberProcessFileNames →
      (run sampleCapacity sampleSession (Host.new sampleCapacity 0)).telemetry._rgiProccessFileNameIndex 0 = 1) ∧
    (∀ i, i + 1 < (run sampleCapacity sampleSession (Host.new sampleCapacity 0)).telemetry._uiNumberProcessFileNames →
      (run sampleCapacity sampleSession (Host.new sampleCapacity 0)).telemetry._rgiProccessFileNameIndex (i + 1) =
        (run sampleCapacity sampleSession (Host.new sampleCapacity 0)).telemetry._rgiProccessFileNameIndex i +
          wcslen ((run sampleCapacity sampleSession (Host.new sampleCapacity 0)).telemetry.processFileName i) + 1) ∧
    (run sampleCapacity sampleSession (Host.new sampleCapacity 0)).telemetry._iProcessFileNamesNext =
      1 + ((run sampleCapacity sampleSession (Host.new sampleCapacity 0)).telemetry.storedNames.map
        (fun s => s.length + 1)).sum ∧
    (∀ (more : List Op) (i : Nat),
      i < (run sampleCapacity sampleSession (Host.new sampleCapacity 0)).telemetry._uiNumberProcessFileNames →
      wcstr ((run sampleCapacity more (run sampleCapacity sampleSession (Host.new sampleCapacity 0))).telemetry.processFileName i) =
        wcstr ((run sampleCapacity sampleSession (Host.new sampleCapacity 0)).telemetry.processFileName i))) ∧
    acceptedNames sampleCapacity sampleSession (Host.new sampleCapacity 0) =
      [wszCmdExe, wszBashExe] :=
  ⟨by decide, packed_buffer_decodes sampleCapacity (by decide) 0 sampleSession, by decide⟩

/-! ## Connection counts -/

theorem arrayPrefix_succ (a : Nat → Nat) (n : Nat) :
    arrayPrefix a (n + 1) = arrayPrefix a n ++ [a n] := by
  simp [arrayPrefix, List.range_succ]

theorem arrayPrefix_sum_succ (a : Nat → Nat) (n : Nat) :
    (arrayPrefix a (n + 1)).sum = (arrayPrefix a n).sum + a n := by
  rw [arrayPrefix_succ, List.sum_append, List.sum_cons, List.sum_nil, Nat.add_zero]

theorem arrayPrefix_sum_setAt_ge (a : Nat → Nat) (i v : Nat) :
    ∀ n, n ≤ i → (arrayPrefix (setAt a i v) n).sum = (arrayPrefix a n).sum := by
  intro n
  induction n with
  | zero => intro _; rfl
  | succ n ih =>
    intro hn
    rw [arrayPrefix_sum_succ, arrayPrefix_sum_succ, ih (by omega),
      Telemetry.setAt_ne _ _ (by omega)]

theorem arrayPrefix_sum_setAt_lt (a : Nat → Nat) (i v : Nat) :
    ∀ n, i < n → (arrayPrefix (setAt a i v) n).sum + a i = (arrayPrefix a n).sum + v := by
  intro n
  induction n with
  | zero => intro hn; omega
  | succ n ih =>
    intro hn
    rw [arrayPrefix_sum_succ, arrayPrefix_sum_succ]
    by_cases hin : i = n
    · subst hin
      rw [arrayPrefix_sum_setAt_ge a i v i (le_refl _), Telemetry.setAt_same]
      omega
    · rw [Telemetry.setAt_ne _ _ (fun hni => hin hni.symm)]
      have := ih (by omega)
      omega

theorem arrayPrefix_le_sum (a : Nat → Nat) (i : Nat) :
    ∀ n, i < n → a i ≤ (arrayPrefix a n).sum := by
  intro n
  induction n with
  | zero => intro hn; omega
  | succ n ih =>
    intro hn
    rw [arrayPrefix_sum_succ]
    by_cases hin : i = n
    · subst hin; omega
    · have := ih (by omega)
      omega

/-- One operation on the connection counts, short of the 32-bit limit: the counts of
the slots in use stay positive and their sum grows by one exactly for a credited
connection. -/
theorem step_counts {K : Capacity} (hK : K.Valid) (op : Op) (h : Host)
    (hi : Telemetry.Inv K h.telemetry)
    (hpos : ∀ i, i < h.telemetry._uiNumberProcessFileNames →
      1 ≤ h.telemetry._rguiProcessFileNamesCount i)
    (hno : (arrayPrefix h.telemetry._rguiProcessFileNamesCount
        h.telemetry._uiNumberProcessFileNames).sum + (if credited K op h then 1 else 0)
      < UINT_MOD) :
    (∀ i, i < (step K op h).telemetry._uiNumberProcessFileNames →
      1 ≤ (step K op h).telemetry._rguiProcessFileNamesCount i) ∧
    (arrayPrefix (step K op h).telemetry._rguiProcessFileNamesCount
        (step K op h).telemetry._uiNumberProcessFileNames).sum =
      (arrayPrefix h.telemetry._rguiProcessFileNamesCount
        h.telemetry._uiNumberProcessFileNames).sum + (if credited K op h then 1 else 0) := by
  rcases (step_table hK op hi).2 with hu | hh |
    ⟨img, p, _, _, _, hcr, _, hcount, _, _, hcnt, _, _, _⟩
  · rw [hu.2.2.1, hu.2.2.2.2.2.1, hu.1]
    exact ⟨hpos, rfl⟩
  · obtain ⟨hcr, _, hcount, _, _, _, _, i, hin, hcnt⟩ := hh
    rw [hcr] at hno
    have hle := arrayPrefix_le_sum h.telemetry._rguiProcessFileNamesCount i _ hin
    have hmod : (h.telemetry._rguiProcessFileNamesCount i + 1) % UINT_MOD =
        h.telemetry._rguiProcessFileNamesCount i + 1 := Nat.mod_eq_of_lt (by
      simp only [if_true] at hno
      omega)
    rw [hcount, hcnt, hcr, hmod]
    refine ⟨fun j hj => ?_, ?_⟩
    · by_cases hji : j = i
      · rw [hji, Telemetry.setAt_same]; omega
      · rw [Telemetry.setAt_ne _ _ hji]; exact hpos j hj
    · have := arrayPrefix_sum_setAt_lt h.telemetry._rguiProcessFileNamesCount i
        (h.telemetry._rguiProcessFileNamesCount i + 1) _ hin
      simp only [if_true]
      omega
  · rw [hcount, hcnt, hcr, arrayPrefix_sum_succ, Telemetry.setAt_same,
      arrayPrefix_sum_setAt_ge _ _ _ _ (le_refl _)]
    refine ⟨fun j hj => ?_, rfl⟩
    by_cases hjn : j = h.telemetry._uiNumberProcessFileNames
    · rw [hjn, Telemetry.setAt_same]
    · rw [Telemetry.setAt_ne _ _ hjn]; exact hpos j (by omega)

theorem run_counts {K : Capacity} (hK : K.Valid) :
    ∀ (ops : List Op) (h : Host), Telemetry.Inv K h.telemetry →
      (∀ i, i < h.telemetry._uiNumberProcessFileNames →
        1 ≤ h.telemetry._rguiProcessFileNamesCount i) →
      (arrayPrefix h.telemetry._rguiProcessFileNamesCount
        h.telemetry._uiNumberProcessFileNames).sum + creditedConnects K ops h < UINT_MOD →
      (∀ i, i < (run K ops h).telemetry._uiNumberProcessFileNames →
        1 ≤ (run K ops h).telemetry._rguiProcessFileNamesCount i) ∧
      (arrayPrefix (run K ops h).telemetry._rguiProcessFileNamesCount
          (run K ops h).telemetry._uiNumberProcessFileNames).sum =
        (arrayPrefix h.telemetry._rguiProcessFileNamesCount
          h.telemetry._uiNumberProcessFileNames).sum + creditedConnects K ops h := by
  intro ops
  induction ops with
  | nil => intro h _ hpos _; exact ⟨hpos, rfl⟩
  | cons op ops ih =>
    intro h hi hpos hno
    have hcc : creditedConnects K (op :: ops) h =
        (if credited K op h then 1 else 0) + creditedConnects K ops (step K op h) := rfl
    rw [hcc] at hno ⊢
    obtain ⟨s1, s2⟩ := step_counts hK op h hi hpos (by omega)
    obtain ⟨r1, r2⟩ := ih (step K op h) (step_inv hK op hi) s1 (by rw [s2]; omega)
    rw [run_cons]
    exact ⟨r1, by rw [r2, s2]; omega⟩

/-- Claim C27. For every sequence of operations from the freshly constructed
aggregator with fewer than 2^32 credited connections (so that no connection count
wraps around): every slot below the count has a connection count of at least 1; the
connection counts of the slots in use sum to the number of `LogProcessConnected`
calls that found an existing name or recorded a new one; and an operation that is
not such a call (a rejected or unresolved connection among them) leaves every
connection count as it was. -/
theorem connection_counts_total (K : Capacity) (hK : K.Valid) (tStartedAt : Int)
    (ops : List Op) (hno : creditedConnects K ops (Host.new K tStartedAt) < UINT_MOD) :
    (∀ i, i < (run K ops (Host.new K tStartedAt)).telemetry._uiNumberProcessFileNames →
      1 ≤ (run K ops (Host.new K tStartedAt)).telemetry._rguiProcessFileNamesCount i) ∧
    (arrayPrefix (run K ops (Host.new K tStartedAt)).telemetry._rguiProcessFileNamesCount
        (run K ops (Host.new K tStartedAt)).telemetry._uiNumberProcessFileNames).sum =
      creditedConnects K ops (Host.new K tStartedAt) ∧
    (∀ op, credited K op (run K ops (Host.new K tStartedAt)) = false →
      (step K op (run K ops (Host.new K tStartedAt))).telemetry._rguiProcessFileNamesCount =
        (run K ops (Host.new K tStartedAt)).telemetry._rguiProcessFileNamesCount) := by
  have h0 : (arrayPrefix (Host.new K tStartedAt).telemetry._rguiProcessFileNamesCount
      (Host.new K tStartedAt).telemetry._uiNumberProcessFileNames).sum = 0 := rfl
  obtain ⟨r1, r2⟩ := run_counts hK ops (Host.new K tStartedAt) (Telemetry.Inv_new K hK tStartedAt)
    (fun i hin => absurd hin (Nat.not_lt_zero i)) (by rw [h0]; omega)
  refine ⟨r1, by rw [r2, h0, Nat.zero_add], fun op hcr => ?_⟩
  rcases (step_table hK op (new_run_inv hK tStartedAt ops)).2 with hu | hh |
    ⟨img, p, _, _, _, hcr2, _⟩
  · exact hu.2.2.2.2.2.1
  · rw [hh.1] at hcr; exact absurd hcr (by decide)
  · rw [hcr2] at hcr; exact absurd hcr (by decide)

set_option maxRecDepth 100000 in
theorem connection_counts_total_witness :
    sampleCapacity.Valid ∧
    creditedConnects sampleCapacity sampleSession (Host.new sampleCapacity 0) < UINT_MOD ∧
    ((∀ i, i < (run sampleCapacity sampleSession (Host.new sampleCapacity 0)).telemetry._uiNumberProcessFileNames →
      1 ≤ (run sampleCapacity sampleSession (Host.new sampleCapacity 0)).telemetry._rguiProcessFileNamesCount i) ∧
    (arrayPrefix (run sampleCapacity sampleSession (Host.new sampleCapacity 0)).telemetry._rguiProcessFileNamesCount
        (run sampleCapacity sampleSession (Host.new sampleCapacity 0)).telemetry._uiNumberProcessFileNames).sum =
      creditedConnects sampleCapacity sampleSession (Host.new sampleCapacity 0) ∧
    (∀ op, credited sampleCapacity op (run sampleCapacity sampleSession (Host.new sampleCapacity 0)) = false →
      (step sampleCapacity op (run sampleCapacity sampleSession (Host.new sampleCapacity 0))).telemetry._rguiProcessFileNamesCount =
        (run sampleCapacity sampleSession (Host.new sampleCapacity 0)).telemetry._rguiProcessFileNamesCount)) ∧
    creditedConnects sampleCapacity sampleSession (Host.new sampleCapacity 0) = 3 :=
  ⟨by decide, by decide,
    connection_counts_total sampleCapacity (by decide) 0 sampleSession (by decide),
    by decide⟩

end Terminal
